import Mathlib

/-!
# discord98 voice / screen-streaming core: RTP sealing and H.264 packetisation

A shallow embedding of the packet paths of the repository:

* `VideoRTPSender` (src/core/stream/VideoRTPSender.cpp): Annex-B parsing, single-NAL and
  FU-A packetisation, RTP header construction and AEAD sealing;
* `VideoRTPReceiver` (src/core/stream/VideoRTPReceiver.cpp): opening, FU-A / STAP-A
  reassembly and access-unit flushing;
* `UDPSocket.SendEncrypted` (voice/src/udp_socket.cpp) and
  `LoopbackCapture.SendOpusPacket` (src/core/stream/LoopbackCapture.cpp): the two audio
  sealing paths;
* `VoiceClient` (voice/src/voice_client.cpp) with the parts of `UDPSocket` and `AudioEngine`
  it drives: the gateway handshake, teardown, the `Speaking` mapping and IP discovery;
* `StreamManager` (src/core/stream/StreamManager.cpp): the two-phase start of the stream
  connection;
* `AudioEngine` (voice/src/audio_engine.cpp): decode, playback mix and capture gate;
* `H264Decoder` (src/core/stream/H264Decoder.cpp): the NV12 to BGRA pixel loop.

Conventions.  A byte is a natural number below 256 and a buffer is a `List Nat`.
`uint16_t` / `uint32_t` arithmetic is written with an explicit `% 2 ^ 16` / `% 2 ^ 32`.
`std::memcpy` of a `uint32_t` is the little-endian object representation (the code is
Windows-only: it includes `winsock2.h`).  The libsodium primitive
`crypto_aead_xchacha20poly1305_ietf_{encrypt,decrypt}` is abstract: a structure `AEAD`
carrying the two functions together with the two facts about them that the C++ relies on.
`m_udp->Send` is modelled by handing the datagram back to the caller, and the receiver's
frame callback by a trace of its invocations.
-/

/-! ## Buffers -/

/-- An octet string: `std::vector<uint8_t>` or a `(const uint8_t*, size_t)` pair. -/
abbrev Bytes := List Nat

/-- Effect of `std::memcpy(dst + off, src, src.size())` on the destination buffer. -/
def memcpy (dst : Bytes) (off : Nat) (src : Bytes) : Bytes :=
  dst.take off ++ src ++ dst.drop (off + src.length)

/-- Effect of `std::vector<uint8_t>::resize(n)`: truncate, or pad with zero bytes. -/
def resize (v : Bytes) (n : Nat) : Bytes :=
  v.take n ++ List.replicate (n - v.length) 0

/-- Object representation of a `uint32_t` on a little-endian host
(what `std::memcpy(dst, &x, sizeof(uint32_t))` copies). -/
def u32Bytes (x : Nat) : Bytes :=
  [x &&& 0xFF, (x >>> 8) &&& 0xFF, (x >>> 16) &&& 0xFF, (x >>> 24) &&& 0xFF]

/-- Value of the `uint32_t` whose object representation starts at `off` in the buffer
(what `std::memcpy(&x, src + off, sizeof(uint32_t))` stores in `x`). -/
def u32Load (src : Bytes) (off : Nat) : Nat :=
  src.getD off 0 ||| (src.getD (off + 1) 0 <<< 8) ||| (src.getD (off + 2) 0 <<< 16)
    ||| (src.getD (off + 3) 0 <<< 24)

/-! ## The AEAD primitive -/

/-- The constant `crypto_aead_xchacha20poly1305_ietf_ABYTES` (tag length). -/
def ABYTES : Nat := 16

/-- The constant `crypto_aead_xchacha20poly1305_ietf_NPUBBYTES` (nonce length). -/
def NPUBBYTES : Nat := 24

/-- The XChaCha20-Poly1305 primitive, kept abstract.  `encrypt key nonce aad msg` is the
ciphertext followed by the tag; `decrypt key nonce aad ct` is `none` when libsodium returns
a non-zero code.  The two laws are the ones the packet code depends on: the output is
`ABYTES` longer than the message, and opening a sealed message under the same key, nonce
and additional data gives the message back. -/
structure AEAD where
  encrypt : Bytes → Bytes → Bytes → Bytes → Bytes
  decrypt : Bytes → Bytes → Bytes → Bytes → Option Bytes
  encrypt_length : ∀ key nonce aad msg, (encrypt key nonce aad msg).length = msg.length + ABYTES
  decrypt_encrypt : ∀ key nonce aad msg, decrypt key nonce aad (encrypt key nonce aad msg) = some msg

/-- The 16-byte tag of the concrete AEAD instance below: the lengths of key, nonce and
additional data, padded with zeros. -/
def toyTag (key nonce aad : Bytes) : Bytes :=
  [key.length % 256, nonce.length % 256, aad.length % 256] ++ List.replicate 13 0

/-- Sealing function of the concrete instance. -/
def toyEncrypt (key nonce aad msg : Bytes) : Bytes := msg ++ toyTag key nonce aad

/-- Opening function of the concrete instance. -/
def toyDecrypt (key nonce aad ct : Bytes) : Option Bytes :=
  if ABYTES ≤ ct.length ∧ ct.drop (ct.length - ABYTES) = toyTag key nonce aad then
    some (ct.take (ct.length - ABYTES))
  else none

/-- An AEAD instance on which the packet code can be evaluated: the message is copied and
followed by `toyTag`; opening checks the tag and strips it.  It satisfies both laws. -/
def toyAEAD : AEAD where
  encrypt := toyEncrypt
  decrypt := toyDecrypt
  encrypt_length := by
    intro key nonce aad msg
    simp [toyEncrypt, toyTag, ABYTES]
  decrypt_encrypt := by
    intro key nonce aad msg
    have hl : (toyTag key nonce aad).length = 16 := by simp [toyTag]
    simp [toyEncrypt, toyDecrypt, ABYTES, hl]

/-! ## VideoRTPSender: sealing one RTP packet -/

/-- Data members of `VideoRTPSender` (VideoRTPSender.hpp).  `m_udp` records whether the
socket pointer is non-null; what is passed to `m_udp->Send` is returned by the functions
below. -/
structure VideoRTPSender where
  m_udp : Bool
  m_videoSSRC : Nat
  m_secretKey : Bytes
  m_sequence : Nat
  m_nonce : Nat
  m_payloadType : Nat
deriving Repr, DecidableEq

namespace VideoRTPSender

/-- The constant `MAX_RTP_PAYLOAD`. -/
def MAX_RTP_PAYLOAD : Nat := 1200

/-- Member function `VideoRTPSender::Init`; `udp` says whether the pointer passed is
non-null. -/
def Init (s : VideoRTPSender) (udp : Bool) (videoSSRC : Nat) (secretKey : Bytes) :
    VideoRTPSender :=
  { s with m_udp := udp, m_videoSSRC := videoSSRC, m_secretKey := secretKey, m_sequence := 0,
           m_nonce := 0 }

/-- A sender as default-constructed (in-class initialisers of VideoRTPSender.hpp). -/
def fresh : VideoRTPSender :=
  { m_udp := false, m_videoSSRC := 0, m_secretKey := List.replicate 32 0, m_sequence := 0,
    m_nonce := 0, m_payloadType := 101 }

/-- Member function `VideoRTPSender::SendRTPPacket`: returns the sender after the call and
the datagram handed to `m_udp->Send`. -/
def SendRTPPacket (A : AEAD) (s : VideoRTPSender) (payload : Bytes) (timestamp : Nat)
    (marker : Bool) : VideoRTPSender × Bytes :=
  let m_sequence := (s.m_sequence + 1) % 2 ^ 16
  let m_nonce := (s.m_nonce + 1) % 2 ^ 32
  let encryptedSize := payload.length + ABYTES
  let rtp : Bytes := List.replicate (12 + encryptedSize + 4) 0
  let rtp := rtp.set 0 0x80
  let rtp := rtp.set 1 s.m_payloadType
  let rtp := if marker then rtp.set 1 (rtp.getD 1 0 ||| 0x80) else rtp
  let rtp := rtp.set 2 ((m_sequence >>> 8) &&& 0xFF)
  let rtp := rtp.set 3 ((m_sequence >>> 0) &&& 0xFF)
  let rtp := rtp.set 4 ((timestamp >>> 24) &&& 0xFF)
  let rtp := rtp.set 5 ((timestamp >>> 16) &&& 0xFF)
  let rtp := rtp.set 6 ((timestamp >>> 8) &&& 0xFF)
  let rtp := rtp.set 7 ((timestamp >>> 0) &&& 0xFF)
  let rtp := rtp.set 8 ((s.m_videoSSRC >>> 24) &&& 0xFF)
  let rtp := rtp.set 9 ((s.m_videoSSRC >>> 16) &&& 0xFF)
  let rtp := rtp.set 10 ((s.m_videoSSRC >>> 8) &&& 0xFF)
  let rtp := rtp.set 11 ((s.m_videoSSRC >>> 0) &&& 0xFF)
  let nonceBytes := memcpy (List.replicate NPUBBYTES 0) 0 (u32Bytes m_nonce)
  let ciphertext := A.encrypt s.m_secretKey nonceBytes (rtp.take 12) payload
  let rtp := memcpy rtp 12 ciphertext
  let rtp := resize rtp (12 + ciphertext.length + 4)
  let rtp := memcpy rtp (rtp.length - 4) (u32Bytes m_nonce)
  ({ s with m_sequence := m_sequence, m_nonce := m_nonce }, rtp)

end VideoRTPSender

/-! ## VideoRTPReceiver: opening one RTP packet -/

/-- Data members of `VideoRTPReceiver` (VideoRTPReceiver.hpp).  `m_frameCallback` records
whether a callback is installed; `delivered` is the trace of its invocations
`(bytes, timestamp)`, oldest first. -/
structure VideoRTPReceiver where
  m_videoSSRC : Nat
  m_secretKey : Bytes
  m_currentTimestamp : Nat
  m_hasTimestamp : Bool
  m_frameBuffer : Bytes
  m_fuaBuffer : Bytes
  m_fuaInProgress : Bool
  m_frameCallback : Bool
  delivered : List (Bytes × Nat)
deriving Repr, DecidableEq

/-- Output parameters of `VideoRTPReceiver::DecryptPacket` when it returns `true`. -/
structure Opened where
  payloadType : Nat
  seq : Nat
  timestamp : Nat
  ssrc : Nat
  payload : Bytes
deriving Repr, DecidableEq

namespace VideoRTPReceiver

/-- Member function `VideoRTPReceiver::DecryptPacket`; `none` is the `false` return.  The
header fields are assembled by shifts and ors and stored in `uint16_t` / `uint32_t`
variables, hence the reductions modulo 2^16 and 2^32. -/
def DecryptPacket (A : AEAD) (r : VideoRTPReceiver) (data : Bytes) : Option Opened :=
  let len := data.length
  if len < 12 + ABYTES + 4 then none
  else
    let payloadType := data.getD 1 0 &&& 0x7F
    let seq := ((data.getD 2 0 <<< 8) ||| data.getD 3 0) % 2 ^ 16
    let timestamp := ((data.getD 4 0 <<< 24) ||| (data.getD 5 0 <<< 16) ||| (data.getD 6 0 <<< 8)
      ||| data.getD 7 0) % 2 ^ 32
    let ssrc := ((data.getD 8 0 <<< 24) ||| (data.getD 9 0 <<< 16) ||| (data.getD 10 0 <<< 8)
      ||| data.getD 11 0) % 2 ^ 32
    let nonce := u32Load data (len - 4)
    let nonceBytes := memcpy (List.replicate NPUBBYTES 0) 0 (u32Bytes nonce)
    let ciphertextLen := len - 12 - 4
    let ciphertext := (data.drop 12).take ciphertextLen
    match A.decrypt r.m_secretKey nonceBytes (data.take 12) ciphertext with
    | none => none
    | some plain =>
      some { payloadType := payloadType, seq := seq, timestamp := timestamp, ssrc := ssrc,
             payload := plain }

end VideoRTPReceiver

/-! ## Wire format of a sealed packet -/

/-- Two bytes, most significant first. -/
def be16 (x : Nat) : Bytes := [(x >>> 8) &&& 0xFF, x &&& 0xFF]

/-- Four bytes, most significant first. -/
def be32 (x : Nat) : Bytes :=
  [(x >>> 24) &&& 0xFF, (x >>> 16) &&& 0xFF, (x >>> 8) &&& 0xFF, x &&& 0xFF]

/-- The 12-byte RTP header of the specification: version byte, payload type with the
marker in the top bit, sequence, timestamp and SSRC in network byte order. -/
def rtpHeader (payloadType : Nat) (marker : Bool) (seq timestamp ssrc : Nat) : Bytes :=
  [0x80, if marker then payloadType ||| 0x80 else payloadType] ++ be16 seq ++ be32 timestamp
    ++ be32 ssrc

/-- The 24-byte AEAD nonce of the specification: the counter, little-endian, then zeros. -/
def nonce24 (n : Nat) : Bytes := u32Bytes n ++ List.replicate 20 0

/-- The datagram of the specification: header, ciphertext and tag under the header as
additional data, then the nonce counter in the clear. -/
def sealedPacket (A : AEAD) (key : Bytes) (payloadType : Nat) (marker : Bool)
    (seq timestamp ssrc n : Nat) (payload : Bytes) : Bytes :=
  rtpHeader payloadType marker seq timestamp ssrc
    ++ A.encrypt key (nonce24 n) (rtpHeader payloadType marker seq timestamp ssrc) payload
    ++ u32Bytes n

theorem replicate_twelve_add (k : Nat) :
    List.replicate (12 + k) (0 : Nat) = [0, 0, 0, 0, 0, 0, 0, 0, 0, 0, 0, 0] ++ List.replicate k 0 := by
  rw [List.replicate_add]; rfl

theorem nonceBytes_eq (n : Nat) :
    memcpy (List.replicate NPUBBYTES 0) 0 (u32Bytes n) = nonce24 n := by
  simp [memcpy, NPUBBYTES, nonce24, u32Bytes]

theorem rtpHeader_length (pt : Nat) (m : Bool) (seq ts ssrc : Nat) :
    (rtpHeader pt m seq ts ssrc).length = 12 := by
  simp [rtpHeader, be16, be32]

/-- The buffer arithmetic of the three sealing functions: ciphertext copied behind a
12-byte header into a zeroed buffer, the buffer resized, the counter copied to the end. -/
theorem seal_buffer (H ct tail z : Bytes) (hH : H.length = 12) (ht : tail.length = 4)
    (hz : z.length = ct.length + 4) :
    memcpy (resize (memcpy (H ++ z) 12 ct) (12 + ct.length + 4))
      ((resize (memcpy (H ++ z) 12 ct) (12 + ct.length + 4)).length - 4) tail
      = H ++ ct ++ tail := by
  have h1 : memcpy (H ++ z) 12 ct = H ++ ct ++ z.drop ct.length := by
    simp [memcpy, List.take_append_eq_append_take, List.drop_append_eq_append_drop, hH]
  have h2 : (H ++ ct ++ z.drop ct.length).length = 12 + ct.length + 4 := by
    simp [hH, hz]; omega
  have h3 : resize (H ++ ct ++ z.drop ct.length) (12 + ct.length + 4)
      = H ++ ct ++ z.drop ct.length := by
    unfold resize
    rw [List.take_of_length_le (by omega), h2]; simp
  rw [h1, h3, h2]
  have h4 : (H ++ ct).length = 12 + ct.length := by simp [hH]
  have h5 : (z.drop ct.length).length = 4 := by simp [hz]
  unfold memcpy
  have e1 : 12 + ct.length + 4 - 4 = (H ++ ct).length := by omega
  rw [e1, List.take_left, List.drop_eq_nil_of_le (by simp [hH, hz, ht]; omega)]
  simp

/-- Normal form of `VideoRTPSender::SendRTPPacket`. -/
theorem VideoRTPSender.SendRTPPacket_eq (A : AEAD) (s : VideoRTPSender) (payload : Bytes)
    (timestamp : Nat) (marker : Bool) :
    VideoRTPSender.SendRTPPacket A s payload timestamp marker =
      ({ s with m_sequence := (s.m_sequence + 1) % 2 ^ 16, m_nonce := (s.m_nonce + 1) % 2 ^ 32 },
       sealedPacket A s.m_secretKey s.m_payloadType marker ((s.m_sequence + 1) % 2 ^ 16)
         timestamp s.m_videoSSRC ((s.m_nonce + 1) % 2 ^ 32) payload) := by
  have hbuf : ∀ k : Nat, List.replicate (12 + (k + ABYTES) + 4) (0 : Nat)
      = [0, 0, 0, 0, 0, 0, 0, 0, 0, 0, 0, 0] ++ List.replicate (k + ABYTES + 4) 0 := by
    intro k; rw [Nat.add_assoc 12, replicate_twelve_add]
  unfold VideoRTPSender.SendRTPPacket sealedPacket
  simp only [hbuf, nonceBytes_eq]
  cases marker <;>
  · simp only [List.cons_append, List.nil_append, List.set_cons_zero, List.set_cons_succ,
      List.getD_cons_succ, List.getD_cons_zero, if_true, if_false, Bool.false_eq_true,
      List.take_succ_cons, List.take_zero, Nat.shiftRight_zero]
    congr 1
    rw [← List.nil_append (List.replicate _ _)]
    simp only [← List.cons_append]
    rw [seal_buffer _ _ _ _ (by rfl) (by rfl) (by simp [A.encrypt_length])]
    simp [rtpHeader, be16, be32]

/-! ## Byte arithmetic -/

theorem and_255 (x : Nat) : x &&& 255 = x % 256 := Nat.and_pow_two_sub_one_eq_mod x 8
theorem and_127 (x : Nat) : x &&& 127 = x % 128 := Nat.and_pow_two_sub_one_eq_mod x 7
theorem and_31 (x : Nat) : x &&& 31 = x % 32 := Nat.and_pow_two_sub_one_eq_mod x 5

theorem lor_bytes2 (c d : Nat) (hd : d < 256) : (c <<< 8) ||| d = c * 256 + d := by
  rw [Nat.shiftLeft_eq, Nat.mul_comm c, ← Nat.mul_add_lt_is_or (by simpa using hd)]
  
theorem lor_bytes4 (a b c d : Nat) (hb : b < 256) (hc : c < 256) (hd : d < 256) :
    (a <<< 24) ||| (b <<< 16) ||| (c <<< 8) ||| d = a * 2 ^ 24 + b * 2 ^ 16 + c * 2 ^ 8 + d := by
  rw [Nat.lor_assoc, Nat.lor_assoc, lor_bytes2 c d hd]
  have h1 : (b <<< 16) ||| (c * 256 + d) = b * 2 ^ 16 + (c * 256 + d) := by
    rw [Nat.shiftLeft_eq, Nat.mul_comm b, ← Nat.mul_add_lt_is_or (by omega)]
  rw [h1]
  have h2 : (a <<< 24) ||| (b * 2 ^ 16 + (c * 256 + d)) = a * 2 ^ 24 + (b * 2 ^ 16 + (c * 256 + d)) := by
    rw [Nat.shiftLeft_eq, Nat.mul_comm a, ← Nat.mul_add_lt_is_or (by omega)]
  rw [h2]; omega

theorem be16_decode (x : Nat) : (((x >>> 8) &&& 0xFF) <<< 8 ||| (x &&& 0xFF)) % 2 ^ 16 = x % 2 ^ 16 := by
  rw [lor_bytes2 _ _ (by rw [and_255]; omega), and_255, and_255, Nat.shiftRight_eq_div_pow]
  omega

theorem be32_decode (x : Nat) :
    ((((x >>> 24) &&& 0xFF) <<< 24) ||| (((x >>> 16) &&& 0xFF) <<< 16) ||| (((x >>> 8) &&& 0xFF) <<< 8)
      ||| (x &&& 0xFF)) % 2 ^ 32 = x % 2 ^ 32 := by
  rw [lor_bytes4 _ _ _ _ (by rw [and_255]; omega) (by rw [and_255]; omega) (by rw [and_255]; omega)]
  simp only [and_255, Nat.shiftRight_eq_div_pow]
  omega

theorem lor_bytes4_le (d c b a : Nat) (hb : b < 256) (hc : c < 256) (hd : d < 256) :
    d ||| (c <<< 8) ||| (b <<< 16) ||| (a <<< 24) = a * 2 ^ 24 + b * 2 ^ 16 + c * 2 ^ 8 + d := by
  rw [Nat.lor_comm d, lor_bytes2 c d hd, Nat.lor_comm _ (b <<< 16)]
  have h1 : (b <<< 16) ||| (c * 256 + d) = b * 2 ^ 16 + (c * 256 + d) := by
    rw [Nat.shiftLeft_eq, Nat.mul_comm b, ← Nat.mul_add_lt_is_or (by omega)]
  rw [h1, Nat.lor_comm _ (a <<< 24)]
  have h2 : (a <<< 24) ||| (b * 2 ^ 16 + (c * 256 + d)) = a * 2 ^ 24 + (b * 2 ^ 16 + (c * 256 + d)) := by
    rw [Nat.shiftLeft_eq, Nat.mul_comm a, ← Nat.mul_add_lt_is_or (by omega)]
  rw [h2]; omega

theorem le32_decode (x : Nat) :
    ((x &&& 0xFF) ||| (((x >>> 8) &&& 0xFF) <<< 8) ||| (((x >>> 16) &&& 0xFF) <<< 16)
      ||| (((x >>> 24) &&& 0xFF) <<< 24)) = x % 2 ^ 32 := by
  rw [lor_bytes4_le _ _ _ _ (by rw [and_255]; omega) (by rw [and_255]; omega) (by rw [and_255]; omega)]
  simp only [and_255, Nat.shiftRight_eq_div_pow]
  omega

theorem strip_marker (pt : Nat) (h : pt < 128) (m : Bool) : (if m then pt ||| 0x80 else pt) &&& 0x7F = pt := by
  cases m
  · simp [and_127]; omega
  · simp only [if_true]
    have : pt ||| 0x80 = 2^7 * 1 + pt := by
      rw [Nat.lor_comm]; exact (Nat.mul_add_lt_is_or (show pt < 2 ^ 7 from h) 1).symm
    rw [this, and_127]; omega

theorem u32Load_append (pre : Bytes) (n : Nat) :
    u32Load (pre ++ u32Bytes n) pre.length = n % 2 ^ 32 := by
  have h : ∀ k, (pre ++ u32Bytes n).getD (pre.length + k) 0 = (u32Bytes n).getD k 0 := by
    intro k
    rw [List.getD_append_right _ _ _ _ (by omega)]
    congr 1; omega
  unfold u32Load
  rw [h 1, h 2, h 3, ← Nat.add_zero pre.length, h 0]
  simp only [u32Bytes, List.getD_cons_succ, List.getD_cons_zero]
  exact le32_decode n

/-- Opening a datagram of the specified wire format under the sealing key. -/
theorem VideoRTPReceiver.DecryptPacket_sealedPacket_raw (A : AEAD) (r : VideoRTPReceiver)
    (pt : Nat) (marker : Bool) (seq ts ssrc n : Nat) (payload : Bytes) (hn : n < 2 ^ 32) :
    VideoRTPReceiver.DecryptPacket A r
        (sealedPacket A r.m_secretKey pt marker seq ts ssrc n payload)
      = some { payloadType := (if marker then pt ||| 0x80 else pt) &&& 0x7F,
               seq := seq % 2 ^ 16, timestamp := ts % 2 ^ 32,
               ssrc := ssrc % 2 ^ 32, payload := payload } := by
  set H := rtpHeader pt marker seq ts ssrc with hHdef
  set ct := A.encrypt r.m_secretKey (nonce24 n) H payload with hct
  have hH : H.length = 12 := rtpHeader_length _ _ _ _ _
  have hc : ct.length = payload.length + 16 := A.encrypt_length _ _ _ _
  have hdata : sealedPacket A r.m_secretKey pt marker seq ts ssrc n payload
      = H ++ ct ++ u32Bytes n := rfl
  have hlen : (H ++ ct ++ u32Bytes n).length = 12 + ct.length + 4 := by
    simp [hH, u32Bytes]; omega
  have hget : ∀ i, i < 12 → (H ++ ct ++ u32Bytes n).getD i 0 = H.getD i 0 := by
    intro i hi
    rw [List.append_assoc, List.getD_append _ _ _ _ (by omega)]
  have hnonce : u32Load (H ++ ct ++ u32Bytes n) ((H ++ ct ++ u32Bytes n).length - 4) = n := by
    have : (H ++ ct ++ u32Bytes n).length - 4 = (H ++ ct).length := by
      rw [hlen]; simp [hH]
    rw [this, u32Load_append, Nat.mod_eq_of_lt hn]
  have htake : (H ++ ct ++ u32Bytes n).take 12 = H := by
    rw [List.append_assoc, ← hH, List.take_left]
  have hdrop : ((H ++ ct ++ u32Bytes n).drop 12).take ((H ++ ct ++ u32Bytes n).length - 12 - 4)
      = ct := by
    rw [hlen, List.append_assoc, ← hH, List.drop_left]
    have : H.length + ct.length + 4 - H.length - 4 = ct.length := by omega
    rw [this, List.take_left]
  unfold VideoRTPReceiver.DecryptPacket
  rw [hdata]
  simp only [hnonce, htake, hdrop, nonceBytes_eq]
  rw [if_neg (by rw [hlen, hc]; simp [ABYTES]; omega)]
  rw [hget 1 (by omega), hget 2 (by omega), hget 3 (by omega), hget 4 (by omega),
    hget 5 (by omega), hget 6 (by omega), hget 7 (by omega), hget 8 (by omega),
    hget 9 (by omega), hget 10 (by omega), hget 11 (by omega)]
  rw [hct, A.decrypt_encrypt]
  have e1 : H.getD 1 0 &&& 0x7F = (if marker then pt ||| 0x80 else pt) &&& 0x7F := rfl
  have e2 : ((H.getD 2 0 <<< 8) ||| H.getD 3 0) % 2 ^ 16 = seq % 2 ^ 16 := be16_decode seq
  have e3 : ((H.getD 4 0 <<< 24) ||| (H.getD 5 0 <<< 16) ||| (H.getD 6 0 <<< 8) ||| H.getD 7 0)
      % 2 ^ 32 = ts % 2 ^ 32 := be32_decode ts
  have e4 : ((H.getD 8 0 <<< 24) ||| (H.getD 9 0 <<< 16) ||| (H.getD 10 0 <<< 8)
      ||| H.getD 11 0) % 2 ^ 32 = ssrc % 2 ^ 32 := be32_decode ssrc
  simp only [e1, e2, e3, e4]

/-- Opening a datagram of the specified wire format whose payload type fits in 7 bits. -/
theorem VideoRTPReceiver.DecryptPacket_sealedPacket (A : AEAD) (r : VideoRTPReceiver)
    (pt : Nat) (marker : Bool) (seq ts ssrc n : Nat) (payload : Bytes)
    (hpt : pt < 128) (hn : n < 2 ^ 32) :
    VideoRTPReceiver.DecryptPacket A r
        (sealedPacket A r.m_secretKey pt marker seq ts ssrc n payload)
      = some { payloadType := pt, seq := seq % 2 ^ 16, timestamp := ts % 2 ^ 32,
               ssrc := ssrc % 2 ^ 32, payload := payload } := by
  rw [VideoRTPReceiver.DecryptPacket_sealedPacket_raw A r pt marker seq ts ssrc n payload hn,
    strip_marker pt hpt marker]

/-! ## VideoRTPSender: packetisation -/

namespace VideoRTPSender

/-- The `while (remaining > 0)` loop of `VideoRTPSender::SendFUA`.  The argument `payload`
is the unsent rest of the NAL unit (the pointer `payload` together with `remaining`). -/
def SendFUA_loop (A : AEAD) (fuIndicator nalType timestamp : Nat) (lastNAL : Bool)
    (s : VideoRTPSender) (payload : Bytes) (isFirst : Bool) : VideoRTPSender × List Bytes :=
  let remaining := payload.length
  if remaining > 0 then
    let maxFragPayload := MAX_RTP_PAYLOAD - 2
    let fragLen := if remaining > maxFragPayload then maxFragPayload else remaining
    let isLast : Bool := fragLen == remaining
    let fuHeader := nalType
    let fuHeader := if isFirst then fuHeader ||| 0x80 else fuHeader
    let fuHeader := if isLast then fuHeader ||| 0x40 else fuHeader
    let fuPacket : Bytes := List.replicate (2 + fragLen) 0
    let fuPacket := fuPacket.set 0 fuIndicator
    let fuPacket := fuPacket.set 1 fuHeader
    let fuPacket := memcpy fuPacket 2 (payload.take fragLen)
    let marker := isLast && lastNAL
    let sent := SendRTPPacket A s fuPacket timestamp marker
    let rest := SendFUA_loop A fuIndicator nalType timestamp lastNAL sent.1
      (payload.drop fragLen) false
    (rest.1, sent.2 :: rest.2)
  else (s, [])
termination_by payload.length
decreasing_by
  simp only [List.length_drop, MAX_RTP_PAYLOAD]
  split <;> omega

/-- Member function `VideoRTPSender::SendFUA`. -/
def SendFUA (A : AEAD) (s : VideoRTPSender) (nal : Bytes) (timestamp : Nat) (lastNAL : Bool) :
    VideoRTPSender × List Bytes :=
  if nal.length < 2 then (s, [])
  else
    let nalHeader := nal.getD 0 0
    let nalType := nalHeader &&& 0x1F
    let nri := nalHeader &&& 0x60
    let fuIndicator := nri ||| 28
    SendFUA_loop A fuIndicator nalType timestamp lastNAL s (nal.drop 1) true

/-- Member function `VideoRTPSender::SendNALUnit`. -/
def SendNALUnit (A : AEAD) (s : VideoRTPSender) (nal : Bytes) (timestamp : Nat)
    (lastNAL : Bool) : VideoRTPSender × List Bytes :=
  if nal.length = 0 then (s, [])
  else if nal.length ≤ MAX_RTP_PAYLOAD then
    let sent := SendRTPPacket A s nal timestamp lastNAL
    (sent.1, [sent.2])
  else SendFUA A s nal timestamp lastNAL

/-- The inner `for (size_t j = nalStart; j + 2 < len; j++)` loop of
`VideoRTPSender::SendFrame`, entered at `j`: the value of `nalEnd` after the loop. -/
def findNalEnd (h264Data : Bytes) (j : Nat) : Nat :=
  let len := h264Data.length
  if j + 2 < len then
    if h264Data.getD j 0 = 0 ∧ h264Data.getD (j + 1) 0 = 0 ∧
        (h264Data.getD (j + 2) 0 = 1 ∨
          (j + 3 < len ∧ h264Data.getD (j + 2) 0 = 0 ∧ h264Data.getD (j + 3) 0 = 1)) then
      j
    else findNalEnd h264Data (j + 1)
  else len
termination_by h264Data.length - j

/-- The start-code test at the head of the `while (i < len)` loop: the value of
`startCodeLen`. -/
def startCodeLen (h264Data : Bytes) (i : Nat) : Nat :=
  let len := h264Data.length
  if i + 3 < len ∧ h264Data.getD i 0 = 0 ∧ h264Data.getD (i + 1) 0 = 0 ∧
      h264Data.getD (i + 2) 0 = 0 ∧ h264Data.getD (i + 3) 0 = 1 then 4
  else if i + 2 < len ∧ h264Data.getD i 0 = 0 ∧ h264Data.getD (i + 1) 0 = 0 ∧
      h264Data.getD (i + 2) 0 = 1 then 3
  else 0

theorem le_findNalEnd (h264Data : Bytes) (j : Nat) (h : j ≤ h264Data.length) :
    j ≤ findNalEnd h264Data j := by
  generalize hk : h264Data.length - j = k
  induction k using Nat.strong_induction_on generalizing j with
  | _ k ih =>
    unfold findNalEnd
    simp only
    split
    · split
      · exact Nat.le_refl j
      · exact Nat.le_of_succ_le (ih (h264Data.length - (j + 1)) (by omega) (j + 1) (by omega) rfl)
    · exact h

theorem startCodeLen_bound (h264Data : Bytes) (i : Nat) (h : 0 < startCodeLen h264Data i) :
    i + startCodeLen h264Data i ≤ h264Data.length := by
  unfold startCodeLen at h ⊢
  simp only at h ⊢
  split
  · omega
  · split
    · omega
    · rename_i h1 h2
      rw [if_neg h1, if_neg h2] at h
      omega

/-- The `while (i < len)` loop of `VideoRTPSender::SendFrame`: the vector `nalUnits` after
the loop.  A NAL unit `(h264Data + nalStart, nalEnd - nalStart)` is the slice it denotes. -/
def parseNALUnits (h264Data : Bytes) (i : Nat) (nalUnits : List Bytes) : List Bytes :=
  let len := h264Data.length
  if i < len then
    if 0 < startCodeLen h264Data i then
      let nalStart := i + startCodeLen h264Data i
      let nalEnd := findNalEnd h264Data nalStart
      let nalUnits :=
        if nalEnd > nalStart then nalUnits ++ [(h264Data.drop nalStart).take (nalEnd - nalStart)]
        else nalUnits
      parseNALUnits h264Data nalEnd nalUnits
    else if nalUnits.isEmpty then nalUnits ++ [h264Data]
    else parseNALUnits h264Data (i + 1) nalUnits
  else nalUnits
termination_by h264Data.length - i
decreasing_by
  · rename_i hi hs
    have h1 := startCodeLen_bound h264Data i hs
    have h2 := le_findNalEnd h264Data (i + startCodeLen h264Data i) h1
    omega
  · omega

/-- The `for (size_t n = 0; n < nalUnits.size(); n++)` loop of `VideoRTPSender::SendFrame`,
entered at `n`. -/
def SendFrame_loop (A : AEAD) (nalUnits : List Bytes) (timestamp : Nat) (s : VideoRTPSender)
    (n : Nat) : VideoRTPSender × List Bytes :=
  if n < nalUnits.length then
    let lastNAL : Bool := n == nalUnits.length - 1
    let sent := SendNALUnit A s (nalUnits.getD n []) timestamp lastNAL
    let rest := SendFrame_loop A nalUnits timestamp sent.1 (n + 1)
    (rest.1, sent.2 ++ rest.2)
  else (s, [])
termination_by nalUnits.length - n

/-- Member function `VideoRTPSender::SendFrame`: the sender after the call and the
datagrams handed to `m_udp->Send`, in order. -/
def SendFrame (A : AEAD) (s : VideoRTPSender) (h264Data : Bytes) (timestamp : Nat) :
    VideoRTPSender × List Bytes :=
  if !s.m_udp || h264Data.length = 0 then (s, [])
  else SendFrame_loop A (parseNALUnits h264Data 0 []) timestamp s 0

end VideoRTPSender

/-! ## VideoRTPReceiver: reassembly -/

namespace VideoRTPReceiver

/-- Member function `VideoRTPReceiver::Init`. -/
def Init (r : VideoRTPReceiver) (videoSSRC : Nat) (secretKey : Bytes) : VideoRTPReceiver :=
  { r with m_videoSSRC := videoSSRC, m_secretKey := secretKey, m_currentTimestamp := 0,
           m_hasTimestamp := false, m_frameBuffer := [], m_fuaBuffer := [],
           m_fuaInProgress := false }

/-- A receiver as default-constructed, with a frame callback installed by
`SetFrameCallback` and no invocation of it so far. -/
def fresh : VideoRTPReceiver :=
  { m_videoSSRC := 0, m_secretKey := List.replicate 32 0, m_currentTimestamp := 0,
    m_hasTimestamp := false, m_frameBuffer := [], m_fuaBuffer := [], m_fuaInProgress := false,
    m_frameCallback := true, delivered := [] }

/-- Member function `VideoRTPReceiver::FlushFrame`. -/
def FlushFrame (r : VideoRTPReceiver) (timestamp : Nat) : VideoRTPReceiver :=
  if r.m_frameBuffer.isEmpty then r
  else
    let r := if r.m_frameCallback then
        { r with delivered := r.delivered ++ [(r.m_frameBuffer, timestamp)] }
      else r
    { r with m_frameBuffer := [], m_hasTimestamp := false }

/-- The `while (offset + 2 <= len)` loop of the STAP-A branch of
`VideoRTPReceiver::ProcessPayload`, entered at `offset`: the value of `m_frameBuffer` after
the loop. -/
def stapLoop (payload : Bytes) (offset : Nat) (frameBuffer : Bytes) : Bytes :=
  let len := payload.length
  if offset + 2 ≤ len then
    let nalSize := ((payload.getD offset 0 <<< 8) ||| payload.getD (offset + 1) 0) % 2 ^ 16
    if offset + 2 + nalSize > len then frameBuffer
    else
      stapLoop payload (offset + 2 + nalSize)
        (frameBuffer ++ [0x00, 0x00, 0x00, 0x01] ++ (payload.drop (offset + 2)).take nalSize)
  else frameBuffer
termination_by payload.length - offset

/-- Member function `VideoRTPReceiver::ProcessPayload`. -/
def ProcessPayload (r : VideoRTPReceiver) (payload : Bytes) (_seq _timestamp : Nat) :
    VideoRTPReceiver :=
  if payload.length = 0 then r
  else
    let nalType := payload.getD 0 0 &&& 0x1F
    if nalType ≥ 1 ∧ nalType ≤ 23 then
      { r with m_frameBuffer := r.m_frameBuffer ++ [0x00, 0x00, 0x00, 0x01] ++ payload }
    else if nalType = 28 then
      if payload.length < 2 then r
      else
        let fuHeader := payload.getD 1 0
        let startBit : Bool := (fuHeader &&& 0x80) != 0
        let endBit : Bool := (fuHeader &&& 0x40) != 0
        let origNalType := fuHeader &&& 0x1F
        let r := if startBit then
            { r with m_fuaBuffer := [(payload.getD 0 0 &&& 0xE0) ||| origNalType],
                     m_fuaInProgress := true }
          else r
        if r.m_fuaInProgress then
          let r := { r with m_fuaBuffer := r.m_fuaBuffer ++ payload.drop 2 }
          if endBit then
            { r with m_frameBuffer := r.m_frameBuffer ++ [0x00, 0x00, 0x00, 0x01] ++ r.m_fuaBuffer,
                     m_fuaBuffer := [], m_fuaInProgress := false }
          else r
        else r
    else if nalType = 24 then
      { r with m_frameBuffer := stapLoop payload 1 r.m_frameBuffer }
    else r

/-- Member function `VideoRTPReceiver::Feed`. -/
def Feed (A : AEAD) (r : VideoRTPReceiver) (data : Bytes) : VideoRTPReceiver :=
  if data.length < 12 then r
  else
    match DecryptPacket A r data with
    | none => r
    | some o =>
      if o.ssrc ≠ r.m_videoSSRC then r
      else
        let r := if r.m_hasTimestamp ∧ o.timestamp ≠ r.m_currentTimestamp then
            FlushFrame r r.m_currentTimestamp
          else r
        let r := { r with m_currentTimestamp := o.timestamp, m_hasTimestamp := true }
        let r := ProcessPayload r o.payload o.seq o.timestamp
        let marker : Bool := (data.getD 1 0 &&& 0x80) != 0
        if marker then FlushFrame r o.timestamp else r

/-- Feeding a sequence of datagrams in arrival order. -/
def FeedAll (A : AEAD) (r : VideoRTPReceiver) (datagrams : List Bytes) : VideoRTPReceiver :=
  datagrams.foldl (Feed A) r

end VideoRTPReceiver

/-! ## The audio sealing paths -/

/-- The data members of `dv::UDPSocket` (udp_socket.h).  `m_socket` records whether the
descriptor is valid, `m_thread` whether the read thread is joinable, and `m_server` the peer
address: together with `m_running` they are the transport state, with the values the
constructor gives them as defaults. -/
structure UDPSocket where
  m_secret_key : Bytes
  m_ssrc : Nat
  m_sequence : Nat
  m_nonce : Nat
  m_socket : Bool := false
  m_server : String × Nat := ("", 0)
  m_running : Bool := false
  m_thread : Bool := false
deriving Repr, DecidableEq

namespace UDPSocket

/-- Member function `UDPSocket::SendEncrypted`: the socket after the call and the datagram
passed to `Send`. -/
def SendEncrypted (A : AEAD) (s : UDPSocket) (data : Bytes) (timestamp : Nat) :
    UDPSocket × Bytes :=
  let m_sequence := (s.m_sequence + 1) % 2 ^ 16
  let m_nonce := (s.m_nonce + 1) % 2 ^ 32
  let encrypted_size := data.length + ABYTES
  let rtp : Bytes := List.replicate (12 + encrypted_size + 4) 0
  let rtp := rtp.set 0 0x80
  let rtp := rtp.set 1 0x78
  let rtp := rtp.set 2 ((m_sequence >>> 8) &&& 0xFF)
  let rtp := rtp.set 3 ((m_sequence >>> 0) &&& 0xFF)
  let rtp := rtp.set 4 ((timestamp >>> 24) &&& 0xFF)
  let rtp := rtp.set 5 ((timestamp >>> 16) &&& 0xFF)
  let rtp := rtp.set 6 ((timestamp >>> 8) &&& 0xFF)
  let rtp := rtp.set 7 ((timestamp >>> 0) &&& 0xFF)
  let rtp := rtp.set 8 ((s.m_ssrc >>> 24) &&& 0xFF)
  let rtp := rtp.set 9 ((s.m_ssrc >>> 16) &&& 0xFF)
  let rtp := rtp.set 10 ((s.m_ssrc >>> 8) &&& 0xFF)
  let rtp := rtp.set 11 ((s.m_ssrc >>> 0) &&& 0xFF)
  let nonce_bytes := memcpy (List.replicate NPUBBYTES 0) 0 (u32Bytes m_nonce)
  let ciphertext := A.encrypt s.m_secret_key nonce_bytes (rtp.take 12) data
  let rtp := memcpy rtp 12 ciphertext
  let rtp := resize rtp (12 + ciphertext.length + 4)
  let rtp := memcpy rtp (rtp.length - 4) (u32Bytes m_nonce)
  ({ s with m_sequence := m_sequence, m_nonce := m_nonce }, rtp)

end UDPSocket

/-- The sending-side data members of `LoopbackCapture` (LoopbackCapture.hpp); `m_udp`
records whether the socket pointer is non-null. -/
structure LoopbackCapture where
  m_udp : Bool
  m_audioSSRC : Nat
  m_secretKey : Bytes
  m_sequence : Nat
  m_nonce : Nat
  m_rtpTimestamp : Nat
deriving Repr, DecidableEq

namespace LoopbackCapture

/-- The assignments at the head of `LoopbackCapture::Init` (the device set-up that follows
does not touch these members); `udp` says whether the pointer passed is non-null. -/
def Init (s : LoopbackCapture) (udp : Bool) (audioSSRC : Nat) (secretKey : Bytes) :
    LoopbackCapture :=
  { s with m_udp := udp, m_audioSSRC := audioSSRC, m_secretKey := secretKey, m_sequence := 0,
           m_nonce := 0, m_rtpTimestamp := 0 }

/-- Member function `LoopbackCapture::SendOpusPacket`: the capture object after the call and
the datagram passed to `m_udp->Send`, if one is.  The `int size` is the length of `data`. -/
def SendOpusPacket (A : AEAD) (s : LoopbackCapture) (data : Bytes) (timestamp : Nat) :
    LoopbackCapture × Option Bytes :=
  if !s.m_udp || data.length ≤ 0 then (s, none)
  else
    let m_sequence := (s.m_sequence + 1) % 2 ^ 16
    let m_nonce := (s.m_nonce + 1) % 2 ^ 32
    let encryptedSize := data.length + ABYTES
    let rtp : Bytes := List.replicate (12 + encryptedSize + 4) 0
    let rtp := rtp.set 0 0x80
    let rtp := rtp.set 1 0x78
    let rtp := rtp.set 2 ((m_sequence >>> 8) &&& 0xFF)
    let rtp := rtp.set 3 ((m_sequence >>> 0) &&& 0xFF)
    let rtp := rtp.set 4 ((timestamp >>> 24) &&& 0xFF)
    let rtp := rtp.set 5 ((timestamp >>> 16) &&& 0xFF)
    let rtp := rtp.set 6 ((timestamp >>> 8) &&& 0xFF)
    let rtp := rtp.set 7 ((timestamp >>> 0) &&& 0xFF)
    let rtp := rtp.set 8 ((s.m_audioSSRC >>> 24) &&& 0xFF)
    let rtp := rtp.set 9 ((s.m_audioSSRC >>> 16) &&& 0xFF)
    let rtp := rtp.set 10 ((s.m_audioSSRC >>> 8) &&& 0xFF)
    let rtp := rtp.set 11 ((s.m_audioSSRC >>> 0) &&& 0xFF)
    let nonceBytes := memcpy (List.replicate NPUBBYTES 0) 0 (u32Bytes m_nonce)
    let ciphertext := A.encrypt s.m_secretKey nonceBytes (rtp.take 12) data
    let rtp := memcpy rtp 12 ciphertext
    let rtp := resize rtp (12 + ciphertext.length + 4)
    let rtp := memcpy rtp (rtp.length - 4) (u32Bytes m_nonce)
    ({ s with m_sequence := m_sequence, m_nonce := m_nonce }, some rtp)

end LoopbackCapture

/-! ## Normal forms of the audio sealing paths -/

/-- Normal form of `UDPSocket::SendEncrypted`. -/
theorem UDPSocket.SendEncrypted_eq (A : AEAD) (s : UDPSocket) (data : Bytes) (timestamp : Nat) :
    UDPSocket.SendEncrypted A s data timestamp =
      ({ s with m_sequence := (s.m_sequence + 1) % 2 ^ 16, m_nonce := (s.m_nonce + 1) % 2 ^ 32 },
       sealedPacket A s.m_secret_key 0x78 false ((s.m_sequence + 1) % 2 ^ 16)
         timestamp s.m_ssrc ((s.m_nonce + 1) % 2 ^ 32) data) := by
  have hbuf : ∀ k : Nat, List.replicate (12 + (k + ABYTES) + 4) (0 : Nat)
      = [0, 0, 0, 0, 0, 0, 0, 0, 0, 0, 0, 0] ++ List.replicate (k + ABYTES + 4) 0 := by
    intro k; rw [Nat.add_assoc 12, replicate_twelve_add]
  unfold UDPSocket.SendEncrypted sealedPacket
  simp only [hbuf, nonceBytes_eq]
  simp only [List.cons_append, List.nil_append, List.set_cons_zero, List.set_cons_succ,
      List.take_succ_cons, List.take_zero, Nat.shiftRight_zero]
  congr 1
  rw [← List.nil_append (List.replicate _ _)]
  simp only [← List.cons_append]
  rw [seal_buffer _ _ _ _ (by rfl) (by rfl) (by simp [A.encrypt_length])]
  simp [rtpHeader, be16, be32]

/-- Normal form of `LoopbackCapture::SendOpusPacket` when a packet is sent. -/
theorem LoopbackCapture.SendOpusPacket_eq (A : AEAD) (s : LoopbackCapture) (data : Bytes)
    (timestamp : Nat) (hudp : s.m_udp = true) (hdata : 0 < data.length) :
    LoopbackCapture.SendOpusPacket A s data timestamp =
      ({ s with m_sequence := (s.m_sequence + 1) % 2 ^ 16, m_nonce := (s.m_nonce + 1) % 2 ^ 32 },
       some (sealedPacket A s.m_secretKey 0x78 false ((s.m_sequence + 1) % 2 ^ 16)
         timestamp s.m_audioSSRC ((s.m_nonce + 1) % 2 ^ 32) data)) := by
  have hbuf : ∀ k : Nat, List.replicate (12 + (k + ABYTES) + 4) (0 : Nat)
      = [0, 0, 0, 0, 0, 0, 0, 0, 0, 0, 0, 0] ++ List.replicate (k + ABYTES + 4) 0 := by
    intro k; rw [Nat.add_assoc 12, replicate_twelve_add]
  unfold LoopbackCapture.SendOpusPacket sealedPacket
  have hg : (!s.m_udp || decide (data.length ≤ 0)) = false := by
    have : ¬ data.length ≤ 0 := by omega
    simp [hudp, this]
  simp only [hg, hbuf, nonceBytes_eq]
  simp only [List.cons_append, List.nil_append, List.set_cons_zero, List.set_cons_succ,
      List.take_succ_cons, List.take_zero, Nat.shiftRight_zero, Bool.false_eq_true, if_false]
  congr 2
  rw [← List.nil_append (List.replicate _ _)]
  simp only [← List.cons_append]
  rw [seal_buffer _ _ _ _ (by rfl) (by rfl) (by simp [A.encrypt_length])]
  simp [rtpHeader, be16, be32]

/-- A call of `LoopbackCapture::SendOpusPacket` that sends nothing changes nothing. -/
theorem LoopbackCapture.SendOpusPacket_skip (A : AEAD) (s : LoopbackCapture) (data : Bytes)
    (timestamp : Nat) (h : s.m_udp = false ∨ data.length = 0) :
    LoopbackCapture.SendOpusPacket A s data timestamp = (s, none) := by
  unfold LoopbackCapture.SendOpusPacket
  rcases h with h | h <;> simp [h]

/-! ## Reading the counters off the wire -/

/-- Two bytes, most significant first, in plain arithmetic. -/
def bigEndian16 (x : Nat) : Bytes := [x / 256 % 256, x % 256]

/-- Four bytes, most significant first, in plain arithmetic. -/
def bigEndian32 (x : Nat) : Bytes :=
  [x / 16777216 % 256, x / 65536 % 256, x / 256 % 256, x % 256]

/-- Four bytes, least significant first, in plain arithmetic. -/
def littleEndian32 (x : Nat) : Bytes :=
  [x % 256, x / 256 % 256, x / 65536 % 256, x / 16777216 % 256]

/-- The sequence number carried by a datagram: bytes 2 and 3, big-endian. -/
def wireSeq (d : Bytes) : Nat := d.getD 2 0 * 256 + d.getD 3 0

/-- The nonce counter carried by a datagram: its last four bytes, little-endian. -/
def wireNonce (d : Bytes) : Nat :=
  d.getD (d.length - 4) 0 + d.getD (d.length - 3) 0 * 256 + d.getD (d.length - 2) 0 * 65536
    + d.getD (d.length - 1) 0 * 16777216

theorem be16_eq (x : Nat) : be16 x = bigEndian16 x := by
  simp only [be16, bigEndian16, and_255, Nat.shiftRight_eq_div_pow]

theorem be32_eq (x : Nat) : be32 x = bigEndian32 x := by
  simp only [be32, bigEndian32, and_255, Nat.shiftRight_eq_div_pow]

theorem u32Bytes_eq (x : Nat) : u32Bytes x = littleEndian32 x := by
  simp only [u32Bytes, littleEndian32, and_255, Nat.shiftRight_eq_div_pow]

theorem sealedPacket_length (A : AEAD) (key : Bytes) (pt : Nat) (m : Bool)
    (seq ts ssrc n : Nat) (payload : Bytes) :
    (sealedPacket A key pt m seq ts ssrc n payload).length = 12 + payload.length + 16 + 4 := by
  simp [sealedPacket, rtpHeader_length, A.encrypt_length, u32Bytes, ABYTES]
  omega

theorem wireSeq_sealedPacket (A : AEAD) (key : Bytes) (pt : Nat) (m : Bool)
    (seq ts ssrc n : Nat) (payload : Bytes) :
    wireSeq (sealedPacket A key pt m seq ts ssrc n payload) = seq % 2 ^ 16 := by
  simp only [wireSeq, sealedPacket, rtpHeader, be16, List.cons_append, List.nil_append,
    List.getD_cons_succ, List.getD_cons_zero, and_255, Nat.shiftRight_eq_div_pow]
  omega

theorem wireNonce_sealedPacket (A : AEAD) (key : Bytes) (pt : Nat) (m : Bool)
    (seq ts ssrc n : Nat) (payload : Bytes) :
    wireNonce (sealedPacket A key pt m seq ts ssrc n payload) = n % 2 ^ 32 := by
  have hl := sealedPacket_length A key pt m seq ts ssrc n payload
  unfold wireNonce
  rw [hl]
  unfold sealedPacket
  set pre := rtpHeader pt m seq ts ssrc
    ++ A.encrypt key (nonce24 n) (rtpHeader pt m seq ts ssrc) payload with hpre
  have hp : pre.length = 12 + payload.length + 16 := by
    simp [hpre, rtpHeader_length, A.encrypt_length, ABYTES]; omega
  have h : ∀ k, (pre ++ u32Bytes n).getD (pre.length + k) 0 = (u32Bytes n).getD k 0 := by
    intro k
    rw [List.getD_append_right _ _ _ _ (by omega)]
    congr 1; omega
  have e0 : 12 + payload.length + 16 + 4 - 4 = pre.length + 0 := by omega
  have e1 : 12 + payload.length + 16 + 4 - 3 = pre.length + 1 := by omega
  have e2 : 12 + payload.length + 16 + 4 - 2 = pre.length + 2 := by omega
  have e3 : 12 + payload.length + 16 + 4 - 1 = pre.length + 3 := by omega
  rw [e0, e1, e2, e3, h 0, h 1, h 2, h 3]
  simp only [u32Bytes, List.getD_cons_succ, List.getD_cons_zero, and_255,
    Nat.shiftRight_eq_div_pow]
  omega

/-! ## Claims C1, C6, C7, C8 -/

/-- C1. Seal/open round trip: the packet built by `VideoRTPSender::SendRTPPacket`, for any
key, payload, 32-bit timestamp, marker flag and payload type below 128, is accepted by
`VideoRTPReceiver::DecryptPacket` under the same key, which returns the original payload
together with the payload type, the (incremented) sequence number, the timestamp and the
SSRC that the sender wrote into the header. -/
theorem C1_seal_open_roundtrip (A : AEAD) (s : VideoRTPSender) (r : VideoRTPReceiver)
    (payload : Bytes) (timestamp : Nat) (marker : Bool)
    (hkey : r.m_secretKey = s.m_secretKey) (hpt : s.m_payloadType < 128)
    (hts : timestamp < 2 ^ 32) (hssrc : s.m_videoSSRC < 2 ^ 32) :
    VideoRTPReceiver.DecryptPacket A r
        (VideoRTPSender.SendRTPPacket A s payload timestamp marker).2
      = some { payloadType := s.m_payloadType, seq := (s.m_sequence + 1) % 2 ^ 16,
               timestamp := timestamp, ssrc := s.m_videoSSRC, payload := payload } := by
  rw [VideoRTPSender.SendRTPPacket_eq, ← hkey]
  rw [VideoRTPReceiver.DecryptPacket_sealedPacket A r _ _ _ _ _ _ _ hpt
    (Nat.mod_lt _ (by norm_num))]
  rw [Nat.mod_mod, Nat.mod_eq_of_lt hts, Nat.mod_eq_of_lt hssrc]

/-- C1 at a concrete sender (fresh, initialised with SSRC 7 and an all-ones key) and the
three-byte payload `65 01 02` with the marker set. -/
theorem C1_seal_open_roundtrip_witness :
    VideoRTPReceiver.DecryptPacket toyAEAD
        (VideoRTPReceiver.Init VideoRTPReceiver.fresh 7 (List.replicate 32 1))
        (VideoRTPSender.SendRTPPacket toyAEAD
          (VideoRTPSender.Init VideoRTPSender.fresh true 7 (List.replicate 32 1))
          [0x65, 1, 2] 90000 true).2
      = some { payloadType := 101, seq := 1, timestamp := 90000, ssrc := 7,
               payload := [0x65, 1, 2] } :=
  C1_seal_open_roundtrip toyAEAD
    (VideoRTPSender.Init VideoRTPSender.fresh true 7 (List.replicate 32 1))
    (VideoRTPReceiver.Init VideoRTPReceiver.fresh 7 (List.replicate 32 1))
    [0x65, 1, 2] 90000 true rfl (by decide) (by decide) (by decide)

/-- C6. Wire format of a sealed packet: the datagram produced by
`VideoRTPSender::SendRTPPacket` is `H ++ AEAD(key, LE32(n) ++ 20 zero bytes, aad = H, P) ++
LE32(n)` with `n` the nonce counter after the increment and `H` the 12-byte header
`[0x80, payload type | (0x80 if marker), sequence BE, timestamp BE, SSRC BE]` (the sequence
being the one after the increment), of total length `12 + len P + 16 + 4`; and the same
holds of `UDPSocket::SendEncrypted` with payload type 120 and no marker. -/
theorem C6_wire_format (A : AEAD) (s : VideoRTPSender) (u : UDPSocket) (P : Bytes)
    (timestamp : Nat) (marker : Bool) :
    (let n := (s.m_nonce + 1) % 2 ^ 32
     let H := [0x80, s.m_payloadType ||| (if marker then 0x80 else 0)]
       ++ bigEndian16 ((s.m_sequence + 1) % 2 ^ 16) ++ bigEndian32 timestamp
       ++ bigEndian32 s.m_videoSSRC
     (VideoRTPSender.SendRTPPacket A s P timestamp marker).2
         = H ++ A.encrypt s.m_secretKey (littleEndian32 n ++ List.replicate 20 0) H P
             ++ littleEndian32 n
       ∧ H.length = 12
       ∧ (VideoRTPSender.SendRTPPacket A s P timestamp marker).2.length
           = 12 + P.length + 16 + 4) ∧
    (let n := (u.m_nonce + 1) % 2 ^ 32
     let H := [0x80, 120] ++ bigEndian16 ((u.m_sequence + 1) % 2 ^ 16) ++ bigEndian32 timestamp
       ++ bigEndian32 u.m_ssrc
     (UDPSocket.SendEncrypted A u P timestamp).2
         = H ++ A.encrypt u.m_secret_key (littleEndian32 n ++ List.replicate 20 0) H P
             ++ littleEndian32 n
       ∧ H.length = 12
       ∧ (UDPSocket.SendEncrypted A u P timestamp).2.length = 12 + P.length + 16 + 4) := by
  refine ⟨?_, ?_⟩
  · simp only [VideoRTPSender.SendRTPPacket_eq, sealedPacket_length]
    refine ⟨?_, by simp [bigEndian16, bigEndian32], trivial⟩
    cases marker <;>
      simp [sealedPacket, rtpHeader, nonce24, be16_eq, be32_eq, u32Bytes_eq]
  · simp only [UDPSocket.SendEncrypted_eq, sealedPacket_length]
    refine ⟨?_, by simp [bigEndian16, bigEndian32], trivial⟩
    simp [sealedPacket, rtpHeader, nonce24, be16_eq, be32_eq, u32Bytes_eq]

/-- C7. Counter discipline: for two consecutive packets sealed by one sender
(`VideoRTPSender::SendRTPPacket`, `UDPSocket::SendEncrypted` or
`LoopbackCapture::SendOpusPacket`), the nonce counter on the wire of the second is that of
the first plus 1 (mod 2^32) and its sequence number is that of the first plus 1 (mod 2^16);
and each packet carries the counters as they are after the joint increment, which is what
the sender keeps. -/
theorem C7_counter_discipline (A : AEAD) (s : VideoRTPSender) (u : UDPSocket)
    (l : LoopbackCapture) (p1 p2 : Bytes) (t1 t2 : Nat) (m1 m2 : Bool)
    (hudp : l.m_udp = true) (h1 : 0 < p1.length) (h2 : 0 < p2.length) :
    (let a := VideoRTPSender.SendRTPPacket A s p1 t1 m1
     let b := VideoRTPSender.SendRTPPacket A a.1 p2 t2 m2
     wireNonce b.2 = (wireNonce a.2 + 1) % 2 ^ 32 ∧ wireSeq b.2 = (wireSeq a.2 + 1) % 2 ^ 16 ∧
     wireNonce a.2 = (s.m_nonce + 1) % 2 ^ 32 ∧ wireSeq a.2 = (s.m_sequence + 1) % 2 ^ 16 ∧
     a.1.m_nonce = wireNonce a.2 ∧ a.1.m_sequence = wireSeq a.2) ∧
    (let a := UDPSocket.SendEncrypted A u p1 t1
     let b := UDPSocket.SendEncrypted A a.1 p2 t2
     wireNonce b.2 = (wireNonce a.2 + 1) % 2 ^ 32 ∧ wireSeq b.2 = (wireSeq a.2 + 1) % 2 ^ 16 ∧
     wireNonce a.2 = (u.m_nonce + 1) % 2 ^ 32 ∧ wireSeq a.2 = (u.m_sequence + 1) % 2 ^ 16 ∧
     a.1.m_nonce = wireNonce a.2 ∧ a.1.m_sequence = wireSeq a.2) ∧
    (let a := LoopbackCapture.SendOpusPacket A l p1 t1
     let b := LoopbackCapture.SendOpusPacket A a.1 p2 t2
     ∃ da db, a.2 = some da ∧ b.2 = some db ∧
     wireNonce db = (wireNonce da + 1) % 2 ^ 32 ∧ wireSeq db = (wireSeq da + 1) % 2 ^ 16 ∧
     wireNonce da = (l.m_nonce + 1) % 2 ^ 32 ∧ wireSeq da = (l.m_sequence + 1) % 2 ^ 16 ∧
     a.1.m_nonce = wireNonce da ∧ a.1.m_sequence = wireSeq da) := by
  refine ⟨?_, ?_, ?_⟩
  · simp only [VideoRTPSender.SendRTPPacket_eq, wireNonce_sealedPacket, wireSeq_sealedPacket,
      Nat.mod_mod]
    simp
  · simp only [UDPSocket.SendEncrypted_eq, wireNonce_sealedPacket, wireSeq_sealedPacket,
      Nat.mod_mod]
    simp
  · rw [LoopbackCapture.SendOpusPacket_eq A l p1 t1 hudp h1]
    simp only
    rw [LoopbackCapture.SendOpusPacket_eq A _ p2 t2 (by exact hudp) h2]
    refine ⟨_, _, rfl, rfl, ?_⟩
    simp only [wireNonce_sealedPacket, wireSeq_sealedPacket, Nat.mod_mod]
    simp

/-- C7 at concrete senders: counters at their maximum (sequence 65535, nonce 2^32 - 1), so
that the first increment wraps. -/
theorem C7_counter_discipline_witness :
    (let a := VideoRTPSender.SendRTPPacket toyAEAD
        { VideoRTPSender.fresh with m_udp := true, m_sequence := 65535, m_nonce := 4294967295 }
        [0x65] 0 false
     let b := VideoRTPSender.SendRTPPacket toyAEAD a.1 [0x41] 3000 true
     wireNonce b.2 = (wireNonce a.2 + 1) % 2 ^ 32 ∧ wireSeq b.2 = (wireSeq a.2 + 1) % 2 ^ 16 ∧
     wireNonce a.2 = (4294967295 + 1) % 2 ^ 32 ∧ wireSeq a.2 = (65535 + 1) % 2 ^ 16 ∧
     a.1.m_nonce = wireNonce a.2 ∧ a.1.m_sequence = wireSeq a.2) :=
  (C7_counter_discipline toyAEAD
    { VideoRTPSender.fresh with m_udp := true, m_sequence := 65535, m_nonce := 4294967295 }
    { m_secret_key := List.replicate 32 1, m_ssrc := 7, m_sequence := 0, m_nonce := 0 }
    { m_udp := true, m_audioSSRC := 7, m_secretKey := List.replicate 32 1, m_sequence := 0,
      m_nonce := 0, m_rtpTimestamp := 0 }
    [0x65] [0x41] 0 3000 false true rfl (by decide) (by decide)).1

/-- The datagrams of successive calls of `VideoRTPSender::SendRTPPacket` on one sender, one
call per `(payload, timestamp, marker)` request, in order. -/
def VideoRTPSender.sendMany (A : AEAD) : VideoRTPSender → List (Bytes × Nat × Bool) → List Bytes
  | _, [] => []
  | s, q :: qs =>
    (VideoRTPSender.SendRTPPacket A s q.1 q.2.1 q.2.2).2
      :: VideoRTPSender.sendMany A (VideoRTPSender.SendRTPPacket A s q.1 q.2.1 q.2.2).1 qs

/-- The datagrams of successive calls of `UDPSocket::SendEncrypted` on one socket, one call
per `(payload, timestamp)` request, in order. -/
def UDPSocket.sendMany (A : AEAD) : UDPSocket → List (Bytes × Nat) → List Bytes
  | _, [] => []
  | u, q :: qs =>
    (UDPSocket.SendEncrypted A u q.1 q.2).2
      :: UDPSocket.sendMany A (UDPSocket.SendEncrypted A u q.1 q.2).1 qs

/-- The datagrams of successive calls of `LoopbackCapture::SendOpusPacket` on one capture
object, one call per `(payload, timestamp)` request, in order (a call may send nothing). -/
def LoopbackCapture.sendMany (A : AEAD) : LoopbackCapture → List (Bytes × Nat) → List Bytes
  | _, [] => []
  | l, q :: qs =>
    (LoopbackCapture.SendOpusPacket A l q.1 q.2).2.toList
      ++ LoopbackCapture.sendMany A (LoopbackCapture.SendOpusPacket A l q.1 q.2).1 qs

/-- The counters a wrapping 32-bit counter takes in `k` successive increments from `n0`. -/
def counterRun (n0 k : Nat) : List Nat := (List.range k).map (fun i => (n0 + 1 + i) % 2 ^ 32)

theorem counterRun_succ (n0 k : Nat) :
    counterRun n0 (k + 1) = (n0 + 1) % 2 ^ 32 :: counterRun ((n0 + 1) % 2 ^ 32) k := by
  unfold counterRun
  rw [List.range_succ_eq_map, List.map_cons, List.map_map]
  congr 1
  apply List.map_congr_left
  intro i _
  simp only [Function.comp]
  omega

theorem counterRun_nodup (n0 k : Nat) (hk : k ≤ 2 ^ 32) : (counterRun n0 k).Nodup := by
  unfold counterRun
  apply List.Nodup.map_on _ (List.nodup_range k)
  intro x hx y hy hxy
  rw [List.mem_range] at hx hy
  omega

theorem video_sendMany_nonces (A : AEAD) (s : VideoRTPSender)
    (reqs : List (Bytes × Nat × Bool)) :
    (VideoRTPSender.sendMany A s reqs).map wireNonce = counterRun s.m_nonce reqs.length := by
  induction reqs generalizing s with
  | nil => rfl
  | cons q qs ih =>
    rw [VideoRTPSender.sendMany, List.map_cons, ih, List.length_cons, counterRun_succ,
      VideoRTPSender.SendRTPPacket_eq, wireNonce_sealedPacket, Nat.mod_mod]

theorem udp_sendMany_nonces (A : AEAD) (u : UDPSocket) (reqs : List (Bytes × Nat)) :
    (UDPSocket.sendMany A u reqs).map wireNonce = counterRun u.m_nonce reqs.length := by
  induction reqs generalizing u with
  | nil => rfl
  | cons q qs ih =>
    rw [UDPSocket.sendMany, List.map_cons, ih, List.length_cons, counterRun_succ,
      UDPSocket.SendEncrypted_eq, wireNonce_sealedPacket, Nat.mod_mod]

theorem loopback_sendMany_nonces (A : AEAD) (l : LoopbackCapture)
    (reqs : List (Bytes × Nat)) :
    ∃ k, k ≤ reqs.length ∧
      (LoopbackCapture.sendMany A l reqs).map wireNonce = counterRun l.m_nonce k := by
  induction reqs generalizing l with
  | nil => exact ⟨0, Nat.le_refl _, rfl⟩
  | cons q qs ih =>
    by_cases hsend : l.m_udp = true ∧ 0 < q.1.length
    · obtain ⟨k, hk, hkn⟩ := ih (LoopbackCapture.SendOpusPacket A l q.1 q.2).1
      refine ⟨k + 1, by simp only [List.length_cons]; omega, ?_⟩
      rw [LoopbackCapture.sendMany, List.map_append, hkn, counterRun_succ,
        LoopbackCapture.SendOpusPacket_eq A l q.1 q.2 hsend.1 hsend.2]
      simp [wireNonce_sealedPacket]
    · have hskip : l.m_udp = false ∨ q.1.length = 0 := by
        by_cases hu : l.m_udp = true
        · right
          have : ¬ 0 < q.1.length := fun h => hsend ⟨hu, h⟩
          omega
        · left; simpa using hu
      obtain ⟨k, hk, hkn⟩ := ih l
      refine ⟨k, by simp only [List.length_cons]; omega, ?_⟩
      rw [LoopbackCapture.sendMany, LoopbackCapture.SendOpusPacket_skip A l q.1 q.2 hskip]
      simpa using hkn

theorem nodup_pairs_of_nonces (ds : List Bytes) (h : (ds.map wireNonce).Nodup) :
    (ds.map (fun d => (wireSeq d, wireNonce d))).Nodup := by
  have e : ds.map wireNonce = (ds.map (fun d => (wireSeq d, wireNonce d))).map Prod.snd := by
    rw [List.map_map]; rfl
  rw [e] at h
  exact List.Nodup.of_map _ h

/-- C8 as stated fails: in one stream session the video sender and the loopback audio
sender are both initialised with the session key and each starts its own counters at zero,
so the first video packet and the first loopback audio packet are two different datagrams
carrying the same `(sequence, nonce)` pair `(1, 1)`. -/
theorem C8_counterexample :
    ∃ dv da,
      (VideoRTPSender.SendRTPPacket toyAEAD
          (VideoRTPSender.Init VideoRTPSender.fresh true 8 (List.replicate 32 1))
          [0x65, 0x88] 0 true).2 = dv ∧
      (LoopbackCapture.SendOpusPacket toyAEAD
          (LoopbackCapture.Init
            { m_udp := false, m_audioSSRC := 0, m_secretKey := List.replicate 32 0,
              m_sequence := 0, m_nonce := 0, m_rtpTimestamp := 0 }
            true 7 (List.replicate 32 1))
          [0xF8, 0xFF, 0xFE] 0).2 = some da ∧
      dv ≠ da ∧ (wireSeq dv, wireNonce dv) = (1, 1) ∧ (wireSeq da, wireNonce da) = (1, 1) := by
  refine ⟨_, _, rfl, rfl, ?_, ?_, ?_⟩ <;> decide

/-- C8, amended. Nonce uniqueness per sender: for every sequence of fewer than 2^32 calls
on one sender (`VideoRTPSender::SendRTPPacket`, `UDPSocket::SendEncrypted` or
`LoopbackCapture::SendOpusPacket`), from any state of its counters, no two of the datagrams
it emits carry the same nonce counter, hence no two carry the same `(sequence, nonce)`
pair. -/
theorem C8_nonce_unique_per_sender (A : AEAD) (s : VideoRTPSender) (u : UDPSocket)
    (l : LoopbackCapture) (vreqs : List (Bytes × Nat × Bool)) (ureqs lreqs : List (Bytes × Nat))
    (hv : vreqs.length < 2 ^ 32) (hu : ureqs.length < 2 ^ 32) (hl : lreqs.length < 2 ^ 32) :
    ((VideoRTPSender.sendMany A s vreqs).map wireNonce).Nodup ∧
    ((VideoRTPSender.sendMany A s vreqs).map (fun d => (wireSeq d, wireNonce d))).Nodup ∧
    ((UDPSocket.sendMany A u ureqs).map wireNonce).Nodup ∧
    ((UDPSocket.sendMany A u ureqs).map (fun d => (wireSeq d, wireNonce d))).Nodup ∧
    ((LoopbackCapture.sendMany A l lreqs).map wireNonce).Nodup ∧
    ((LoopbackCapture.sendMany A l lreqs).map (fun d => (wireSeq d, wireNonce d))).Nodup := by
  have h1 : ((VideoRTPSender.sendMany A s vreqs).map wireNonce).Nodup := by
    rw [video_sendMany_nonces]; exact counterRun_nodup _ _ (Nat.le_of_lt hv)
  have h2 : ((UDPSocket.sendMany A u ureqs).map wireNonce).Nodup := by
    rw [udp_sendMany_nonces]; exact counterRun_nodup _ _ (Nat.le_of_lt hu)
  have h3 : ((LoopbackCapture.sendMany A l lreqs).map wireNonce).Nodup := by
    obtain ⟨k, hk, hkn⟩ := loopback_sendMany_nonces A l lreqs
    rw [hkn]; exact counterRun_nodup _ _ (by omega)
  exact ⟨h1, nodup_pairs_of_nonces _ h1, h2, nodup_pairs_of_nonces _ h2, h3,
    nodup_pairs_of_nonces _ h3⟩

/-- C8 (amended) at concrete senders with three requests each, the video sender's nonce
counter starting at its maximum. -/
theorem C8_nonce_unique_per_sender_witness :
    ((VideoRTPSender.sendMany toyAEAD
        { VideoRTPSender.fresh with m_udp := true, m_nonce := 4294967295 }
        [([0x65], 0, false), ([0x41], 0, true), ([0x41], 3000, true)]).map
      (fun d => (wireSeq d, wireNonce d))).Nodup :=
  (C8_nonce_unique_per_sender toyAEAD
    { VideoRTPSender.fresh with m_udp := true, m_nonce := 4294967295 }
    { m_secret_key := List.replicate 32 1, m_ssrc := 7, m_sequence := 0, m_nonce := 0 }
    { m_udp := true, m_audioSSRC := 7, m_secretKey := List.replicate 32 1, m_sequence := 0,
      m_nonce := 0, m_rtpTimestamp := 0 }
    [([0x65], 0, false), ([0x41], 0, true), ([0x41], 3000, true)]
    [([0xF8, 0xFF, 0xFE], 0)] [([0xF8], 0), ([], 960)]
    (by decide) (by decide) (by decide)).2.1

/-! ## Packetisation plans

The packetising functions interleave the choice of RTP payloads with sealing.  The lemmas
below separate the two: each function seals, in order, a list of `(payload, marker)` pairs
that is described without reference to the sender's counters. -/

/-- Successive calls of `SendRTPPacket` with one timestamp, one per `(payload, marker)`. -/
def VideoRTPSender.sealAll (A : AEAD) (timestamp : Nat) :
    VideoRTPSender → List (Bytes × Bool) → VideoRTPSender × List Bytes
  | s, [] => (s, [])
  | s, p :: ps =>
    ((VideoRTPSender.sealAll A timestamp
        (VideoRTPSender.SendRTPPacket A s p.1 timestamp p.2).1 ps).1,
     (VideoRTPSender.SendRTPPacket A s p.1 timestamp p.2).2
       :: (VideoRTPSender.sealAll A timestamp
        (VideoRTPSender.SendRTPPacket A s p.1 timestamp p.2).1 ps).2)

/-- A byte string cut into pieces of 1198 bytes, the last one possibly shorter. -/
def fuaChunks (payload : Bytes) : List Bytes :=
  if payload.length = 0 then []
  else if payload.length > 1198 then payload.take 1198 :: fuaChunks (payload.drop 1198)
  else [payload]
termination_by payload.length
decreasing_by
  simp only [List.length_drop]; omega

/-- The FU header byte: the NAL type with the start and end bits. -/
def fuHeaderByte (nalType : Nat) (isFirst isLast : Bool) : Nat :=
  let fuHeader := if isFirst then nalType ||| 0x80 else nalType
  if isLast then fuHeader ||| 0x40 else fuHeader

/-- FU-A payloads for a list of fragments: indicator, header, fragment.  The end bit goes
on the last fragment, the start bit on the first one when `isFirst`. -/
def fuPackets (fuIndicator nalType : Nat) : Bool → List Bytes → List Bytes
  | _, [] => []
  | isFirst, f :: rest =>
    ([fuIndicator, fuHeaderByte nalType isFirst rest.isEmpty] ++ f)
      :: fuPackets fuIndicator nalType false rest

/-- Payloads paired with marker flags: `false` on all but the last, `m` on the last. -/
def withMarker : List Bytes → Bool → List (Bytes × Bool)
  | [], _ => []
  | p :: rest, m => (p, rest.isEmpty && m) :: withMarker rest m

theorem fuaChunks_nil : fuaChunks [] = [] := by
  rw [fuaChunks]; simp

theorem fuaChunks_short (payload : Bytes) (h0 : 0 < payload.length)
    (h : payload.length ≤ 1198) : fuaChunks payload = [payload] := by
  rw [fuaChunks]
  rw [if_neg (by omega), if_neg (by omega)]

theorem fuaChunks_long (payload : Bytes) (h : 1198 < payload.length) :
    fuaChunks payload = payload.take 1198 :: fuaChunks (payload.drop 1198) := by
  rw [fuaChunks]
  rw [if_neg (by omega), if_pos (by omega)]

theorem fuaChunks_ne_nil (payload : Bytes) (h0 : 0 < payload.length) :
    fuaChunks payload ≠ [] := by
  by_cases h : 1198 < payload.length
  · rw [fuaChunks_long _ h]; simp
  · rw [fuaChunks_short _ h0 (by omega)]; simp

theorem fuPacket_buffer (ind hdr : Nat) (frag : Bytes) :
    memcpy (((List.replicate (2 + frag.length) 0).set 0 ind).set 1 hdr) 2 frag
      = [ind, hdr] ++ frag := by
  have : List.replicate (2 + frag.length) (0 : Nat) = [0, 0] ++ List.replicate frag.length 0 := by
    rw [List.replicate_add]; rfl
  rw [this]
  simp [memcpy]
  omega

/-- One iteration of the loop of `VideoRTPSender::SendFUA`. -/
theorem VideoRTPSender.SendFUA_loop_step (A : AEAD) (ind ty ts : Nat) (lastNAL : Bool)
    (s : VideoRTPSender) (payload : Bytes) (isFirst : Bool) (h0 : 0 < payload.length) :
    VideoRTPSender.SendFUA_loop A ind ty ts lastNAL s payload isFirst
      = ((VideoRTPSender.SendFUA_loop A ind ty ts lastNAL
            (VideoRTPSender.SendRTPPacket A s
              ([ind, fuHeaderByte ty isFirst (decide (payload.length ≤ 1198))]
                ++ payload.take 1198) ts
              (decide (payload.length ≤ 1198) && lastNAL)).1
            (payload.drop 1198) false).1,
         (VideoRTPSender.SendRTPPacket A s
              ([ind, fuHeaderByte ty isFirst (decide (payload.length ≤ 1198))]
                ++ payload.take 1198) ts
              (decide (payload.length ≤ 1198) && lastNAL)).2
          :: (VideoRTPSender.SendFUA_loop A ind ty ts lastNAL
            (VideoRTPSender.SendRTPPacket A s
              ([ind, fuHeaderByte ty isFirst (decide (payload.length ≤ 1198))]
                ++ payload.take 1198) ts
              (decide (payload.length ≤ 1198) && lastNAL)).1
            (payload.drop 1198) false).2) := by
  rw [VideoRTPSender.SendFUA_loop]
  simp only [h0, if_true, gt_iff_lt]
  generalize hF : (if VideoRTPSender.MAX_RTP_PAYLOAD - 2 < payload.length then
      VideoRTPSender.MAX_RTP_PAYLOAD - 2 else payload.length) = fragLen
  have hfl : fragLen = min 1198 payload.length := by
    rw [← hF]; unfold VideoRTPSender.MAX_RTP_PAYLOAD
    split <;> omega
  have htake : payload.take fragLen = payload.take 1198 := by
    rw [hfl, ← List.take_take, List.take_length]
  have hdrop : payload.drop fragLen = payload.drop 1198 := by
    by_cases h : 1198 < payload.length
    · rw [hfl, Nat.min_eq_left (by omega)]
    · rw [hfl, Nat.min_eq_right (by omega), List.drop_length,
        List.drop_eq_nil_of_le (by omega)]
  have hlast : (fragLen == payload.length) = decide (payload.length ≤ 1198) := by
    by_cases h : 1198 < payload.length
    · have h1 : ¬ payload.length ≤ 1198 := by omega
      have h2 : ¬ fragLen = payload.length := by omega
      simp [h1, h2]
    · have h1 : payload.length ≤ 1198 := by omega
      have h2 : fragLen = payload.length := by omega
      simp [h1, h2]
  have hlen : (payload.take 1198).length = fragLen := by
    rw [List.length_take, hfl]
  have hfu := fuPacket_buffer ind
    (if decide (payload.length ≤ 1198) = true then
      (if isFirst = true then ty ||| 128 else ty) ||| 64
     else if isFirst = true then ty ||| 128 else ty) (payload.take 1198)
  rw [hlen] at hfu
  rw [hlast, htake, hdrop, hfu]
  rfl

/-- Normal form of the loop of `VideoRTPSender::SendFUA`. -/
theorem VideoRTPSender.SendFUA_loop_eq (A : AEAD) (ind ty ts : Nat) (lastNAL : Bool)
    (s : VideoRTPSender) (payload : Bytes) (isFirst : Bool) :
    VideoRTPSender.SendFUA_loop A ind ty ts lastNAL s payload isFirst
      = VideoRTPSender.sealAll A ts s
          (withMarker (fuPackets ind ty isFirst (fuaChunks payload)) lastNAL) := by
  generalize hk : payload.length = k
  induction k using Nat.strong_induction_on generalizing s payload isFirst with
  | _ k ih =>
    by_cases h0 : 0 < payload.length
    · rw [VideoRTPSender.SendFUA_loop_step _ _ _ _ _ _ _ _ h0]
      rw [ih (payload.drop 1198).length (by rw [List.length_drop]; omega) _ _ _ rfl]
      by_cases hl : 1198 < payload.length
      · have hne : fuaChunks (payload.drop 1198) ≠ [] :=
          fuaChunks_ne_nil _ (by rw [List.length_drop]; omega)
        obtain ⟨c, cs, hcs⟩ := List.exists_cons_of_ne_nil hne
        have hd : decide (payload.length ≤ 1198) = false := by
          simp; omega
        rw [fuaChunks_long _ hl, hcs, hd]
        simp [fuPackets, withMarker, VideoRTPSender.sealAll]
      · have hd : decide (payload.length ≤ 1198) = true := by
          simp; omega
        rw [fuaChunks_short _ h0 (by omega), hd, List.drop_eq_nil_of_le (by omega),
          List.take_of_length_le (by omega), fuaChunks_nil]
        simp [fuPackets, withMarker, VideoRTPSender.sealAll]
    · have : payload = [] := by
        cases payload with
        | nil => rfl
        | cons a b => simp at h0
      subst this
      rw [VideoRTPSender.SendFUA_loop]
      simp [fuaChunks_nil, fuPackets, withMarker, VideoRTPSender.sealAll]

/-- The RTP payload of a datagram as the receiving side recovers it: the `payload` output of
`VideoRTPReceiver::DecryptPacket` under the given key. -/
def rtpPayload (A : AEAD) (key : Bytes) (d : Bytes) : Option Bytes :=
  (VideoRTPReceiver.DecryptPacket A { VideoRTPReceiver.fresh with m_secretKey := key } d).map
    Opened.payload

/-- The RTP payloads of a list of datagrams, provided every one of them opens. -/
def rtpPayloads (A : AEAD) (key : Bytes) : List Bytes → Option (List Bytes)
  | [] => some []
  | d :: ds =>
    match rtpPayload A key d, rtpPayloads A key ds with
    | some p, some ps => some (p :: ps)
    | _, _ => none

theorem rtpPayload_sealedPacket (A : AEAD) (key : Bytes) (pt : Nat) (marker : Bool)
    (seq ts ssrc n : Nat) (payload : Bytes) (hn : n < 2 ^ 32) :
    rtpPayload A key (sealedPacket A key pt marker seq ts ssrc n payload) = some payload := by
  unfold rtpPayload
  rw [VideoRTPReceiver.DecryptPacket_sealedPacket_raw A
    { VideoRTPReceiver.fresh with m_secretKey := key } pt marker seq ts ssrc n payload hn]
  rfl

theorem rtpPayload_SendRTPPacket (A : AEAD) (s : VideoRTPSender) (payload : Bytes)
    (ts : Nat) (marker : Bool) :
    rtpPayload A s.m_secretKey (VideoRTPSender.SendRTPPacket A s payload ts marker).2
      = some payload := by
  rw [VideoRTPSender.SendRTPPacket_eq]
  exact rtpPayload_sealedPacket _ _ _ _ _ _ _ _ _ (Nat.mod_lt _ (by norm_num))

theorem SendRTPPacket_key (A : AEAD) (s : VideoRTPSender) (payload : Bytes)
    (ts : Nat) (marker : Bool) :
    (VideoRTPSender.SendRTPPacket A s payload ts marker).1.m_secretKey = s.m_secretKey := by
  rw [VideoRTPSender.SendRTPPacket_eq]

theorem sealAll_length (A : AEAD) (ts : Nat) (s : VideoRTPSender) (plan : List (Bytes × Bool)) :
    (VideoRTPSender.sealAll A ts s plan).2.length = plan.length := by
  induction plan generalizing s with
  | nil => rfl
  | cons p ps ih => simp [VideoRTPSender.sealAll, ih]

theorem sealAll_append (A : AEAD) (ts : Nat) (s : VideoRTPSender)
    (p q : List (Bytes × Bool)) :
    VideoRTPSender.sealAll A ts s (p ++ q)
      = ((VideoRTPSender.sealAll A ts (VideoRTPSender.sealAll A ts s p).1 q).1,
         (VideoRTPSender.sealAll A ts s p).2
           ++ (VideoRTPSender.sealAll A ts (VideoRTPSender.sealAll A ts s p).1 q).2) := by
  induction p generalizing s with
  | nil => simp [VideoRTPSender.sealAll]
  | cons x xs ih => simp [VideoRTPSender.sealAll, ih]

theorem rtpPayloads_sealAll (A : AEAD) (ts : Nat) (s : VideoRTPSender)
    (plan : List (Bytes × Bool)) :
    rtpPayloads A s.m_secretKey (VideoRTPSender.sealAll A ts s plan).2
      = some (plan.map Prod.fst) := by
  induction plan generalizing s with
  | nil => rfl
  | cons p ps ih =>
    have h := ih (VideoRTPSender.SendRTPPacket A s p.1 ts p.2).1
    rw [SendRTPPacket_key] at h
    simp only [VideoRTPSender.sealAll, rtpPayloads, rtpPayload_SendRTPPacket, h, List.map_cons]

theorem withMarker_map_fst (ps : List Bytes) (m : Bool) :
    (withMarker ps m).map Prod.fst = ps := by
  induction ps with
  | nil => rfl
  | cons p rest ih => simp [withMarker, ih]

theorem withMarker_length (ps : List Bytes) (m : Bool) : (withMarker ps m).length = ps.length := by
  induction ps with
  | nil => rfl
  | cons p rest ih => simp [withMarker, ih]

/-- The RTP payloads that `VideoRTPSender::SendNALUnit` chooses for one NAL unit. -/
def nalPayloads (nal : Bytes) : List Bytes :=
  if nal.length = 0 then []
  else if nal.length ≤ 1200 then [nal]
  else fuPackets ((nal.getD 0 0 &&& 0x60) ||| 28) (nal.getD 0 0 &&& 0x1F) true
    (fuaChunks (nal.drop 1))

/-- Normal form of `VideoRTPSender::SendFUA`. -/
theorem VideoRTPSender.SendFUA_eq (A : AEAD) (s : VideoRTPSender) (nal : Bytes) (ts : Nat)
    (lastNAL : Bool) (h : 2 ≤ nal.length) :
    VideoRTPSender.SendFUA A s nal ts lastNAL
      = VideoRTPSender.sealAll A ts s
          (withMarker (fuPackets ((nal.getD 0 0 &&& 0x60) ||| 28) (nal.getD 0 0 &&& 0x1F) true
            (fuaChunks (nal.drop 1))) lastNAL) := by
  unfold VideoRTPSender.SendFUA
  rw [if_neg (by omega)]
  simp only [VideoRTPSender.SendFUA_loop_eq]

/-- Normal form of `VideoRTPSender::SendNALUnit`. -/
theorem VideoRTPSender.SendNALUnit_eq (A : AEAD) (s : VideoRTPSender) (nal : Bytes) (ts : Nat)
    (lastNAL : Bool) :
    VideoRTPSender.SendNALUnit A s nal ts lastNAL
      = VideoRTPSender.sealAll A ts s (withMarker (nalPayloads nal) lastNAL) := by
  unfold VideoRTPSender.SendNALUnit nalPayloads
  by_cases h0 : nal.length = 0
  · simp [h0, withMarker, VideoRTPSender.sealAll]
  · by_cases h1 : nal.length ≤ 1200
    · simp [h0, h1, VideoRTPSender.MAX_RTP_PAYLOAD, withMarker, VideoRTPSender.sealAll]
    · rw [if_neg h0, if_neg (by simpa [VideoRTPSender.MAX_RTP_PAYLOAD] using h1),
        if_neg h0, if_neg h1, VideoRTPSender.SendFUA_eq A s nal ts lastNAL (by omega)]

/-! ## Shape of the FU-A payloads -/

theorem fuaChunks_flatten (payload : Bytes) : (fuaChunks payload).flatten = payload := by
  generalize hk : payload.length = k
  induction k using Nat.strong_induction_on generalizing payload with
  | _ k ih =>
    by_cases h0 : 0 < payload.length
    · by_cases hl : 1198 < payload.length
      · rw [fuaChunks_long _ hl, List.flatten_cons,
          ih (payload.drop 1198).length (by rw [List.length_drop]; omega) _ rfl,
          List.take_append_drop]
      · rw [fuaChunks_short _ h0 (by omega)]; simp
    · have : payload = [] := by
        cases payload with
        | nil => rfl
        | cons a b => simp at h0
      subst this
      simp [fuaChunks_nil]

theorem fuPackets_length (ind ty : Nat) (b : Bool) (frags : List Bytes) :
    (fuPackets ind ty b frags).length = frags.length := by
  induction frags generalizing b with
  | nil => rfl
  | cons f rest ih => simp [fuPackets, ih]

theorem fuPackets_drop_two (ind ty : Nat) (b : Bool) (frags : List Bytes) :
    (fuPackets ind ty b frags).map (List.drop 2) = frags := by
  induction frags generalizing b with
  | nil => rfl
  | cons f rest ih => simp [fuPackets, ih]

theorem fuPackets_getD (ind ty : Nat) (b : Bool) (frags : List Bytes) (i : Nat)
    (hi : i < frags.length) :
    (fuPackets ind ty b frags).getD i []
      = [ind, fuHeaderByte ty (b && decide (i = 0)) (decide (i + 1 = frags.length))]
          ++ frags.getD i [] := by
  induction frags generalizing b i with
  | nil => simp at hi
  | cons f rest ih =>
    cases i with
    | zero =>
      cases rest <;> simp [fuPackets]
    | succ j =>
      simp only [List.length_cons] at hi
      simp only [fuPackets, List.getD_cons_succ, List.length_cons]
      rw [ih false j (by omega)]
      simp

theorem fuHeaderByte_eq (ty : Nat) (f l : Bool) :
    fuHeaderByte ty f l = ty ||| (if f then 0x80 else 0) ||| (if l then 0x40 else 0) := by
  cases f <;> cases l <;> simp [fuHeaderByte]

/-- Chunks of a payload longer than 1198 bytes: at least two. -/
theorem fuaChunks_two_le (payload : Bytes) (h : 1198 < payload.length) :
    2 ≤ (fuaChunks payload).length := by
  rw [fuaChunks_long _ h]
  have hne : fuaChunks (payload.drop 1198) ≠ [] :=
    fuaChunks_ne_nil _ (by rw [List.length_drop]; omega)
  obtain ⟨c, cs, hcs⟩ := List.exists_cons_of_ne_nil hne
  rw [hcs]; simp

theorem fuPackets_first_byte (ind ty : Nat) (b : Bool) (frags : List Bytes) :
    ∀ p ∈ fuPackets ind ty b frags, p.getD 0 0 = ind := by
  induction frags generalizing b with
  | nil => intro p hp; simp [fuPackets] at hp
  | cons f rest ih =>
    intro p hp
    simp only [fuPackets, List.mem_cons] at hp
    rcases hp with hp | hp
    · subst hp; rfl
    · exact ih false p hp

theorem and_mod_256 (h c : Nat) (hc : c < 256) : h &&& c = (h % 256) &&& c := by
  have h1 : 255 &&& c = c := by
    rw [Nat.and_comm, and_255, Nat.mod_eq_of_lt hc]
  rw [← and_255, Nat.and_assoc, h1]

set_option maxRecDepth 100000 in
theorem fu_reconstruct_byte : ∀ h < 256, ∀ e : Bool,
    ((((h &&& 0x60) ||| 28) &&& 0xE0) ||| ((fuHeaderByte (h &&& 0x1F) true e) &&& 0x1F))
      = h &&& 0x7F := by decide

set_option maxRecDepth 100000 in
theorem fu_header_bits : ∀ t < 32, ∀ s e : Bool,
    ((fuHeaderByte t s e) &&& 0x80 ≠ 0 ↔ s = true) ∧
    ((fuHeaderByte t s e) &&& 0x40 ≠ 0 ↔ e = true) ∧
    (fuHeaderByte t s e) &&& 0x1F = t := by decide

set_option maxRecDepth 100000 in
theorem nri_eq_of_lt : ∀ h < 128, h &&& 0x60 = h &&& 0xE0 := by decide

set_option maxRecDepth 100000 in
theorem fu_indicator_type : ∀ h < 256, ((h &&& 0xE0) ||| 28) &&& 0x1F = 28 := by decide

/-- The RTP payloads of the packets of `VideoRTPSender::SendFUA`. -/
theorem SendFUA_payloads (A : AEAD) (s : VideoRTPSender) (nal : Bytes) (ts : Nat)
    (lastNAL : Bool) (h : 2 ≤ nal.length) :
    rtpPayloads A s.m_secretKey (VideoRTPSender.SendFUA A s nal ts lastNAL).2
      = some (fuPackets ((nal.getD 0 0 &&& 0x60) ||| 28) (nal.getD 0 0 &&& 0x1F) true
          (fuaChunks (nal.drop 1))) := by
  rw [VideoRTPSender.SendFUA_eq A s nal ts lastNAL h, rtpPayloads_sealAll, withMarker_map_fst]

/-- Reassembling the FU-A payloads of a NAL unit the way the receiver does gives the unit
with bit 0x80 of its first byte cleared. -/
theorem fua_reconstruct (nal : Bytes) (h : 2 ≤ nal.length) :
    ∃ first rest,
      fuPackets ((nal.getD 0 0 &&& 0x60) ||| 28) (nal.getD 0 0 &&& 0x1F) true
          (fuaChunks (nal.drop 1)) = first :: rest ∧
      ((first.getD 0 0 &&& 0xE0) ||| (first.getD 1 0 &&& 0x1F))
          :: ((first :: rest).map (List.drop 2)).flatten
        = (nal.getD 0 0 &&& 0x7F) :: nal.drop 1 := by
  have hne : fuaChunks (nal.drop 1) ≠ [] :=
    fuaChunks_ne_nil _ (by rw [List.length_drop]; omega)
  obtain ⟨c, cs, hcs⟩ := List.exists_cons_of_ne_nil hne
  refine ⟨_, _, by rw [hcs]; rfl, ?_⟩
  have hfl : ((([(nal.getD 0 0 &&& 0x60) ||| 28,
        fuHeaderByte (nal.getD 0 0 &&& 0x1F) true cs.isEmpty] ++ c)
      :: fuPackets ((nal.getD 0 0 &&& 0x60) ||| 28) (nal.getD 0 0 &&& 0x1F) false cs).map
        (List.drop 2)).flatten = nal.drop 1 := by
    have := fuPackets_drop_two ((nal.getD 0 0 &&& 0x60) ||| 28) (nal.getD 0 0 &&& 0x1F) true
      (c :: cs)
    rw [fuPackets] at this
    rw [this, ← hcs, fuaChunks_flatten]
  rw [hfl]
  congr 1
  simp only [List.cons_append, List.nil_append, List.getD_cons_zero, List.getD_cons_succ]
  rw [and_mod_256 _ 0x60 (by norm_num), and_mod_256 (nal.getD 0 0) 0x1F (by norm_num),
    and_mod_256 (nal.getD 0 0) 0x7F (by norm_num)]
  exact fu_reconstruct_byte _ (Nat.mod_lt _ (by norm_num)) _

/-! ## Claims C4, C9, C10 -/

/-- C4 as stated fails: for the 1201-byte NAL unit `85 00 ... 00` the byte reconstructed
from the first FU-A packet is `05`, so the reassembled bytes differ from the unit. -/
theorem C4_counterexample :
    ∃ first rest,
      rtpPayloads toyAEAD (List.replicate 32 1)
        (VideoRTPSender.SendFUA toyAEAD
          (VideoRTPSender.Init VideoRTPSender.fresh true 8 (List.replicate 32 1))
          (0x85 :: List.replicate 1200 0) 0 true).2 = some (first :: rest) ∧
      ((first.getD 0 0 &&& 0xE0) ||| (first.getD 1 0 &&& 0x1F))
          :: ((first :: rest).map (List.drop 2)).flatten
        ≠ 0x85 :: List.replicate 1200 0 := by
  generalize hn : List.replicate 1200 (0 : Nat) = body
  have hb : body.length = 1200 := by rw [← hn, List.length_replicate]
  have hlen : 2 ≤ (0x85 :: body).length := by rw [List.length_cons]; omega
  obtain ⟨first, rest, h1, h2⟩ := fua_reconstruct (0x85 :: body) hlen
  refine ⟨first, rest, ?_, ?_⟩
  · rw [← h1]
    exact SendFUA_payloads toyAEAD
      (VideoRTPSender.Init VideoRTPSender.fresh true 8 (List.replicate 32 1)) _ 0 true hlen
  · rw [h2]
    intro hc
    have h3 := (List.cons.inj hc).1
    rw [List.getD_cons_zero] at h3
    revert h3
    decide

/-- C4, amended. FU-A decomposition round trip: for every NAL unit longer than 1200 bytes,
taking the FU-A packets of `VideoRTPSender::SendFUA` in emission order, the byte
`(indicator & 0xE0) | (fu_header & 0x1F)` of the first packet followed by the bytes after
the 2-byte FU prefix of every packet is the NAL unit with the forbidden_zero_bit (0x80) of
its header byte cleared; it is the NAL unit itself when that bit is clear. -/
theorem C4_fua_roundtrip (A : AEAD) (s : VideoRTPSender) (nal : Bytes) (ts : Nat)
    (lastNAL : Bool) (h : 1200 < nal.length) :
    ∃ first rest,
      rtpPayloads A s.m_secretKey (VideoRTPSender.SendFUA A s nal ts lastNAL).2
        = some (first :: rest) ∧
      ((first.getD 0 0 &&& 0xE0) ||| (first.getD 1 0 &&& 0x1F))
          :: ((first :: rest).map (List.drop 2)).flatten
        = (nal.getD 0 0 &&& 0x7F) :: nal.drop 1 ∧
      (nal.getD 0 0 < 128 →
        ((first.getD 0 0 &&& 0xE0) ||| (first.getD 1 0 &&& 0x1F))
          :: ((first :: rest).map (List.drop 2)).flatten = nal) := by
  obtain ⟨first, rest, h1, h2⟩ := fua_reconstruct nal (by omega)
  refine ⟨first, rest, ?_, h2, ?_⟩
  · rw [← h1]
    exact SendFUA_payloads A s nal ts lastNAL (by omega)
  · intro hb
    rw [h2, and_127, Nat.mod_eq_of_lt hb]
    cases nal with
    | nil => simp at h
    | cons a t => simp

/-- C4 (amended) at the 3001-byte NAL unit `65 00 ... 00`. -/
theorem C4_fua_roundtrip_witness :
    ∃ first rest,
      rtpPayloads toyAEAD VideoRTPSender.fresh.m_secretKey
        (VideoRTPSender.SendFUA toyAEAD VideoRTPSender.fresh (0x65 :: List.replicate 3000 0)
          90000 true).2 = some (first :: rest) ∧
      ((first.getD 0 0 &&& 0xE0) ||| (first.getD 1 0 &&& 0x1F))
          :: ((first :: rest).map (List.drop 2)).flatten
        = ((0x65 :: List.replicate 3000 0).getD 0 0 &&& 0x7F)
            :: (0x65 :: List.replicate 3000 0).drop 1 ∧
      ((0x65 :: List.replicate 3000 0).getD 0 0 < 128 →
        ((first.getD 0 0 &&& 0xE0) ||| (first.getD 1 0 &&& 0x1F))
          :: ((first :: rest).map (List.drop 2)).flatten = 0x65 :: List.replicate 3000 0) :=
  C4_fua_roundtrip toyAEAD VideoRTPSender.fresh (0x65 :: List.replicate 3000 0) 90000 true
    (by rw [List.length_cons, List.length_replicate]; omega)

/-- C9 as stated fails: for the 1201-byte NAL unit `E5 00 ... 00` every FU-A packet starts
with the byte `7C = (E5 & 60) | 1C`, not with `FC = (E5 & E0) | 1C`. -/
theorem C9_counterexample :
    ∃ ps,
      rtpPayloads toyAEAD (List.replicate 32 1)
        (VideoRTPSender.SendFUA toyAEAD
          (VideoRTPSender.Init VideoRTPSender.fresh true 8 (List.replicate 32 1))
          (0xE5 :: List.replicate 1200 0) 0 true).2 = some ps ∧
      ps ≠ [] ∧ ∀ p ∈ ps, p.getD 0 0 = 0x7C ∧ p.getD 0 0 ≠ (0xE5 &&& 0xE0) ||| 28 := by
  generalize hn : List.replicate 1200 (0 : Nat) = body
  have hb : body.length = 1200 := by rw [← hn, List.length_replicate]
  have hlen : 2 ≤ (0xE5 :: body).length := by rw [List.length_cons]; omega
  refine ⟨_, SendFUA_payloads toyAEAD
      (VideoRTPSender.Init VideoRTPSender.fresh true 8 (List.replicate 32 1)) _ 0 true hlen,
    ?_, ?_⟩
  · intro hc
    have h1 := congrArg List.length hc
    rw [fuPackets_length, List.length_nil] at h1
    have h2 := fuaChunks_ne_nil ((0xE5 :: body).drop 1)
      (by rw [List.length_drop, List.length_cons]; omega)
    exact h2 (List.length_eq_zero.mp h1)
  · intro p hp
    have h1 := fuPackets_first_byte _ _ _ _ p hp
    rw [List.getD_cons_zero] at h1
    rw [h1]
    decide

/-- C9, amended. FU-A prefix bytes: for every NAL unit longer than 1200 bytes,
`VideoRTPSender::SendFUA` emits at least two packets; every one has first byte
`(NAL[0] & 0x60) | 28`, which is `(NAL[0] & 0xE0) | 28` when the forbidden_zero_bit of
`NAL[0]` is clear, and second byte `NAL[0] & 0x1F` with bit 0x80 set exactly on the first
fragment and bit 0x40 set exactly on the last fragment. -/
theorem C9_fua_prefix_bytes (A : AEAD) (s : VideoRTPSender) (nal : Bytes) (ts : Nat)
    (lastNAL : Bool) (h : 1200 < nal.length) :
    ∃ ps,
      rtpPayloads A s.m_secretKey (VideoRTPSender.SendFUA A s nal ts lastNAL).2 = some ps ∧
      2 ≤ ps.length ∧
      ∀ i, i < ps.length →
        (ps.getD i []).getD 0 0 = (nal.getD 0 0 &&& 0x60) ||| 28 ∧
        (nal.getD 0 0 < 128 → (ps.getD i []).getD 0 0 = (nal.getD 0 0 &&& 0xE0) ||| 28) ∧
        (ps.getD i []).getD 1 0
          = (nal.getD 0 0 &&& 0x1F) ||| (if i = 0 then 0x80 else 0)
              ||| (if i + 1 = ps.length then 0x40 else 0) ∧
        ((ps.getD i []).getD 1 0 &&& 0x1F = nal.getD 0 0 &&& 0x1F) ∧
        ((ps.getD i []).getD 1 0 &&& 0x80 ≠ 0 ↔ i = 0) ∧
        ((ps.getD i []).getD 1 0 &&& 0x40 ≠ 0 ↔ i + 1 = ps.length) := by
  refine ⟨_, SendFUA_payloads A s nal ts lastNAL (by omega), ?_, ?_⟩
  · rw [fuPackets_length]
    exact fuaChunks_two_le _ (by rw [List.length_drop]; omega)
  · intro i hi
    rw [fuPackets_length] at hi ⊢
    rw [fuPackets_getD _ _ _ _ i hi]
    simp only [List.cons_append, List.nil_append, List.getD_cons_zero, List.getD_cons_succ,
      Bool.true_and]
    have hty : nal.getD 0 0 &&& 0x1F < 32 := by
      rw [and_31]; exact Nat.mod_lt _ (by norm_num)
    obtain ⟨b1, b2, b3⟩ := fu_header_bits _ hty (decide (i = 0))
      (decide (i + 1 = (fuaChunks (nal.drop 1)).length))
    refine ⟨trivial, ?_, ?_, b3, ?_, ?_⟩
    · intro hb
      rw [nri_eq_of_lt _ hb]
    · rw [fuHeaderByte_eq]
      simp
    · rw [b1]; simp
    · rw [b2]; simp

/-- C9 (amended) at the 3001-byte NAL unit `65 00 ... 00`. -/
theorem C9_fua_prefix_bytes_witness :
    ∃ ps,
      rtpPayloads toyAEAD VideoRTPSender.fresh.m_secretKey
        (VideoRTPSender.SendFUA toyAEAD VideoRTPSender.fresh (0x65 :: List.replicate 3000 0)
          90000 true).2 = some ps ∧
      2 ≤ ps.length ∧
      ∀ i, i < ps.length →
        (ps.getD i []).getD 0 0 = ((0x65 :: List.replicate 3000 0).getD 0 0 &&& 0x60) ||| 28 ∧
        ((0x65 :: List.replicate 3000 0).getD 0 0 < 128 →
          (ps.getD i []).getD 0 0
            = ((0x65 :: List.replicate 3000 0).getD 0 0 &&& 0xE0) ||| 28) ∧
        (ps.getD i []).getD 1 0
          = ((0x65 :: List.replicate 3000 0).getD 0 0 &&& 0x1F) ||| (if i = 0 then 0x80 else 0)
              ||| (if i + 1 = ps.length then 0x40 else 0) ∧
        ((ps.getD i []).getD 1 0 &&& 0x1F
          = (0x65 :: List.replicate 3000 0).getD 0 0 &&& 0x1F) ∧
        ((ps.getD i []).getD 1 0 &&& 0x80 ≠ 0 ↔ i = 0) ∧
        ((ps.getD i []).getD 1 0 &&& 0x40 ≠ 0 ↔ i + 1 = ps.length) :=
  C9_fua_prefix_bytes toyAEAD VideoRTPSender.fresh (0x65 :: List.replicate 3000 0) 90000 true
    (by rw [List.length_cons, List.length_replicate]; omega)

/-- C10. Fragmentation threshold: for every NAL unit (a byte string with at least its
header byte), `VideoRTPSender::SendNALUnit` emits exactly one RTP packet whose payload is
the NAL unit itself if and only if its length is at most 1200; a unit of length 1200 is
sent as a single packet, and a unit of length 1201 as exactly two FU-A packets, the first
carrying 1198 bytes after its header with the start bit, the second the remaining 2 bytes
with the end bit. -/
theorem C10_fragmentation_threshold (A : AEAD) (s : VideoRTPSender) (nal : Bytes) (ts : Nat)
    (lastNAL : Bool) (h0 : 0 < nal.length) :
    ((∃ d, (VideoRTPSender.SendNALUnit A s nal ts lastNAL).2 = [d] ∧
        rtpPayload A s.m_secretKey d = some nal) ↔ nal.length ≤ 1200) ∧
    (nal.length = 1200 →
      ∃ d, (VideoRTPSender.SendNALUnit A s nal ts lastNAL).2 = [d] ∧
        rtpPayload A s.m_secretKey d = some nal) ∧
    (nal.length = 1201 →
      ∃ d1 d2, (VideoRTPSender.SendNALUnit A s nal ts lastNAL).2 = [d1, d2] ∧
        rtpPayloads A s.m_secretKey [d1, d2]
          = some [[(nal.getD 0 0 &&& 0x60) ||| 28, (nal.getD 0 0 &&& 0x1F) ||| 0x80]
                    ++ (nal.drop 1).take 1198,
                  [(nal.getD 0 0 &&& 0x60) ||| 28, (nal.getD 0 0 &&& 0x1F) ||| 0x40]
                    ++ nal.drop 1199]) := by
  have hsingle : nal.length ≤ 1200 →
      ∃ d, (VideoRTPSender.SendNALUnit A s nal ts lastNAL).2 = [d] ∧
        rtpPayload A s.m_secretKey d = some nal := by
    intro hle
    refine ⟨(VideoRTPSender.SendRTPPacket A s nal ts lastNAL).2, ?_,
      rtpPayload_SendRTPPacket A s nal ts lastNAL⟩
    rw [VideoRTPSender.SendNALUnit_eq]
    unfold nalPayloads
    rw [if_neg (by omega), if_pos hle]
    simp [withMarker, VideoRTPSender.sealAll]
  refine ⟨⟨?_, hsingle⟩, fun h => hsingle (by omega), ?_⟩
  · rintro ⟨d, hd, _⟩
    by_contra hgt
    have hlen := congrArg List.length hd
    rw [VideoRTPSender.SendNALUnit_eq, sealAll_length, withMarker_length] at hlen
    unfold nalPayloads at hlen
    rw [if_neg (by omega), if_neg hgt, fuPackets_length] at hlen
    have := fuaChunks_two_le (nal.drop 1) (by rw [List.length_drop]; omega)
    simp only [List.length_cons, List.length_nil] at hlen
    omega
  · intro h1201
    have hc1 : fuaChunks (nal.drop 1)
        = [(nal.drop 1).take 1198, nal.drop 1199] := by
      rw [fuaChunks_long _ (by rw [List.length_drop]; omega),
        fuaChunks_short _ (by simp only [List.length_drop]; omega)
          (by simp only [List.length_drop]; omega), List.drop_drop]
    have hp : nalPayloads nal
        = [[(nal.getD 0 0 &&& 0x60) ||| 28, (nal.getD 0 0 &&& 0x1F) ||| 0x80]
              ++ (nal.drop 1).take 1198,
           [(nal.getD 0 0 &&& 0x60) ||| 28, (nal.getD 0 0 &&& 0x1F) ||| 0x40]
              ++ nal.drop 1199] := by
      unfold nalPayloads
      rw [if_neg (by omega), if_neg (by omega), hc1]
      simp [fuPackets, fuHeaderByte]
    have hout := VideoRTPSender.SendNALUnit_eq A s nal ts lastNAL
    have hpl := rtpPayloads_sealAll A ts s (withMarker (nalPayloads nal) lastNAL)
    rw [← hout, withMarker_map_fst, hp] at hpl
    have hl : (VideoRTPSender.SendNALUnit A s nal ts lastNAL).2.length = 2 := by
      rw [hout, sealAll_length, withMarker_length, hp]; rfl
    match hm : (VideoRTPSender.SendNALUnit A s nal ts lastNAL).2, hl with
    | [d1, d2], _ =>
      refine ⟨d1, d2, rfl, ?_⟩
      rw [hm] at hpl
      exact hpl

/-- C10 at a NAL unit of exactly 1201 bytes. -/
theorem C10_fragmentation_threshold_witness :
    ((∃ d, (VideoRTPSender.SendNALUnit toyAEAD VideoRTPSender.fresh
          (0x65 :: List.replicate 1200 7) 90000 true).2 = [d] ∧
        rtpPayload toyAEAD VideoRTPSender.fresh.m_secretKey d
          = some (0x65 :: List.replicate 1200 7))
      ↔ (0x65 :: List.replicate 1200 7).length ≤ 1200) :=
  (C10_fragmentation_threshold toyAEAD VideoRTPSender.fresh (0x65 :: List.replicate 1200 7)
    90000 true (by rw [List.length_cons]; omega)).1

/-! ## The receiver on opened packets -/

/-- What `VideoRTPReceiver::Feed` does with a packet once it is opened and has passed the
SSRC filter: flush on timestamp change, record the timestamp, process the payload, flush on
the marker bit. -/
def VideoRTPReceiver.accept (r : VideoRTPReceiver) (payload : Bytes) (seq ts : Nat)
    (marker : Bool) : VideoRTPReceiver :=
  let r := if r.m_hasTimestamp ∧ ts ≠ r.m_currentTimestamp then
      VideoRTPReceiver.FlushFrame r r.m_currentTimestamp
    else r
  let r := { r with m_currentTimestamp := ts, m_hasTimestamp := true }
  let r := VideoRTPReceiver.ProcessPayload r payload seq ts
  if marker then VideoRTPReceiver.FlushFrame r ts else r

set_option maxRecDepth 100000 in
theorem marker_bit : ∀ pt < 128, ∀ m : Bool,
    (((if m then pt ||| 0x80 else pt) &&& 0x80) != 0) = m := by decide

theorem sealedPacket_getD_one (A : AEAD) (key : Bytes) (pt : Nat) (m : Bool)
    (seq ts ssrc n : Nat) (payload : Bytes) :
    (sealedPacket A key pt m seq ts ssrc n payload).getD 1 0
      = if m then pt ||| 0x80 else pt := by
  simp [sealedPacket, rtpHeader]

/-- `VideoRTPReceiver::Feed` on a datagram of the specified wire format, sealed under the
receiver's key and carrying the receiver's video SSRC. -/
theorem VideoRTPReceiver.Feed_sealedPacket (A : AEAD) (r : VideoRTPReceiver)
    (pt : Nat) (marker : Bool) (seq ts n : Nat) (payload : Bytes)
    (hpt : pt < 128) (hn : n < 2 ^ 32) (hts : ts < 2 ^ 32) (hssrc : r.m_videoSSRC < 2 ^ 32) :
    VideoRTPReceiver.Feed A r
        (sealedPacket A r.m_secretKey pt marker seq ts r.m_videoSSRC n payload)
      = VideoRTPReceiver.accept r payload (seq % 2 ^ 16) ts marker := by
  unfold VideoRTPReceiver.Feed
  rw [if_neg (by rw [sealedPacket_length]; omega),
    VideoRTPReceiver.DecryptPacket_sealedPacket A r pt marker seq ts r.m_videoSSRC n payload
      hpt hn]
  simp only [Nat.mod_eq_of_lt hts, Nat.mod_eq_of_lt hssrc, ne_eq, not_true_eq_false, if_false,
    sealedPacket_getD_one, marker_bit pt hpt marker]
  rfl

/-- `ProcessPayload` applied to a list of payloads in order. -/
def VideoRTPReceiver.processAll (r : VideoRTPReceiver) (ps : List Bytes) : VideoRTPReceiver :=
  ps.foldl (fun r p => VideoRTPReceiver.ProcessPayload r p 0 0) r

/-- An access unit in Annex-B form with 4-byte start codes. -/
def annexB (nals : List Bytes) : Bytes := nals.flatMap (fun n => [0x00, 0x00, 0x00, 0x01] ++ n)

/-- The body of a STAP-A payload: each NAL unit behind its 16-bit big-endian size. -/
def stapBody (nals : List Bytes) : Bytes := nals.flatMap (fun n => be16 n.length ++ n)

theorem ProcessPayload_irrel (r : VideoRTPReceiver) (p : Bytes) (a b : Nat) :
    VideoRTPReceiver.ProcessPayload r p a b = VideoRTPReceiver.ProcessPayload r p 0 0 := rfl

theorem ProcessPayload_frame (r : VideoRTPReceiver) (p : Bytes) (a b : Nat) :
    (VideoRTPReceiver.ProcessPayload r p a b).m_videoSSRC = r.m_videoSSRC ∧
    (VideoRTPReceiver.ProcessPayload r p a b).m_secretKey = r.m_secretKey ∧
    (VideoRTPReceiver.ProcessPayload r p a b).m_currentTimestamp = r.m_currentTimestamp ∧
    (VideoRTPReceiver.ProcessPayload r p a b).m_hasTimestamp = r.m_hasTimestamp ∧
    (VideoRTPReceiver.ProcessPayload r p a b).m_frameCallback = r.m_frameCallback ∧
    (VideoRTPReceiver.ProcessPayload r p a b).delivered = r.delivered := by
  unfold VideoRTPReceiver.ProcessPayload
  simp only
  split_ifs <;> simp

theorem processAll_frame (r : VideoRTPReceiver) (ps : List Bytes) :
    (VideoRTPReceiver.processAll r ps).m_videoSSRC = r.m_videoSSRC ∧
    (VideoRTPReceiver.processAll r ps).m_secretKey = r.m_secretKey ∧
    (VideoRTPReceiver.processAll r ps).m_currentTimestamp = r.m_currentTimestamp ∧
    (VideoRTPReceiver.processAll r ps).m_hasTimestamp = r.m_hasTimestamp ∧
    (VideoRTPReceiver.processAll r ps).m_frameCallback = r.m_frameCallback ∧
    (VideoRTPReceiver.processAll r ps).delivered = r.delivered := by
  induction ps generalizing r with
  | nil => simp [VideoRTPReceiver.processAll]
  | cons p ps ih =>
    have h1 := ProcessPayload_frame r p 0 0
    have h2 := ih (VideoRTPReceiver.ProcessPayload r p 0 0)
    simp only [VideoRTPReceiver.processAll, List.foldl_cons] at h2 ⊢
    obtain ⟨a1, a2, a3, a4, a5, a6⟩ := h1
    obtain ⟨b1, b2, b3, b4, b5, b6⟩ := h2
    exact ⟨b1.trans a1, b2.trans a2, b3.trans a3, b4.trans a4, b5.trans a5, b6.trans a6⟩

theorem processAll_nil (r : VideoRTPReceiver) : VideoRTPReceiver.processAll r [] = r := rfl

theorem processAll_cons (r : VideoRTPReceiver) (p : Bytes) (ps : List Bytes) :
    VideoRTPReceiver.processAll r (p :: ps)
      = VideoRTPReceiver.processAll (VideoRTPReceiver.ProcessPayload r p 0 0) ps := rfl

theorem processAll_append (r : VideoRTPReceiver) (ps qs : List Bytes) :
    VideoRTPReceiver.processAll r (ps ++ qs)
      = VideoRTPReceiver.processAll (VideoRTPReceiver.processAll r ps) qs := by
  simp [VideoRTPReceiver.processAll, List.foldl_append]

/-- A single-NAL payload is appended behind a start code. -/
theorem ProcessPayload_single (r : VideoRTPReceiver) (nal : Bytes) (a b : Nat)
    (h0 : nal ≠ []) (h1 : 1 ≤ nal.getD 0 0 &&& 0x1F) (h2 : nal.getD 0 0 &&& 0x1F ≤ 23) :
    (VideoRTPReceiver.ProcessPayload r nal a b).m_frameBuffer
      = r.m_frameBuffer ++ [0x00, 0x00, 0x00, 0x01] ++ nal := by
  unfold VideoRTPReceiver.ProcessPayload
  have hl : ¬ nal.length = 0 := by
    intro h; exact h0 (List.length_eq_zero.mp h)
  simp only [hl, if_false]
  rw [if_pos ⟨h1, h2⟩]

/-- The fields of the receiver after an FU-A payload `indicator, header, fragment`. -/
theorem ProcessPayload_fu (r : VideoRTPReceiver) (ind hdr : Nat) (f : Bytes) (a b : Nat)
    (hind : ind &&& 0x1F = 28) (s e : Bool)
    (hs : ((hdr &&& 0x80) != 0) = s) (he : ((hdr &&& 0x40) != 0) = e) :
    (VideoRTPReceiver.ProcessPayload r ([ind, hdr] ++ f) a b).m_fuaInProgress
      = ((s || r.m_fuaInProgress) && !e) ∧
    (VideoRTPReceiver.ProcessPayload r ([ind, hdr] ++ f) a b).m_fuaBuffer
      = (if (s || r.m_fuaInProgress) = true then
          (if e = true then []
           else (if s = true then [(ind &&& 0xE0) ||| (hdr &&& 0x1F)] else r.m_fuaBuffer) ++ f)
         else r.m_fuaBuffer) ∧
    (VideoRTPReceiver.ProcessPayload r ([ind, hdr] ++ f) a b).m_frameBuffer
      = (if ((s || r.m_fuaInProgress) && e) = true then
          r.m_frameBuffer ++ [0x00, 0x00, 0x00, 0x01]
            ++ ((if s = true then [(ind &&& 0xE0) ||| (hdr &&& 0x1F)] else r.m_fuaBuffer) ++ f)
         else r.m_frameBuffer) := by
  unfold VideoRTPReceiver.ProcessPayload
  simp only [List.cons_append, List.nil_append, List.length_cons, List.getD_cons_zero,
    List.getD_cons_succ, hind, hs, he]
  have hlen : ¬ (f.length + 1 + 1 < 2) := by omega
  cases s <;> cases e <;> cases hp : r.m_fuaInProgress <;> simp [hp, hlen]

theorem be16_length_decode (k : Nat) (hk : k < 65536) :
    ((((k >>> 8) &&& 0xFF) <<< 8) ||| (k &&& 0xFF)) % 2 ^ 16 = k := by
  rw [be16_decode]; exact Nat.mod_eq_of_lt hk

/-- The STAP-A loop, entered at the boundary of an aggregation unit, appends every remaining
NAL unit behind a start code. -/
theorem stapLoop_stapBody (nals : List Bytes) (pre fb : Bytes)
    (hsz : ∀ n ∈ nals, n.length < 65536) :
    VideoRTPReceiver.stapLoop (pre ++ stapBody nals) pre.length fb = fb ++ annexB nals := by
  induction nals generalizing pre fb with
  | nil =>
    rw [VideoRTPReceiver.stapLoop]
    simp [stapBody, annexB]
  | cons n ns ih =>
    have hn : n.length < 65536 := hsz n (List.mem_cons_self _ _)
    have hbody : stapBody (n :: ns) = be16 n.length ++ n ++ stapBody ns := by
      simp [stapBody]
    have hpay : pre ++ stapBody (n :: ns)
        = (pre ++ be16 n.length ++ n) ++ stapBody ns := by
      rw [hbody]; simp
    have hlen : (pre ++ stapBody (n :: ns)).length
        = pre.length + 2 + n.length + (stapBody ns).length := by
      rw [hpay]; simp [be16]; omega
    have hg0 : (pre ++ stapBody (n :: ns)).getD pre.length 0 = (n.length >>> 8) &&& 0xFF := by
      rw [hbody, List.getD_append_right _ _ _ _ (Nat.le_refl _), Nat.sub_self]
      simp [be16]
    have hg1 : (pre ++ stapBody (n :: ns)).getD (pre.length + 1) 0 = n.length &&& 0xFF := by
      rw [hbody, List.getD_append_right _ _ _ _ (by omega)]
      have : pre.length + 1 - pre.length = 1 := by omega
      rw [this]; simp [be16]
    have hslice : ((pre ++ stapBody (n :: ns)).drop (pre.length + 2)).take n.length = n := by
      have e : pre ++ stapBody (n :: ns) = (pre ++ be16 n.length) ++ (n ++ stapBody ns) := by
        rw [hbody]; simp
      have l2 : (pre ++ be16 n.length).length = pre.length + 2 := by simp [be16]
      rw [e, ← l2, List.drop_left, List.take_left]
    rw [VideoRTPReceiver.stapLoop]
    simp only [hg0, hg1, be16_length_decode n.length hn, hslice]
    rw [if_pos (by rw [hlen]; omega), if_neg (by rw [hlen]; omega)]
    have hoff : pre.length + 2 + n.length = (pre ++ be16 n.length ++ n).length := by
      simp [be16]; omega
    rw [hoff, hpay, ih (pre ++ be16 n.length ++ n) _
      (fun m hm => hsz m (List.mem_cons_of_mem _ hm))]
    simp [annexB]

/-- A STAP-A payload: its NAL units are appended, each behind a start code. -/
theorem ProcessPayload_stap (r : VideoRTPReceiver) (hdr : Nat) (nals : List Bytes) (a b : Nat)
    (hhdr : hdr &&& 0x1F = 24) (hsz : ∀ n ∈ nals, n.length < 65536) :
    (VideoRTPReceiver.ProcessPayload r (hdr :: stapBody nals) a b).m_frameBuffer
      = r.m_frameBuffer ++ annexB nals := by
  unfold VideoRTPReceiver.ProcessPayload
  simp only [List.length_cons, List.getD_cons_zero, hhdr]
  have := stapLoop_stapBody nals [hdr] r.m_frameBuffer hsz
  simp only [List.singleton_append, List.length_singleton] at this
  simp [this]

set_option maxRecDepth 100000 in
theorem fu_orig_header : ∀ h < 256, ∀ s e : Bool,
    ((((h &&& 0xE0) ||| 28) &&& 0xE0) ||| ((fuHeaderByte (h &&& 0x1F) s e) &&& 0x1F)) = h := by
  decide

/-- The FU-A payloads of the fragments of one NAL unit with header byte `h`, processed in
order: when the run begins with the start bit or inside a fragmented unit, the unit is
appended behind a start code at the end bit. -/
theorem processAll_fuPackets (h : Nat) (hh : h < 256) (frags : List Bytes) (hne : frags ≠ [])
    (b : Bool) (r : VideoRTPReceiver) (hb : b = true ∨ r.m_fuaInProgress = true) :
    (VideoRTPReceiver.processAll r
        (fuPackets ((h &&& 0xE0) ||| 28) (h &&& 0x1F) b frags)).m_frameBuffer
      = r.m_frameBuffer ++ [0x00, 0x00, 0x00, 0x01]
          ++ ((if b = true then [h] else r.m_fuaBuffer) ++ frags.flatten) := by
  induction frags generalizing b r with
  | nil => exact absurd rfl hne
  | cons f rest ih =>
    have hty : h &&& 0x1F < 32 := by
      rw [and_31]; exact Nat.mod_lt _ (by norm_num)
    obtain ⟨b1, b2, _⟩ := fu_header_bits _ hty b rest.isEmpty
    have hs : ((fuHeaderByte (h &&& 0x1F) b rest.isEmpty &&& 0x80) != 0) = b := by
      cases b <;> simp_all
    have he : ((fuHeaderByte (h &&& 0x1F) b rest.isEmpty &&& 0x40) != 0) = rest.isEmpty := by
      cases hr : rest.isEmpty <;> simp_all
    obtain ⟨p1, p2, p3⟩ := ProcessPayload_fu r ((h &&& 0xE0) ||| 28)
      (fuHeaderByte (h &&& 0x1F) b rest.isEmpty) f 0 0 (fu_indicator_type h hh) b rest.isEmpty
      hs he
    rw [fu_orig_header h hh] at p2 p3
    have hin : (b || r.m_fuaInProgress) = true := by
      rcases hb with hb | hb <;> simp [hb]
    rw [fuPackets, processAll_cons]
    cases rest with
    | nil =>
      simp only [List.isEmpty_nil, hin, Bool.true_and, if_true] at p3
      rw [fuPackets, processAll_nil, List.isEmpty_nil, p3]
      simp
    | cons g gs =>
      simp only [List.isEmpty_cons, hin, Bool.and_false, Bool.not_false, Bool.and_true,
        if_true, Bool.false_eq_true, if_false] at p1 p2 p3
      rw [List.isEmpty_cons, ih (by simp) false _ (Or.inr p1), p2, p3]
      simp

/-! ## Valid splits of an access unit (RFC 6184) -/

/-- A NAL unit as the claims take it: non-empty, with a header byte whose type (low five
bits) is in 1..23. -/
def NalOK (nal : Bytes) : Prop :=
  nal ≠ [] ∧ nal.getD 0 0 < 256 ∧ 1 ≤ nal.getD 0 0 &&& 0x1F ∧ nal.getD 0 0 &&& 0x1F ≤ 23

/-- One element of a split of an access unit into RTP payloads: a NAL unit sent whole, a
STAP-A aggregate of several units behind a header byte, or a unit cut into FU-A
fragments. -/
inductive Piece where
  | single (nal : Bytes)
  | stapA (hdr : Nat) (nals : List Bytes)
  | fuA (nal : Bytes) (frags : List Bytes)

/-- The NAL units a piece carries. -/
def Piece.nals : Piece → List Bytes
  | .single nal => [nal]
  | .stapA _ nals => nals
  | .fuA nal _ => [nal]

/-- The RTP payloads of a piece, in order.  An FU-A run carries the F and NRI bits of the
unit in the indicator, its type in the header, the start bit on the first fragment and the
end bit on the last. -/
def Piece.payloads : Piece → List Bytes
  | .single nal => [nal]
  | .stapA hdr nals => [hdr :: stapBody nals]
  | .fuA nal frags =>
    fuPackets ((nal.getD 0 0 &&& 0xE0) ||| 28) (nal.getD 0 0 &&& 0x1F) true frags

/-- Validity of a piece: its units are NAL units; an aggregate has type 24, at least one
unit and 16-bit sizes; the fragments of an FU-A run are, in order, the bytes of the unit
after its header byte, in at least one fragment. -/
def Piece.Valid : Piece → Prop
  | .single nal => NalOK nal
  | .stapA hdr nals => hdr &&& 0x1F = 24 ∧ nals ≠ [] ∧ ∀ n ∈ nals, NalOK n ∧ n.length < 65536
  | .fuA nal frags => NalOK nal ∧ frags ≠ [] ∧ frags.flatten = nal.drop 1

/-- The fields of an RTP packet that are free in a split: payload type, sequence number,
nonce counter, marker and payload. -/
structure RtpPacket where
  payloadType : Nat
  seq : Nat
  nonce : Nat
  marker : Bool
  payload : Bytes

/-- The datagram of a packet under a key, with the given timestamp and SSRC. -/
def RtpPacket.seal (A : AEAD) (key : Bytes) (ts ssrc : Nat) (p : RtpPacket) : Bytes :=
  sealedPacket A key p.payloadType p.marker p.seq ts ssrc p.nonce p.payload

theorem NalOK.header_lt {nal : Bytes} (h : NalOK nal) : nal.getD 0 0 < 256 := h.2.1

theorem NalOK.cons_drop {nal : Bytes} (h : NalOK nal) : nal.getD 0 0 :: nal.drop 1 = nal := by
  obtain ⟨h0, _, _, _⟩ := h
  cases nal with
  | nil => exact absurd rfl h0
  | cons a t => rfl

theorem piece_processAll (p : Piece) (hv : p.Valid) (r : VideoRTPReceiver) :
    (VideoRTPReceiver.processAll r p.payloads).m_frameBuffer
      = r.m_frameBuffer ++ annexB p.nals := by
  cases p with
  | single nal =>
    obtain ⟨h0, _, h1, h2⟩ := hv
    simp only [Piece.payloads, Piece.nals, processAll_cons, processAll_nil]
    rw [ProcessPayload_single r nal 0 0 h0 h1 h2]
    simp [annexB]
  | stapA hdr nals =>
    obtain ⟨h24, _, hn⟩ := hv
    simp only [Piece.payloads, Piece.nals, processAll_cons, processAll_nil]
    exact ProcessPayload_stap r hdr nals 0 0 h24 (fun n hm => (hn n hm).2)
  | fuA nal frags =>
    obtain ⟨hok, hne, hfl⟩ := hv
    simp only [Piece.payloads, Piece.nals]
    rw [processAll_fuPackets _ hok.header_lt frags hne true r (Or.inl rfl), hfl]
    simp only [if_true, List.singleton_append, hok.cons_drop]
    simp [annexB]

theorem pieces_processAll (pieces : List Piece) (hv : ∀ p ∈ pieces, p.Valid)
    (r : VideoRTPReceiver) :
    (VideoRTPReceiver.processAll r (pieces.flatMap Piece.payloads)).m_frameBuffer
      = r.m_frameBuffer ++ annexB (pieces.flatMap Piece.nals) := by
  induction pieces generalizing r with
  | nil => simp [annexB, processAll_nil]
  | cons p ps ih =>
    simp only [List.flatMap_cons, processAll_append]
    rw [ih (fun q hq => hv q (List.mem_cons_of_mem _ hq)),
      piece_processAll p (hv p (List.mem_cons_self _ _))]
    simp [annexB]

theorem Piece.payloads_ne_nil (p : Piece) (hv : p.Valid) : p.payloads ≠ [] := by
  cases p with
  | single nal => simp [Piece.payloads]
  | stapA hdr nals => simp [Piece.payloads]
  | fuA nal frags =>
    obtain ⟨_, hne, _⟩ := hv
    obtain ⟨c, cs, hcs⟩ := List.exists_cons_of_ne_nil hne
    simp [Piece.payloads, hcs, fuPackets]

theorem Piece.nals_ne_nil (p : Piece) (hv : p.Valid) : p.nals ≠ [] := by
  cases p with
  | single nal => simp [Piece.nals]
  | stapA hdr nals => exact hv.2.1
  | fuA nal frags => simp [Piece.nals]

/-! ## Feeding the packets of one access unit -/

theorem accept_same_timestamp (r : VideoRTPReceiver) (payload : Bytes) (seq ts : Nat)
    (marker : Bool) (hpre : r.m_hasTimestamp = true → r.m_currentTimestamp = ts) :
    VideoRTPReceiver.accept r payload seq ts marker
      = if marker then
          VideoRTPReceiver.FlushFrame
            (VideoRTPReceiver.ProcessPayload
              { r with m_currentTimestamp := ts, m_hasTimestamp := true } payload 0 0) ts
        else
          VideoRTPReceiver.ProcessPayload
            { r with m_currentTimestamp := ts, m_hasTimestamp := true } payload 0 0 := by
  unfold VideoRTPReceiver.accept
  have hc : ¬ (r.m_hasTimestamp = true ∧ ts ≠ r.m_currentTimestamp) := by
    rintro ⟨h1, h2⟩
    exact h2 (hpre h1).symm
  simp only [hc, if_false]
  rfl

theorem set_timestamp_id (r : VideoRTPReceiver) (ts : Nat) (hc : r.m_currentTimestamp = ts)
    (hh : r.m_hasTimestamp = true) :
    { r with m_currentTimestamp := ts, m_hasTimestamp := true } = r := by
  cases r
  simp_all

theorem FlushFrame_delivered (r : VideoRTPReceiver) (ts : Nat) (hfb : r.m_frameBuffer ≠ [])
    (hcb : r.m_frameCallback = true) :
    (VideoRTPReceiver.FlushFrame r ts).delivered = r.delivered ++ [(r.m_frameBuffer, ts)] := by
  unfold VideoRTPReceiver.FlushFrame
  have : r.m_frameBuffer.isEmpty = false := by
    cases h : r.m_frameBuffer with
    | nil => exact absurd h hfb
    | cons a t => rfl
  simp [this, hcb]

/-- Feeding the sealed packets of one access unit: all payloads are processed under the
one timestamp and the accumulator is flushed once, after the last. -/
theorem FeedAll_withMarker (A : AEAD) (key : Bytes) (ts ssrc : Nat) (hts : ts < 2 ^ 32)
    (hs32 : ssrc < 2 ^ 32) (ps : List Bytes) (hne : ps ≠ []) (pkts : List RtpPacket)
    (hmap : pkts.map (fun p => (p.payload, p.marker)) = withMarker ps true)
    (hfield : ∀ p ∈ pkts, p.payloadType < 128 ∧ p.nonce < 2 ^ 32)
    (r : VideoRTPReceiver) (hkey : r.m_secretKey = key) (hssrc : r.m_videoSSRC = ssrc)
    (hpre : r.m_hasTimestamp = true → r.m_currentTimestamp = ts) :
    VideoRTPReceiver.FeedAll A r (pkts.map (RtpPacket.seal A key ts ssrc))
      = VideoRTPReceiver.FlushFrame
          (VideoRTPReceiver.processAll
            { r with m_currentTimestamp := ts, m_hasTimestamp := true } ps) ts := by
  induction ps generalizing pkts r with
  | nil => exact absurd rfl hne
  | cons p rest ih =>
    cases pkts with
    | nil => simp [withMarker] at hmap
    | cons k ks =>
      simp only [List.map_cons, withMarker, List.cons.injEq, Prod.mk.injEq] at hmap
      obtain ⟨⟨hkp, hkm⟩, hks⟩ := hmap
      obtain ⟨hpt, hn⟩ := hfield k (List.mem_cons_self _ _)
      have hfeed : VideoRTPReceiver.Feed A r (RtpPacket.seal A key ts ssrc k)
          = VideoRTPReceiver.accept r p (k.seq % 2 ^ 16) ts k.marker := by
        unfold RtpPacket.seal
        rw [← hkey, ← hssrc, ← hkp]
        exact VideoRTPReceiver.Feed_sealedPacket A r _ _ _ _ _ _ hpt hn hts (by omega)
      simp only [VideoRTPReceiver.FeedAll, List.map_cons, List.foldl_cons]
      rw [hfeed, accept_same_timestamp r p _ ts _ hpre, processAll_cons]
      cases rest with
      | nil =>
        simp only [List.isEmpty_nil, Bool.and_self] at hkm
        simp only [withMarker, List.map_eq_nil_iff] at hks
        subst hks
        simp [hkm, processAll_nil]
      | cons q rest' =>
        simp only [List.isEmpty_cons, Bool.false_and] at hkm
        rw [hkm]
        simp only [Bool.false_eq_true, if_false]
        obtain ⟨f1, f2, f3, f4, _, _⟩ := ProcessPayload_frame
          { r with m_currentTimestamp := ts, m_hasTimestamp := true } p 0 0
        have := ih (by simp) ks hks (fun x hx => hfield x (List.mem_cons_of_mem _ hx))
          (VideoRTPReceiver.ProcessPayload
            { r with m_currentTimestamp := ts, m_hasTimestamp := true } p 0 0)
          (by rw [f2]; exact hkey) (by rw [f1]; exact hssrc) (fun _ => by rw [f3])
        simp only [VideoRTPReceiver.FeedAll] at this
        rw [this, set_timestamp_id _ ts (by rw [f3]) (by rw [f4])]

/-! ## Reassembly of one access unit -/

/-- The receiver on the sealed packets of a valid split of one access unit, started with an
empty accumulator and no other timestamp pending: one more callback invocation, with the
Annex-B form of the unit. -/
theorem reassembly_core (A : AEAD) (r : VideoRTPReceiver) (key : Bytes)
    (ts ssrc : Nat) (pieces : List Piece) (pkts : List RtpPacket)
    (hkey : r.m_secretKey = key) (hssrc : r.m_videoSSRC = ssrc)
    (hcb : r.m_frameCallback = true) (hfb0 : r.m_frameBuffer = [])
    (hpre : r.m_hasTimestamp = true → r.m_currentTimestamp = ts)
    (hts : ts < 2 ^ 32) (hs32 : ssrc < 2 ^ 32)
    (hne : pieces ≠ []) (hv : ∀ p ∈ pieces, p.Valid)
    (hmap : pkts.map (fun p => (p.payload, p.marker))
      = withMarker (pieces.flatMap Piece.payloads) true)
    (hfield : ∀ p ∈ pkts, p.payloadType < 128 ∧ p.nonce < 2 ^ 32) :
    (VideoRTPReceiver.FeedAll A r (pkts.map (RtpPacket.seal A key ts ssrc))).delivered
      = r.delivered ++ [(annexB (pieces.flatMap Piece.nals), ts)] := by
  obtain ⟨p0, prest, hp⟩ := List.exists_cons_of_ne_nil hne
  have hv0 : p0.Valid := hv p0 (by rw [hp]; exact List.mem_cons_self _ _)
  have hpne : pieces.flatMap Piece.payloads ≠ [] := by
    rw [hp, List.flatMap_cons]
    intro hc
    exact p0.payloads_ne_nil hv0 (List.append_eq_nil.mp hc).1
  have haune : annexB (pieces.flatMap Piece.nals) ≠ [] := by
    rw [hp, List.flatMap_cons]
    obtain ⟨n, ns, hn⟩ := List.exists_cons_of_ne_nil (p0.nals_ne_nil hv0)
    rw [hn]
    simp [annexB]
  rw [FeedAll_withMarker A key ts ssrc hts hs32 _ hpne pkts hmap hfield r hkey hssrc hpre]
  generalize hr1 : ({ r with m_currentTimestamp := ts, m_hasTimestamp := true }
    : VideoRTPReceiver) = r1
  have e1 : r1.m_frameBuffer = [] := by rw [← hr1]; exact hfb0
  have e2 : r1.m_frameCallback = r.m_frameCallback := by rw [← hr1]
  have e3 : r1.delivered = r.delivered := by rw [← hr1]
  have hfb := pieces_processAll pieces hv r1
  obtain ⟨_, _, _, _, g5, g6⟩ := processAll_frame r1 (pieces.flatMap Piece.payloads)
  rw [e1, List.nil_append] at hfb
  rw [FlushFrame_delivered _ ts (by rw [hfb]; exact haune) (by rw [g5, e2]; exact hcb),
    g6, hfb, e3]

/-! ## Claim C3 -/

/-- C3. Receiver reassembly: let `au` be an access unit split into valid pieces (single NAL
units, STAP-A aggregates, FU-A runs; every unit non-empty with type 1..23), and let the
packets carry the payloads of the pieces in order, one RTP timestamp, the receiver's video
SSRC, the marker on the last packet only, and any payload types (7 bits), sequence numbers
and nonce counters.  A receiver with a frame callback, freshly initialised with that SSRC
and the sealing key, invokes the callback exactly once on these packets, with the NAL
units of `au` in order, each behind the start code 00 00 00 01, and the timestamp. -/
theorem C3_receiver_reassembly (A : AEAD) (r0 : VideoRTPReceiver) (key : Bytes)
    (ts ssrc : Nat) (pieces : List Piece) (pkts : List RtpPacket) (au : List Bytes)
    (hcb : r0.m_frameCallback = true) (hts : ts < 2 ^ 32) (hs32 : ssrc < 2 ^ 32)
    (hne : pieces ≠ []) (hv : ∀ p ∈ pieces, p.Valid)
    (hau : pieces.flatMap Piece.nals = au)
    (hmap : pkts.map (fun p => (p.payload, p.marker))
      = withMarker (pieces.flatMap Piece.payloads) true)
    (hfield : ∀ p ∈ pkts, p.payloadType < 128 ∧ p.nonce < 2 ^ 32) :
    (VideoRTPReceiver.FeedAll A (VideoRTPReceiver.Init r0 ssrc key)
        (pkts.map (RtpPacket.seal A key ts ssrc))).delivered
      = r0.delivered ++ [(annexB au, ts)] := by
  have hinit : (VideoRTPReceiver.Init r0 ssrc key).m_hasTimestamp = true →
      (VideoRTPReceiver.Init r0 ssrc key).m_currentTimestamp = ts := by
    intro h
    simp [VideoRTPReceiver.Init] at h
  have hcore := reassembly_core A (VideoRTPReceiver.Init r0 ssrc key) key ts ssrc pieces pkts
    rfl rfl hcb rfl hinit hts hs32 hne hv hmap hfield
  rw [hau] at hcore
  exact hcore

/-- A split used to instantiate C3: an SPS sent whole, a PPS in a STAP-A aggregate and an
IDR slice in two FU-A fragments. -/
def exampleSplit : List Piece :=
  [.single [0x67, 0x42], .stapA 0x18 [[0x68, 0xCE]], .fuA [0x65, 1, 2, 3] [[1], [2, 3]]]

/-- Packets carrying the payloads of `exampleSplit`, with arbitrary sequence numbers and
nonce counters and the marker on the last. -/
def examplePackets : List RtpPacket :=
  [{ payloadType := 101, seq := 9, nonce := 40, marker := false, payload := [0x67, 0x42] },
   { payloadType := 101, seq := 65535, nonce := 41, marker := false,
     payload := [0x18, 0, 2, 0x68, 0xCE] },
   { payloadType := 101, seq := 0, nonce := 4294967295, marker := false,
     payload := [0x7C, 0x85, 1] },
   { payloadType := 101, seq := 1, nonce := 0, marker := true, payload := [0x7C, 0x45, 2, 3] }]

theorem exampleSplit_valid : ∀ p ∈ exampleSplit, p.Valid := by
  intro p hp
  simp only [exampleSplit, List.mem_cons, List.mem_singleton, List.not_mem_nil, or_false] at hp
  rcases hp with rfl | rfl | rfl
  · exact ⟨by decide, by decide, by decide, by decide⟩
  · refine ⟨by decide, by decide, ?_⟩
    intro n hn
    simp only [List.mem_singleton] at hn
    subst hn
    exact ⟨⟨by decide, by decide, by decide, by decide⟩, by decide⟩
  · exact ⟨⟨by decide, by decide, by decide, by decide⟩, by decide, by decide⟩

/-- C3 at the example split, timestamp 90000 and SSRC 8. -/
theorem C3_receiver_reassembly_witness :
    (VideoRTPReceiver.FeedAll toyAEAD
        (VideoRTPReceiver.Init VideoRTPReceiver.fresh 8 (List.replicate 32 1))
        (examplePackets.map (RtpPacket.seal toyAEAD (List.replicate 32 1) 90000 8))).delivered
      = VideoRTPReceiver.fresh.delivered
          ++ [(annexB [[0x67, 0x42], [0x68, 0xCE], [0x65, 1, 2, 3]], 90000)] :=
  C3_receiver_reassembly toyAEAD VideoRTPReceiver.fresh (List.replicate 32 1) 90000 8
    exampleSplit examplePackets [[0x67, 0x42], [0x68, 0xCE], [0x65, 1, 2, 3]]
    rfl (by decide) (by decide) (by simp [exampleSplit]) exampleSplit_valid (by decide)
    (by decide) (by decide)

/-! ## Annex-B parsing -/

/-- A start code: `00 00 00 01` or `00 00 01`. -/
def startCode (four : Bool) : Bytes := if four then [0, 0, 0, 1] else [0, 0, 1]

/-- An Annex-B buffer: every NAL unit behind the start code chosen for it. -/
def buildAnnexB (items : List (Bool × Bytes)) : Bytes :=
  items.flatMap (fun it => startCode it.1 ++ it.2)

/-- A NAL unit that an Annex-B scanner can delimit: non-empty, not containing the byte
sequence `00 00 01`, and not ending in a `00` byte. -/
def Delimitable (nal : Bytes) : Prop :=
  nal ≠ [] ∧ ¬ [0, 0, 1] <:+: nal ∧ nal.getLast? ≠ some 0

theorem getD_append_at (a b : Bytes) (k : Nat) : (a ++ b).getD (a.length + k) 0 = b.getD k 0 := by
  rw [List.getD_append_right _ _ _ _ (by omega)]
  congr 1; omega

theorem getD_mid (P nal R : Bytes) (k : Nat) (hk : k < nal.length) :
    (P ++ nal ++ R).getD (P.length + k) 0 = nal.getD k 0 := by
  rw [List.append_assoc, getD_append_at, List.getD_append _ _ _ _ hk]

theorem getD_tail (P nal R : Bytes) (k : Nat) :
    (P ++ nal ++ R).getD (P.length + nal.length + k) 0 = R.getD k 0 := by
  have : P.length + nal.length + k = (P ++ nal).length + k := by simp
  rw [this, getD_append_at]

theorem infix_of_getD (nal : Bytes) (k : Nat) (hk : k + 2 < nal.length)
    (h0 : nal.getD k 0 = 0) (h1 : nal.getD (k + 1) 0 = 0) (h2 : nal.getD (k + 2) 0 = 1) :
    [0, 0, 1] <:+: nal := by
  refine ⟨nal.take k, nal.drop (k + 3), ?_⟩
  have hk0 : k < nal.length := by omega
  have hk1 : k + 1 < nal.length := by omega
  have e0 : nal[k] = 0 := by
    rw [List.getD_eq_getElem _ _ hk0] at h0; exact h0
  have e1 : nal[k + 1] = 0 := by
    rw [List.getD_eq_getElem _ _ hk1] at h1; exact h1
  have e2 : nal[k + 2] = 1 := by
    rw [List.getD_eq_getElem _ _ hk] at h2; exact h2
  have d0 : nal.drop k = nal[k] :: nal.drop (k + 1) := List.drop_eq_getElem_cons hk0
  have d1 : nal.drop (k + 1) = nal[k + 1] :: nal.drop (k + 2) := List.drop_eq_getElem_cons hk1
  have d2 : nal.drop (k + 2) = nal[k + 2] :: nal.drop (k + 3) := List.drop_eq_getElem_cons hk
  rw [e0] at d0
  rw [e1] at d1
  rw [e2] at d2
  calc nal.take k ++ [0, 0, 1] ++ nal.drop (k + 3)
      = nal.take k ++ nal.drop k := by rw [d0, d1, d2]; simp
    _ = nal := List.take_append_drop k nal

theorem last_ne_zero (nal : Bytes) (h : nal.getLast? ≠ some 0) (hne : nal ≠ []) :
    nal.getD (nal.length - 1) 0 ≠ 0 := by
  intro hc
  apply h
  rw [List.getLast?_eq_getElem?]
  have hl : nal.length - 1 < nal.length := by
    have : 0 < nal.length := List.length_pos.mpr hne
    omega
  rw [List.getD_eq_getElem _ _ hl] at hc
  rw [List.getElem?_eq_getElem hl, hc]

/-- What may follow a NAL unit in an Annex-B buffer: nothing, or a start code and at least
one more byte. -/
def FollowOK (R : Bytes) : Prop := R = [] ∨ ∃ four b R', R = startCode four ++ (b :: R')

/-- Inside a delimitable NAL unit the end-of-NAL test of `SendFrame` never fires. -/
theorem scan_inside (P nal R : Bytes) (hd : Delimitable nal) (k : Nat) (hk : k < nal.length) :
    ¬ ((P ++ nal ++ R).getD (P.length + k) 0 = 0 ∧
       (P ++ nal ++ R).getD (P.length + k + 1) 0 = 0 ∧
       ((P ++ nal ++ R).getD (P.length + k + 2) 0 = 1 ∨
        (P.length + k + 3 < (P ++ nal ++ R).length ∧
          (P ++ nal ++ R).getD (P.length + k + 2) 0 = 0 ∧
          (P ++ nal ++ R).getD (P.length + k + 3) 0 = 1))) := by
  obtain ⟨hne, hinf, hlast⟩ := hd
  have hl := last_ne_zero nal hlast hne
  rintro ⟨a0, a1, a2⟩
  rw [getD_mid P nal R k hk] at a0
  have hk1 : k + 1 < nal.length := by
    by_contra hc
    have : k = nal.length - 1 := by omega
    rw [this] at a0
    exact hl a0
  rw [Nat.add_assoc, getD_mid P nal R (k + 1) hk1] at a1
  have hk2 : k + 2 < nal.length := by
    by_contra hc
    have : k + 1 = nal.length - 1 := by omega
    rw [this] at a1
    exact hl a1
  rw [Nat.add_assoc, getD_mid P nal R (k + 2) hk2] at a2
  rcases a2 with a2 | ⟨_, a2, a3⟩
  · exact hinf (infix_of_getD nal k hk2 a0 a1 a2)
  · have hk3 : k + 3 < nal.length := by
      by_contra hc
      have : k + 2 = nal.length - 1 := by omega
      rw [this] at a2
      exact hl a2
    rw [Nat.add_assoc, getD_mid P nal R (k + 3) hk3] at a3
    exact hinf (infix_of_getD nal (k + 1) hk3 a1 a2 a3)

/-- The inner loop of `SendFrame`, entered anywhere in a delimitable NAL unit, stops
exactly at its end. -/
theorem findNalEnd_nal (P nal R : Bytes) (hd : Delimitable nal) (hR : FollowOK R) (j : Nat)
    (hj1 : P.length ≤ j) (hj2 : j ≤ P.length + nal.length) :
    VideoRTPSender.findNalEnd (P ++ nal ++ R) j = P.length + nal.length := by
  generalize hdist : P.length + nal.length - j = d
  induction d using Nat.strong_induction_on generalizing j with
  | _ d ih =>
    have hlen : (P ++ nal ++ R).length = P.length + nal.length + R.length := by
      simp only [List.length_append]
    rw [VideoRTPSender.findNalEnd]
    by_cases hin : j + 2 < (P ++ nal ++ R).length
    · rw [if_pos hin]
      by_cases hje : j < P.length + nal.length
      · obtain ⟨k, rfl⟩ : ∃ k, j = P.length + k := ⟨j - P.length, by omega⟩
        rw [if_neg (scan_inside P nal R hd k (by omega))]
        exact ih (P.length + nal.length - (P.length + k + 1)) (by omega) (P.length + k + 1)
          (by omega) (by omega) rfl
      · have hje' : j = P.length + nal.length := by omega
        subst hje'
        rcases hR with hR | ⟨four, b, R', hR⟩
        · subst hR
          simp only [List.append_nil, List.length_append] at hin
          omega
        · have g0 : (P ++ nal ++ R).getD (P.length + nal.length) 0 = 0 := by
            have := getD_tail P nal R 0
            rw [Nat.add_zero] at this
            rw [this, hR]; cases four <;> rfl
          have g1 : (P ++ nal ++ R).getD (P.length + nal.length + 1) 0 = 0 := by
            rw [getD_tail, hR]; cases four <;> rfl
          have g2 : (P ++ nal ++ R).getD (P.length + nal.length + 2) 0
              = if four then 0 else 1 := by
            rw [getD_tail, hR]; cases four <;> rfl
          have g3 : four = true → (P ++ nal ++ R).getD (P.length + nal.length + 3) 0 = 1 := by
            intro hf
            rw [getD_tail, hR, hf]; rfl
          have hRl : four = true → 4 ≤ R.length := by
            intro hf
            rw [hR, hf]; simp [startCode]
          rw [if_pos]
          refine ⟨g0, g1, ?_⟩
          cases hf : four
          · left; rw [g2, hf]; rfl
          · right
            refine ⟨by have := hRl hf; omega, by rw [g2, hf]; rfl, g3 hf⟩
    · rw [if_neg hin]
      rcases hR with hR | ⟨four, b, R', hR⟩
      · subst hR; simp
      · have : 4 ≤ R.length := by
          rw [hR]; cases four <;> simp [startCode]
        omega

/-- The start-code test of `SendFrame` at a start code followed by at least one byte. -/
theorem startCodeLen_at (P : Bytes) (four : Bool) (b : Nat) (T : Bytes) :
    VideoRTPSender.startCodeLen (P ++ (startCode four ++ (b :: T))) P.length
      = if four then 4 else 3 := by
  have h0 : (P ++ (startCode four ++ (b :: T))).getD P.length 0 = 0 := by
    have := getD_append_at P (startCode four ++ (b :: T)) 0
    rw [Nat.add_zero] at this
    rw [this]; cases four <;> rfl
  have h1 : (P ++ (startCode four ++ (b :: T))).getD (P.length + 1) 0 = 0 := by
    rw [getD_append_at]; cases four <;> rfl
  unfold VideoRTPSender.startCodeLen
  simp only [h0, h1]
  cases four
  · have h2 : (P ++ (startCode false ++ (b :: T))).getD (P.length + 2) 0 = 1 := by
      rw [getD_append_at]; rfl
    have hl : (P ++ (startCode false ++ (b :: T))).length = P.length + 4 + T.length := by
      simp [startCode]; omega
    simp only [h2, hl]
    rw [if_neg (by simp), if_pos ⟨by omega, trivial, trivial, trivial⟩]
    rfl
  · have h2 : (P ++ (startCode true ++ (b :: T))).getD (P.length + 2) 0 = 0 := by
      rw [getD_append_at]; rfl
    have h3 : (P ++ (startCode true ++ (b :: T))).getD (P.length + 3) 0 = 1 := by
      rw [getD_append_at]; rfl
    have hl : (P ++ (startCode true ++ (b :: T))).length = P.length + 5 + T.length := by
      simp [startCode]; omega
    simp only [h2, h3, hl]
    rw [if_pos ⟨by omega, trivial, trivial, trivial, trivial⟩]
    rfl

theorem startCode_length (four : Bool) : (startCode four).length = if four then 4 else 3 := by
  cases four <;> rfl

theorem buildAnnexB_cons (four : Bool) (nal : Bytes) (rest : List (Bool × Bytes)) :
    buildAnnexB ((four, nal) :: rest) = startCode four ++ nal ++ buildAnnexB rest := by
  simp [buildAnnexB]

theorem buildAnnexB_follow (items : List (Bool × Bytes)) (hd : ∀ it ∈ items, Delimitable it.2) :
    FollowOK (buildAnnexB items) := by
  cases items with
  | nil => left; rfl
  | cons it rest =>
    right
    obtain ⟨four, nal⟩ := it
    have hne := (hd (four, nal) (List.mem_cons_self _ _)).1
    obtain ⟨b, T, hbT⟩ := List.exists_cons_of_ne_nil hne
    simp only at hbT
    refine ⟨four, b, T ++ buildAnnexB rest, ?_⟩
    rw [buildAnnexB_cons, hbT]
    simp

/-- The parsing loop of `SendFrame`, entered at the start code of the first of the
remaining NAL units, collects exactly these units. -/
theorem parseNALUnits_build (items : List (Bool × Bytes))
    (hd : ∀ it ∈ items, Delimitable it.2) (P : Bytes) (acc : List Bytes) :
    VideoRTPSender.parseNALUnits (P ++ buildAnnexB items) P.length acc
      = acc ++ items.map Prod.snd := by
  induction items generalizing P acc with
  | nil =>
    rw [VideoRTPSender.parseNALUnits]
    simp [buildAnnexB]
  | cons it rest ih =>
    obtain ⟨four, nal⟩ := it
    have hdn : Delimitable nal := hd (four, nal) (List.mem_cons_self _ _)
    have hrest : ∀ it ∈ rest, Delimitable it.2 := fun it h => hd it (List.mem_cons_of_mem _ h)
    obtain ⟨b, T, hbT⟩ := List.exists_cons_of_ne_nil hdn.1
    have hdata1 : P ++ buildAnnexB ((four, nal) :: rest)
        = P ++ (startCode four ++ (b :: (T ++ buildAnnexB rest))) := by
      rw [buildAnnexB_cons, hbT]; simp
    have hdata2 : P ++ buildAnnexB ((four, nal) :: rest)
        = (P ++ startCode four) ++ nal ++ buildAnnexB rest := by
      rw [buildAnnexB_cons]; simp
    have hscl : VideoRTPSender.startCodeLen (P ++ buildAnnexB ((four, nal) :: rest)) P.length
        = (startCode four).length := by
      rw [hdata1, startCodeLen_at, startCode_length]
    have hpos : 0 < (startCode four).length := by
      rw [startCode_length]; cases four <;> simp
    have hstart : P.length + (startCode four).length = (P ++ startCode four).length := by simp
    have hend : VideoRTPSender.findNalEnd (P ++ buildAnnexB ((four, nal) :: rest))
        (P.length + (startCode four).length)
        = (P ++ startCode four).length + nal.length := by
      rw [hdata2, hstart]
      exact findNalEnd_nal _ nal _ hdn (buildAnnexB_follow rest hrest) _ (Nat.le_refl _)
        (by omega)
    have hnl : 0 < nal.length := List.length_pos.mpr hdn.1
    have hslice : ((P ++ buildAnnexB ((four, nal) :: rest)).drop
          (P.length + (startCode four).length)).take
          ((P ++ startCode four).length + nal.length - (P.length + (startCode four).length))
        = nal := by
      rw [hdata2, hstart, List.append_assoc, List.drop_left]
      have : (P ++ startCode four).length + nal.length - (P ++ startCode four).length
          = nal.length := by omega
      rw [this, List.take_left]
    have hlt : P.length < (P ++ buildAnnexB ((four, nal) :: rest)).length := by
      rw [hdata2]; simp only [List.length_append]; omega
    rw [VideoRTPSender.parseNALUnits]
    simp only [hlt, if_true, hscl, hpos, hend, hslice]
    rw [if_pos (by omega)]
    have hfin : (P ++ startCode four).length + nal.length
        = (P ++ startCode four ++ nal).length := by simp only [List.length_append]
    rw [hfin, hdata2, ih hrest (P ++ startCode four ++ nal) (acc ++ [nal])]
    simp

/-! ## Claim C5 -/

/-- C5. Annex-B parse round trip: for every non-empty list of NAL units, each non-empty,
containing no byte sequence 00 00 01 and not ending in a 00 byte, and every choice of a
3-byte or 4-byte start code in front of each unit, the loop of `VideoRTPSender::SendFrame`
parses exactly the original list, in order, out of the built buffer, and that list is what
`SendFrame` goes on to send. -/
theorem C5_annexb_parse_roundtrip (A : AEAD) (s : VideoRTPSender) (ts : Nat)
    (nals : List Bytes) (codes : List Bool) (hne : nals ≠ [])
    (hcodes : codes.length = nals.length) (hd : ∀ n ∈ nals, Delimitable n) :
    VideoRTPSender.parseNALUnits (buildAnnexB (codes.zip nals)) 0 [] = nals ∧
    (s.m_udp = true →
      VideoRTPSender.SendFrame A s (buildAnnexB (codes.zip nals)) ts
        = VideoRTPSender.SendFrame_loop A nals ts s 0) := by
  have hsnd : (codes.zip nals).map Prod.snd = nals := List.map_snd_zip _ _ (by omega)
  have hitems : ∀ it ∈ codes.zip nals, Delimitable it.2 := by
    intro it hit
    apply hd
    rw [← hsnd]
    exact List.mem_map_of_mem _ hit
  have hparse : VideoRTPSender.parseNALUnits (buildAnnexB (codes.zip nals)) 0 [] = nals := by
    have := parseNALUnits_build (codes.zip nals) hitems [] []
    simpa [hsnd] using this
  refine ⟨hparse, ?_⟩
  intro hudp
  have hbuf : (buildAnnexB (codes.zip nals)).length ≠ 0 := by
    obtain ⟨n, ns, hn⟩ := List.exists_cons_of_ne_nil hne
    cases codes with
    | nil => rw [hn] at hcodes; simp at hcodes
    | cons c cs =>
      rw [hn, List.zip_cons_cons, buildAnnexB_cons]
      have := startCode_length c
      simp only [List.length_append]
      cases c <;> simp at this <;> omega
  unfold VideoRTPSender.SendFrame
  simp [hudp, hbuf, hparse]

/-- C5 at two NAL units, the first behind a 4-byte and the second behind a 3-byte start
code; both contain zero bytes. -/
theorem C5_annexb_parse_roundtrip_witness :
    VideoRTPSender.parseNALUnits
        (buildAnnexB ([true, false].zip [[0x67, 0x42, 0, 0x1E], [0x65, 0, 0, 3, 1]])) 0 []
      = [[0x67, 0x42, 0, 0x1E], [0x65, 0, 0, 3, 1]] :=
  (C5_annexb_parse_roundtrip toyAEAD VideoRTPSender.fresh 0
    [[0x67, 0x42, 0, 0x1E], [0x65, 0, 0, 3, 1]] [true, false] (by decide) (by decide)
    (by
      intro n hn
      simp only [List.mem_cons, List.mem_singleton, List.not_mem_nil, or_false] at hn
      rcases hn with rfl | rfl <;> exact ⟨by decide, by decide, by decide⟩)).1

/-! ## The packets of one frame -/

theorem withMarker_append (a b : List Bytes) (m : Bool) :
    withMarker (a ++ b) m = withMarker a (b.isEmpty && m) ++ withMarker b m := by
  induction a with
  | nil => simp [withMarker]
  | cons p rest ih =>
    simp only [List.cons_append, withMarker, ih]
    congr 2
    cases rest with
    | nil => simp
    | cons q qs => simp

theorem nalPayloads_ne_nil (nal : Bytes) (h : nal ≠ []) : nalPayloads nal ≠ [] := by
  have h0 : 0 < nal.length := List.length_pos.mpr h
  unfold nalPayloads
  rw [if_neg (by omega)]
  split
  · simp
  · intro hc
    have h1 := congrArg List.length hc
    rw [fuPackets_length, List.length_nil] at h1
    exact fuaChunks_ne_nil (nal.drop 1) (by rw [List.length_drop]; omega)
      (List.length_eq_zero.mp h1)

theorem flatMap_nalPayloads_isEmpty (nals : List Bytes) (h : ∀ n ∈ nals, n ≠ []) :
    (nals.flatMap nalPayloads).isEmpty = nals.isEmpty := by
  cases nals with
  | nil => rfl
  | cons n ns =>
    have := nalPayloads_ne_nil n (h n (List.mem_cons_self _ _))
    obtain ⟨c, cs, hc⟩ := List.exists_cons_of_ne_nil this
    simp [List.flatMap_cons, hc]

/-- Normal form of the sending loop of `VideoRTPSender::SendFrame`: the payloads of the
remaining NAL units are sealed in order, the marker set on the last one. -/
theorem VideoRTPSender.SendFrame_loop_eq (A : AEAD) (nals : List Bytes) (ts : Nat)
    (hne : ∀ n ∈ nals, n ≠ []) (s : VideoRTPSender) (n : Nat) :
    VideoRTPSender.SendFrame_loop A nals ts s n
      = VideoRTPSender.sealAll A ts s
          (withMarker ((nals.drop n).flatMap nalPayloads) true) := by
  generalize hk : nals.length - n = k
  induction k using Nat.strong_induction_on generalizing s n with
  | _ k ih =>
    rw [VideoRTPSender.SendFrame_loop]
    by_cases hn : n < nals.length
    · rw [if_pos hn]
      simp only
      rw [ih (nals.length - (n + 1)) (by omega) _ (n + 1) rfl,
        VideoRTPSender.SendNALUnit_eq]
      have hdrop : nals.drop n = nals.getD n [] :: nals.drop (n + 1) := by
        rw [List.getD_eq_getElem _ _ hn]
        exact List.drop_eq_getElem_cons hn
      have hrest : ∀ m ∈ nals.drop (n + 1), m ≠ [] :=
        fun m hm => hne m (List.mem_of_mem_drop hm)
      have hlast : (n == nals.length - 1)
          = (((nals.drop (n + 1)).flatMap nalPayloads).isEmpty && true) := by
        rw [flatMap_nalPayloads_isEmpty _ hrest, Bool.and_true]
        by_cases he : n = nals.length - 1
        · have : nals.drop (n + 1) = [] := List.drop_eq_nil_of_le (by omega)
          rw [this]; simp [he]
        · have hl : 0 < (nals.drop (n + 1)).length := by
            rw [List.length_drop]; omega
          obtain ⟨c, cs, hc⟩ := List.exists_cons_of_ne_nil (List.length_pos.mp hl)
          rw [hc]; simp [he]
      rw [hdrop, List.flatMap_cons, withMarker_append, ← hlast, sealAll_append]
    · rw [if_neg hn, List.drop_eq_nil_of_le (by omega)]
      rfl

/-- The packets that successive calls of `SendRTPPacket` build for a list of
`(payload, marker)` pairs, from the sender's payload type and counters. -/
def planPackets (pt : Nat) : Nat → Nat → List (Bytes × Bool) → List RtpPacket
  | _, _, [] => []
  | seq, nonce, p :: rest =>
    { payloadType := pt, seq := (seq + 1) % 2 ^ 16, nonce := (nonce + 1) % 2 ^ 32,
      marker := p.2, payload := p.1 }
      :: planPackets pt ((seq + 1) % 2 ^ 16) ((nonce + 1) % 2 ^ 32) rest

theorem sealAll_eq_map (A : AEAD) (ts : Nat) (s : VideoRTPSender) (plan : List (Bytes × Bool)) :
    (VideoRTPSender.sealAll A ts s plan).2
      = (planPackets s.m_payloadType s.m_sequence s.m_nonce plan).map
          (RtpPacket.seal A s.m_secretKey ts s.m_videoSSRC) := by
  induction plan generalizing s with
  | nil => rfl
  | cons p rest ih =>
    simp only [VideoRTPSender.sealAll, planPackets, List.map_cons]
    rw [ih, VideoRTPSender.SendRTPPacket_eq]
    rfl

theorem planPackets_map (pt seq nonce : Nat) (plan : List (Bytes × Bool)) :
    (planPackets pt seq nonce plan).map (fun p => (p.payload, p.marker)) = plan := by
  induction plan generalizing seq nonce with
  | nil => rfl
  | cons p rest ih => simp [planPackets, ih]

theorem planPackets_fields (pt seq nonce : Nat) (plan : List (Bytes × Bool)) :
    ∀ p ∈ planPackets pt seq nonce plan, p.payloadType = pt ∧ p.nonce < 2 ^ 32 := by
  induction plan generalizing seq nonce with
  | nil => intro p hp; simp [planPackets] at hp
  | cons q rest ih =>
    intro p hp
    simp only [planPackets, List.mem_cons] at hp
    rcases hp with hp | hp
    · subst hp
      exact ⟨rfl, Nat.mod_lt _ (by norm_num)⟩
    · exact ih _ _ p hp

/-- The piece of a split that `SendNALUnit` produces for a NAL unit. -/
def nalPiece (nal : Bytes) : Piece :=
  if nal.length ≤ 1200 then .single nal else .fuA nal (fuaChunks (nal.drop 1))

theorem nalPiece_nals (nal : Bytes) : (nalPiece nal).nals = [nal] := by
  unfold nalPiece; split <;> rfl

theorem nalPiece_payloads (nal : Bytes) (hne : nal ≠ []) (hh : nal.getD 0 0 < 128) :
    (nalPiece nal).payloads = nalPayloads nal := by
  have h0 : 0 < nal.length := List.length_pos.mpr hne
  unfold nalPiece nalPayloads
  by_cases hl : nal.length ≤ 1200
  · rw [if_pos hl, if_neg (by omega), if_pos hl]
    rfl
  · rw [if_neg hl, if_neg (by omega), if_neg hl]
    simp only [Piece.payloads]
    rw [nri_eq_of_lt _ hh]

theorem nalPiece_valid (nal : Bytes) (hok : NalOK nal) : (nalPiece nal).Valid := by
  unfold nalPiece
  split
  · exact hok
  · rename_i h
    exact ⟨hok, fuaChunks_ne_nil _ (by rw [List.length_drop]; omega), fuaChunks_flatten _⟩

theorem parseNALUnits_nil : VideoRTPSender.parseNALUnits [] 0 [] = [] := by
  rw [VideoRTPSender.parseNALUnits]
  simp

theorem flatMap_nalPiece_nals (nals : List Bytes) :
    (nals.map nalPiece).flatMap Piece.nals = nals := by
  induction nals with
  | nil => rfl
  | cons n ns ih => simp [List.flatMap_cons, nalPiece_nals, ih]

theorem flatMap_nalPiece_payloads (nals : List Bytes)
    (h : ∀ n ∈ nals, n ≠ [] ∧ n.getD 0 0 < 128) :
    (nals.map nalPiece).flatMap Piece.payloads = nals.flatMap nalPayloads := by
  induction nals with
  | nil => rfl
  | cons n ns ih =>
    obtain ⟨h1, h2⟩ := h n (List.mem_cons_self _ _)
    simp only [List.map_cons, List.flatMap_cons, nalPiece_payloads n h1 h2]
    rw [ih (fun m hm => h m (List.mem_cons_of_mem _ hm))]

theorem ne_nil_of_type (n : Bytes) (h : 1 ≤ n.getD 0 0 &&& 0x1F) : n ≠ [] := by
  intro hc
  subst hc
  simp at h

/-! ## Claim C2 -/

/-- C2. Sender-to-receiver video round trip: let `SendFrame` be given a buffer from which
it parses at least one NAL unit, each with a header byte whose top bit is clear (a byte
below 0x80) and whose type is in 1..23, on a sender with a socket and a 7-bit payload
type.  Feeding the emitted datagrams in order to a receiver with a frame callback, freshly
initialised with the sender's key and video SSRC, invokes the callback exactly once, with
the sent timestamp and with the parsed NAL units in order, each behind the start code
00 00 00 01, whether a unit went out as a single packet or as FU-A fragments. -/
theorem C2_sender_receiver_roundtrip (A : AEAD) (s : VideoRTPSender) (r0 : VideoRTPReceiver)
    (h264Data : Bytes) (ts : Nat)
    (hudp : s.m_udp = true) (hpt : s.m_payloadType < 128) (hts : ts < 2 ^ 32)
    (hssrc : s.m_videoSSRC < 2 ^ 32) (hcb : r0.m_frameCallback = true)
    (hne : VideoRTPSender.parseNALUnits h264Data 0 [] ≠ [])
    (hnal : ∀ n ∈ VideoRTPSender.parseNALUnits h264Data 0 [],
      n.getD 0 0 < 128 ∧ 1 ≤ n.getD 0 0 &&& 0x1F ∧ n.getD 0 0 &&& 0x1F ≤ 23) :
    (VideoRTPReceiver.FeedAll A (VideoRTPReceiver.Init r0 s.m_videoSSRC s.m_secretKey)
        (VideoRTPSender.SendFrame A s h264Data ts).2).delivered
      = r0.delivered ++ [(annexB (VideoRTPSender.parseNALUnits h264Data 0 []), ts)] := by
  generalize hnals : VideoRTPSender.parseNALUnits h264Data 0 [] = nals at hne hnal
  have hbuf : h264Data.length ≠ 0 := by
    intro hc
    rw [List.length_eq_zero.mp hc, parseNALUnits_nil] at hnals
    exact hne hnals.symm
  have hnonempty : ∀ n ∈ nals, n ≠ [] := fun n hn => ne_nil_of_type n (hnal n hn).2.1
  have hsend : (VideoRTPSender.SendFrame A s h264Data ts).2
      = (planPackets s.m_payloadType s.m_sequence s.m_nonce
          (withMarker (nals.flatMap nalPayloads) true)).map
          (RtpPacket.seal A s.m_secretKey ts s.m_videoSSRC) := by
    unfold VideoRTPSender.SendFrame
    simp only [hudp, hbuf, Bool.not_true, Bool.false_or, decide_False, Bool.false_eq_true,
      if_false, hnals]
    rw [VideoRTPSender.SendFrame_loop_eq A nals ts hnonempty s 0, sealAll_eq_map,
      List.drop_zero]
  have hinit : (VideoRTPReceiver.Init r0 s.m_videoSSRC s.m_secretKey).m_hasTimestamp = true →
      (VideoRTPReceiver.Init r0 s.m_videoSSRC s.m_secretKey).m_currentTimestamp = ts := by
    intro h
    simp [VideoRTPReceiver.Init] at h
  have hcore := reassembly_core A (VideoRTPReceiver.Init r0 s.m_videoSSRC s.m_secretKey)
    s.m_secretKey ts s.m_videoSSRC (nals.map nalPiece)
    (planPackets s.m_payloadType s.m_sequence s.m_nonce
      (withMarker (nals.flatMap nalPayloads) true))
    rfl rfl hcb rfl hinit hts hssrc
    (by
      obtain ⟨n, ns, hn⟩ := List.exists_cons_of_ne_nil hne
      rw [hn]; simp)
    (by
      intro p hp
      obtain ⟨n, hn, rfl⟩ := List.mem_map.mp hp
      obtain ⟨h1, h2, h3⟩ := hnal n hn
      exact nalPiece_valid n ⟨hnonempty n hn, by omega, h2, h3⟩)
    (by
      rw [planPackets_map,
        flatMap_nalPiece_payloads nals (fun n hn => ⟨hnonempty n hn, (hnal n hn).1⟩)])
    (by
      intro p hp
      obtain ⟨h1, h2⟩ := planPackets_fields _ _ _ _ p hp
      exact ⟨by rw [h1]; exact hpt, h2⟩)
  rw [flatMap_nalPiece_nals] at hcore
  rw [hsend]
  exact hcore

/-- C2 at a two-unit access unit (an SPS behind a 4-byte start code, an IDR slice behind a
3-byte one), timestamp 90000, a sender initialised with SSRC 8 and an all-ones key. -/
theorem C2_sender_receiver_roundtrip_witness :
    (VideoRTPReceiver.FeedAll toyAEAD
        (VideoRTPReceiver.Init VideoRTPReceiver.fresh 8 (List.replicate 32 1))
        (VideoRTPSender.SendFrame toyAEAD
          (VideoRTPSender.Init VideoRTPSender.fresh true 8 (List.replicate 32 1))
          (buildAnnexB [(true, [0x67, 0x42]), (false, [0x65, 1, 2, 3])]) 90000).2).delivered
      = VideoRTPReceiver.fresh.delivered
          ++ [(annexB (VideoRTPSender.parseNALUnits
                (buildAnnexB [(true, [0x67, 0x42]), (false, [0x65, 1, 2, 3])]) 0 []), 90000)] := by
  have hparse : VideoRTPSender.parseNALUnits
      (buildAnnexB [(true, [0x67, 0x42]), (false, [0x65, 1, 2, 3])]) 0 []
      = [[0x67, 0x42], [0x65, 1, 2, 3]] :=
    parseNALUnits_build [(true, [0x67, 0x42]), (false, [0x65, 1, 2, 3])]
      (by
        intro it hit
        simp only [List.mem_cons, List.mem_singleton, List.not_mem_nil, or_false] at hit
        rcases hit with rfl | rfl <;> exact ⟨by decide, by decide, by decide⟩)
      [] []
  exact C2_sender_receiver_roundtrip toyAEAD
    (VideoRTPSender.Init VideoRTPSender.fresh true 8 (List.replicate 32 1))
    VideoRTPReceiver.fresh
    (buildAnnexB [(true, [0x67, 0x42]), (false, [0x65, 1, 2, 3])]) 90000
    rfl (by decide) (by decide) (by decide) rfl
    (by rw [hparse]; decide)
    (by rw [hparse]; decide)

/-! ## Marker bit of a frame -/

/-- The marker bit of a datagram, as `VideoRTPReceiver::Feed` reads it: bit 0x80 of
byte 1. -/
def wireMarker (d : Bytes) : Bool := (d.getD 1 0 &&& 0x80) != 0

theorem findNalEnd_le (h264Data : Bytes) (j : Nat) (h : j ≤ h264Data.length) :
    VideoRTPSender.findNalEnd h264Data j ≤ h264Data.length := by
  generalize hk : h264Data.length - j = k
  induction k using Nat.strong_induction_on generalizing j with
  | _ k ih =>
    rw [VideoRTPSender.findNalEnd]
    split
    · split
      · exact h
      · exact ih (h264Data.length - (j + 1)) (by omega) (j + 1) (by omega) rfl
    · exact Nat.le_refl _

/-- Every NAL unit that the parsing loop of `SendFrame` collects is non-empty. -/
theorem parseNALUnits_nonempty (h264Data : Bytes) (i : Nat) (acc : List Bytes)
    (hacc : ∀ n ∈ acc, n ≠ []) :
    ∀ n ∈ VideoRTPSender.parseNALUnits h264Data i acc, n ≠ [] := by
  generalize hk : h264Data.length - i = k
  induction k using Nat.strong_induction_on generalizing i acc with
  | _ k ih =>
    rw [VideoRTPSender.parseNALUnits]
    simp only
    by_cases hi : i < h264Data.length
    · rw [if_pos hi]
      by_cases hs : 0 < VideoRTPSender.startCodeLen h264Data i
      · rw [if_pos hs]
        have h1 := VideoRTPSender.startCodeLen_bound h264Data i hs
        have h2 := VideoRTPSender.le_findNalEnd h264Data
          (i + VideoRTPSender.startCodeLen h264Data i) h1
        have h3 := findNalEnd_le h264Data (i + VideoRTPSender.startCodeLen h264Data i) h1
        apply ih (h264Data.length
          - VideoRTPSender.findNalEnd h264Data (i + VideoRTPSender.startCodeLen h264Data i))
          (by omega) _ _ _ rfl
        split
        · rename_i hgt
          intro n hn
          rcases List.mem_append.mp hn with hn | hn
          · exact hacc n hn
          · rw [List.mem_singleton] at hn
            intro hc
            have hl := congrArg List.length (hn.symm.trans hc)
            rw [List.length_take, List.length_drop, List.length_nil] at hl
            omega
        · exact hacc
      · rw [if_neg hs]
        split
        · intro n hn
          rcases List.mem_append.mp hn with hn | hn
          · exact hacc n hn
          · rw [List.mem_singleton] at hn
            intro hc
            rw [hn.symm.trans hc] at hi
            simp at hi
        · exact ih (h264Data.length - (i + 1)) (by omega) (i + 1) acc hacc rfl
    · rw [if_neg hi]
      exact hacc

theorem wireMarker_seal (A : AEAD) (key : Bytes) (ts ssrc : Nat) (p : RtpPacket)
    (hpt : p.payloadType < 128) :
    wireMarker (RtpPacket.seal A key ts ssrc p) = p.marker := by
  unfold wireMarker RtpPacket.seal
  rw [sealedPacket_getD_one]
  exact marker_bit _ hpt _

theorem withMarker_map_snd (ps : List Bytes) (p : Bytes) :
    (withMarker (ps ++ [p]) true).map Prod.snd = List.replicate ps.length false ++ [true] := by
  induction ps with
  | nil => rfl
  | cons q qs ih =>
    have hne : (qs ++ [p]).isEmpty = false := by
      cases qs <;> rfl
    show ((qs ++ [p]).isEmpty && true) :: (withMarker (qs ++ [p]) true).map Prod.snd = _
    rw [ih, hne]
    rfl

/-- The datagrams of `SendFrame` for a buffer with at least one parsed NAL unit: the sealed
packets of the payloads of the units, the marker passed to `SendRTPPacket` being set on the
last one only. -/
theorem SendFrame_packets (A : AEAD) (s : VideoRTPSender) (h264Data : Bytes) (ts : Nat)
    (hudp : s.m_udp = true)
    (hne : VideoRTPSender.parseNALUnits h264Data 0 [] ≠ []) :
    (VideoRTPSender.SendFrame A s h264Data ts).2
      = (planPackets s.m_payloadType s.m_sequence s.m_nonce
          (withMarker ((VideoRTPSender.parseNALUnits h264Data 0 []).flatMap nalPayloads)
            true)).map (RtpPacket.seal A s.m_secretKey ts s.m_videoSSRC) := by
  have hbuf : h264Data.length ≠ 0 := by
    intro hc
    rw [List.length_eq_zero.mp hc, parseNALUnits_nil] at hne
    exact hne rfl
  have hnonempty := parseNALUnits_nonempty h264Data 0 [] (by intro n hn; simp at hn)
  unfold VideoRTPSender.SendFrame
  simp only [hudp, hbuf, Bool.not_true, Bool.false_or, decide_False, Bool.false_eq_true,
    if_false]
  rw [VideoRTPSender.SendFrame_loop_eq A _ ts hnonempty s 0, sealAll_eq_map, List.drop_zero]

/-! ## Claim C11 -/

/-- C11. Marker bit policy: for every buffer given to `VideoRTPSender::SendFrame` (on a
sender with a socket and a 7-bit payload type) from which at least one NAL unit is parsed,
at least one datagram is emitted, the marker bit is set on the last datagram emitted and
on no other. -/
theorem C11_marker_bit_policy (A : AEAD) (s : VideoRTPSender) (h264Data : Bytes) (ts : Nat)
    (hudp : s.m_udp = true) (hpt : s.m_payloadType < 128)
    (hne : VideoRTPSender.parseNALUnits h264Data 0 [] ≠ []) :
    ∃ k, (VideoRTPSender.SendFrame A s h264Data ts).2.length = k + 1 ∧
      (VideoRTPSender.SendFrame A s h264Data ts).2.map wireMarker
        = List.replicate k false ++ [true] := by
  rw [SendFrame_packets A s h264Data ts hudp hne]
  have hnonempty := parseNALUnits_nonempty h264Data 0 [] (by intro n hn; simp at hn)
  have hpl : (VideoRTPSender.parseNALUnits h264Data 0 []).flatMap nalPayloads ≠ [] := by
    obtain ⟨n, ns, hn⟩ := List.exists_cons_of_ne_nil hne
    have hn0 : n ≠ [] := hnonempty n (by rw [hn]; exact List.mem_cons_self _ _)
    rw [hn, List.flatMap_cons]
    intro hc
    exact nalPayloads_ne_nil n hn0 (List.append_eq_nil.mp hc).1
  obtain ⟨init, last, hil⟩ : ∃ init last,
      (VideoRTPSender.parseNALUnits h264Data 0 []).flatMap nalPayloads = init ++ [last] :=
    ⟨_, _, (List.dropLast_append_getLast hpl).symm⟩
  rw [hil]
  refine ⟨init.length, ?_, ?_⟩
  · rw [List.length_map, ← List.length_map _ (fun p : RtpPacket => (p.payload, p.marker)),
      planPackets_map, withMarker_length]
    simp
  · have hm : ∀ pkts : List RtpPacket, (∀ p ∈ pkts, p.payloadType < 128) →
        (pkts.map (RtpPacket.seal A s.m_secretKey ts s.m_videoSSRC)).map wireMarker
          = (pkts.map (fun p => (p.payload, p.marker))).map Prod.snd := by
      intro pkts hp
      rw [List.map_map, List.map_map]
      apply List.map_congr_left
      intro p hpm
      exact wireMarker_seal A _ ts _ p (hp p hpm)
    rw [hm _ (fun p hp => by
        rw [(planPackets_fields _ _ _ _ p hp).1]; exact hpt),
      planPackets_map, withMarker_map_snd]

/-- C11 at a two-unit access unit on an initialised sender. -/
theorem C11_marker_bit_policy_witness :
    ∃ k, (VideoRTPSender.SendFrame toyAEAD
          (VideoRTPSender.Init VideoRTPSender.fresh true 8 (List.replicate 32 1))
          (buildAnnexB [(true, [0x67, 0x42]), (false, [0x65, 1, 2, 3])]) 90000).2.length
        = k + 1 ∧
      (VideoRTPSender.SendFrame toyAEAD
          (VideoRTPSender.Init VideoRTPSender.fresh true 8 (List.replicate 32 1))
          (buildAnnexB [(true, [0x67, 0x42]), (false, [0x65, 1, 2, 3])]) 90000).2.map wireMarker
        = List.replicate k false ++ [true] := by
  have hparse : VideoRTPSender.parseNALUnits
      (buildAnnexB [(true, [0x67, 0x42]), (false, [0x65, 1, 2, 3])]) 0 []
      = [[0x67, 0x42], [0x65, 1, 2, 3]] :=
    parseNALUnits_build [(true, [0x67, 0x42]), (false, [0x65, 1, 2, 3])]
      (by
        intro it hit
        simp only [List.mem_cons, List.mem_singleton, List.not_mem_nil, or_false] at hit
        rcases hit with rfl | rfl <;> exact ⟨by decide, by decide, by decide⟩)
      [] []
  exact C11_marker_bit_policy toyAEAD
    (VideoRTPSender.Init VideoRTPSender.fresh true 8 (List.replicate 32 1))
    (buildAnnexB [(true, [0x67, 0x42]), (false, [0x65, 1, 2, 3])]) 90000
    rfl (by decide) (by rw [hparse]; decide)

/-! ## The voice gateway client: data

`dv::VoiceClient` (voice/src/voice_client.cpp) with the parts of `dv::UDPSocket` and
`dv::AudioEngine` it drives.  The client is a state value; the calls it makes on the
WebSocket, the datagrams it hands to `UDPSocket::Send` and the invocations of the speaking
callback are traces in that value.  A gateway message is the decoded JSON document.
`std::unordered_map` is a function into `Option`.  `Log` and the state callback write no
client data and are left out; so are the bodies of the heartbeat and keepalive threads, which
only send.  Assigning a new `std::thread` to a member that is still joinable calls
`std::terminate`; the model goes on with the member joinable. -/

/-- The enumeration `dv::VoiceState` (voice_types.h). -/
inductive VoiceState
  | Disconnected
  | Connecting
  | Establishing
  | Connected
deriving Repr, DecidableEq

/-- The structure `dv::VoiceServerInfo` (voice_types.h). -/
structure VoiceServerInfo where
  endpoint : String := ""
  token : String := ""
  session_id : String := ""
  server_id : Nat := 0
  user_id : Nat := 0
  video : Bool := false
deriving Repr, DecidableEq

/-- The structure `dv::SpeakingInfo` (voice_types.h); `speaking` is the flag word. -/
structure SpeakingInfo where
  user_id : Nat := 0
  ssrc : Nat := 0
  speaking : Nat := 0
deriving Repr, DecidableEq

/-- A `float` volume, named by its IEEE-754 bit pattern.  Volumes are only stored, copied and
widened to `double` (which is exact); no arithmetic is done on them here. -/
abbrev Volume := Nat

/-- The volume `1.0f`. -/
def unitVolume : Volume := 0x3F800000

/-- A JSON document the client passes to `SendJson`, by the fields the code sets.
`Identify` carries the two snowflakes that the code renders with `std::to_string`;
`SelectProtocol` carries the address as the bytes of the C string (its `protocol` field is
the constant `"udp"`). -/
inductive GatewayCommand
  | Identify (server_id user_id : Nat) (session_id token : String) (video : Bool)
  | SelectProtocol (address : Bytes) (port : Nat) (mode : String)
  | Speaking (speaking delay ssrc : Nat)
deriving Repr, DecidableEq

/-- A call on the `IVoiceWebSocket` the client holds. -/
inductive WsCall
  | Connect (url : String)
  | Close (code : Nat)
  | Send (json : GatewayCommand)
deriving Repr, DecidableEq

/-- A text frame passed to `VoiceClient::OnWebSocketMessage`, after `json::parse` and the
`at(...).get<T>()` conversions of the handler it is dispatched to.  `malformed` is a frame on
which parsing or a conversion throws before the handler has written anything.  In `Ready` the
fields are read one at a time into data members, so every field after `ip` may be missing:
`none` is a field whose `at(...).get<T>()` throws. -/
inductive GatewayMessage
  | Hello (heartbeat_interval : Int)
  | Ready (ip : String) (port : Option Nat) (ssrc : Option Nat) (modes : Option (List String))
  | SessionDescription (mode : String) (secret_key : Bytes)
  | Speaking (user_id ssrc speaking : Nat)
  | HeartbeatAck
  | other (op : Int)
  | malformed
deriving Repr, DecidableEq

/-! ### The audio engine -/

/-- The structure `AudioEngine::SSRCSource`: the decoder (present by construction) and the
PCM FIFO. -/
structure SSRCSource where
  buffer : List Int := []
deriving Repr, DecidableEq

/-- The data members of `dv::AudioEngine` that the voice client and the device callbacks
touch.  `m_capture_ptr` and `m_playback_ptr` record whether the device exists,
`captureStarted` and `playbackStarted` the state of the device, `m_encoder` whether the Opus
encoder exists; `decoderCreateOk` and `captureStartOk` are the outcomes of
`opus_decoder_create` and `ma_device_start`.  Gains are named as in `Volume`; the capture
gate is a finite `double`, taken as the rational it denotes; `m_capture_peak_meter` is the
`std::atomic<int>`.  `fedPackets` is the trace of the calls of `FeedMeOpus`. -/
structure AudioEngine where
  m_capture_ptr : Bool := true
  captureStarted : Bool := false
  captureStartOk : Bool := true
  decoderCreateOk : Bool := true
  m_sources : Nat → Option SSRCSource := fun _ => none
  m_muted_ssrcs : Nat → Bool := fun _ => false
  m_volume_ssrc : Nat → Option Volume := fun _ => none
  m_playback_ptr : Bool := true
  playbackStarted : Bool := true
  m_playback_enabled : Bool := true
  m_playback_gain : Volume := unitVolume
  m_encoder : Bool := true
  m_capture_enabled : Bool := true
  m_capture_gate : ℚ := 0
  m_capture_peak_meter : Int := 0
  fedPackets : List (Nat × Bytes) := []

namespace AudioEngine

/-- Member function `AudioEngine::StartCapture`. -/
def StartCapture (e : AudioEngine) : AudioEngine :=
  if e.m_capture_ptr then
    if !e.captureStarted then
      if e.captureStartOk then { e with captureStarted := true } else e
    else e
  else e

/-- Member function `AudioEngine::StopCapture`. -/
def StopCapture (e : AudioEngine) : AudioEngine :=
  if e.m_capture_ptr then { e with captureStarted := false } else e

/-- Member function `AudioEngine::AddSSRC`. -/
def AddSSRC (e : AudioEngine) (ssrc : Nat) : AudioEngine :=
  if (e.m_sources ssrc).isNone then
    if !e.decoderCreateOk then e
    else { e with m_sources := fun k => if k = ssrc then some {} else e.m_sources k }
  else e

/-- Member function `AudioEngine::RemoveSSRC`. -/
def RemoveSSRC (e : AudioEngine) (ssrc : Nat) : AudioEngine :=
  if (e.m_sources ssrc).isSome then
    { e with m_sources := fun k => if k = ssrc then none else e.m_sources k }
  else e

/-- Member function `AudioEngine::RemoveAllSSRCs`. -/
def RemoveAllSSRCs (e : AudioEngine) : AudioEngine :=
  { e with m_sources := fun _ => none }

/-- Member function `AudioEngine::SetVolumeSSRC`. -/
def SetVolumeSSRC (e : AudioEngine) (ssrc : Nat) (volume : Volume) : AudioEngine :=
  { e with m_volume_ssrc := fun k => if k = ssrc then some volume else e.m_volume_ssrc k }

/-- Member function `AudioEngine::GetVolumeSSRC`. -/
def GetVolumeSSRC (e : AudioEngine) (ssrc : Nat) : Volume :=
  match e.m_volume_ssrc ssrc with
  | some v => v
  | none => unitVolume

end AudioEngine

/-! ### The transport state of the UDP socket -/

namespace UDPSocket

/-- Member function `UDPSocket::Connect`, with `socket()` succeeding. -/
def Connect (s : UDPSocket) (ip : String) (port : Nat) : UDPSocket :=
  { s with m_server := (ip, port), m_socket := true }

/-- Member function `UDPSocket::Run`. -/
def Run (s : UDPSocket) : UDPSocket :=
  { s with m_running := true, m_thread := true }

/-- Member function `UDPSocket::Stop`. -/
def Stop (s : UDPSocket) : UDPSocket :=
  { s with m_running := false, m_socket := false, m_thread := false }

/-- Member function `UDPSocket::SetSecretKey`. -/
def SetSecretKey (s : UDPSocket) (key : Bytes) : UDPSocket :=
  { s with m_secret_key := key }

/-- Member function `UDPSocket::SetSSRC`. -/
def SetSSRC (s : UDPSocket) (ssrc : Nat) : UDPSocket :=
  { s with m_ssrc := ssrc }

end UDPSocket

/-! ### The client -/

/-- The data members of `dv::VoiceClient` (voice_client.h), with the values the constructor
gives them as defaults.  `m_ws` records whether a WebSocket is set, `m_audio` holds the
engine the pointer refers to, the two thread members record whether the thread is joinable
and `m_speaking_callback` whether the callback is set.  Four traces follow: the calls made on
the WebSocket, the datagrams handed to `UDPSocket::Send`, the number of calls of
`UDPSocket::Receive`, and the arguments of the speaking-callback invocations. -/
structure VoiceClient where
  m_info : VoiceServerInfo := {}
  m_ws : Bool := false
  m_udp : UDPSocket :=
    { m_secret_key := List.replicate 32 0, m_ssrc := 0, m_sequence := 0, m_nonce := 0 }
  m_audio : Option AudioEngine := none
  m_state : VoiceState := VoiceState.Disconnected
  m_ssrc_map : Nat → Option Nat := fun _ => none
  m_user_volumes : Nat → Option Volume := fun _ => none
  m_secret_key : Bytes := List.replicate 32 0
  m_ssrc : Nat := 0
  m_server_ip : String := ""
  m_server_port : Nat := 0
  m_heartbeat_msec : Int := 0
  m_heartbeat_running : Bool := false
  m_heartbeat_thread : Bool := false
  m_keepalive_thread : Bool := false
  m_speaking_callback : Bool := false
  wsCalls : List WsCall := []
  udpSent : List Bytes := []
  udpReceived : Nat := 0
  speakingEvents : List SpeakingInfo := []

namespace VoiceClient

/-- Member function `VoiceClient::SetWebSocket` with a non-null socket. -/
def SetWebSocket (c : VoiceClient) : VoiceClient :=
  { c with m_ws := true }

/-- Member function `VoiceClient::SetServerInfo`. -/
def SetServerInfo (c : VoiceClient) (info : VoiceServerInfo) : VoiceClient :=
  { c with m_info := info }

/-- Member function `VoiceClient::SetAudioEngine` with a non-null engine. -/
def SetAudioEngine (c : VoiceClient) (engine : AudioEngine) : VoiceClient :=
  { c with m_audio := some engine }

/-- Member function `VoiceClient::SetSpeakingCallback` with a non-empty callback. -/
def SetSpeakingCallback (c : VoiceClient) : VoiceClient :=
  { c with m_speaking_callback := true }

/-- Member function `VoiceClient::SetState`. -/
def SetState (c : VoiceClient) (state : VoiceState) : VoiceClient :=
  { c with m_state := state }

/-- Member function `VoiceClient::IsConnected`. -/
def IsConnected (c : VoiceClient) : Bool :=
  c.m_state == VoiceState.Connected

/-- Member function `VoiceClient::IsConnecting`. -/
def IsConnecting (c : VoiceClient) : Bool :=
  c.m_state == VoiceState.Connecting || c.m_state == VoiceState.Establishing

/-- Member function `VoiceClient::GetState`. -/
def GetState (c : VoiceClient) : VoiceState :=
  c.m_state

/-- Member function `VoiceClient::SendJson`. -/
def SendJson (c : VoiceClient) (json : GatewayCommand) : VoiceClient :=
  if c.m_ws then { c with wsCalls := c.wsCalls ++ [WsCall.Send json] } else c

/-- Member function `VoiceClient::Stop`. -/
def Stop (c : VoiceClient) : VoiceClient :=
  if !c.IsConnected && !c.IsConnecting then c
  else
    let c := c.SetState VoiceState.Disconnected
    let c := if c.m_ws then { c with wsCalls := c.wsCalls ++ [WsCall.Close 4014] } else c
    let c := { c with m_udp := c.m_udp.Stop }
    let c := { c with m_heartbeat_running := false }
    let c := { c with m_heartbeat_thread := false }
    let c := { c with m_keepalive_thread := false }
    let c := { c with m_ssrc_map := fun _ => none }
    match c.m_audio with
    | some e => { c with m_audio := some e.StopCapture.RemoveAllSSRCs }
    | none => c

/-- Member function `VoiceClient::Start`. -/
def Start (c : VoiceClient) : VoiceClient :=
  let c := if c.IsConnected || c.IsConnecting then c.Stop else c
  if !c.m_ws then c
  else if c.m_audio.isNone then c
  else
    let c := c.SetState VoiceState.Connecting
    let c := { c with m_ssrc_map := fun _ => none }
    let c := { c with m_heartbeat_running := true }
    let url := "wss://" ++ c.m_info.endpoint ++ "/?v=7"
    { c with wsCalls := c.wsCalls ++ [WsCall.Connect url] }

/-- Member function `VoiceClient::SetUserVolume`. -/
def SetUserVolume (c : VoiceClient) (user_id : Nat) (volume : Volume) : VoiceClient :=
  let c := { c with m_user_volumes :=
    fun u => if u = user_id then some volume else c.m_user_volumes u }
  match c.m_ssrc_map user_id with
  | some ssrc =>
    match c.m_audio with
    | some e => { c with m_audio := some (e.SetVolumeSSRC ssrc volume) }
    | none => c
  | none => c

/-- Member function `VoiceClient::GetUserVolume`. -/
def GetUserVolume (c : VoiceClient) (user_id : Nat) : Volume :=
  match c.m_user_volumes user_id with
  | some v => v
  | none => unitVolume

/-- Member function `VoiceClient::GetSSRCOfUser`. -/
def GetSSRCOfUser (c : VoiceClient) (user_id : Nat) : Option Nat :=
  match c.m_ssrc_map user_id with
  | some ssrc => some ssrc
  | none => none

/-- Member function `VoiceClient::OnWebSocketOpen`. -/
def OnWebSocketOpen (c : VoiceClient) : VoiceClient :=
  c.SetState VoiceState.Establishing

/-- Member function `VoiceClient::OnWebSocketClose`. -/
def OnWebSocketClose (c : VoiceClient) (_code : Nat) (_reason : String) : VoiceClient :=
  if c.m_state != VoiceState.Disconnected then c.SetState VoiceState.Disconnected else c

/-- Member function `VoiceClient::SendIdentify`. -/
def SendIdentify (c : VoiceClient) : VoiceClient :=
  c.SendJson (GatewayCommand.Identify c.m_info.server_id c.m_info.user_id c.m_info.session_id
    c.m_info.token c.m_info.video)

/-- Member function `VoiceClient::SendSelectProtocol`. -/
def SendSelectProtocol (c : VoiceClient) (ip : Bytes) (port : Nat) : VoiceClient :=
  c.SendJson (GatewayCommand.SelectProtocol ip port "aead_xchacha20_poly1305_rtpsize")

/-- Member function `VoiceClient::SendSpeaking`. -/
def SendSpeaking (c : VoiceClient) (flags : Nat) : VoiceClient :=
  c.SendJson (GatewayCommand.Speaking flags 0 c.m_ssrc)

/-- The 74-byte request that `VoiceClient::DoIPDiscovery` builds. -/
def discoveryRequest (m_ssrc : Nat) : Bytes :=
  let payload : Bytes := List.replicate 74 0
  let payload := payload.set 0 0x00
  let payload := payload.set 1 0x01
  let payload := payload.set 2 0x00
  let payload := payload.set 3 0x46
  let payload := payload.set 4 ((m_ssrc >>> 24) &&& 0xFF)
  let payload := payload.set 5 ((m_ssrc >>> 16) &&& 0xFF)
  let payload := payload.set 6 ((m_ssrc >>> 8) &&& 0xFF)
  let payload := payload.set 7 ((m_ssrc >>> 0) &&& 0xFF)
  payload

/-- The constant `MAX_TRIES` of `VoiceClient::DoIPDiscovery`. -/
def MAX_TRIES : Nat := 100

/-- The `for (int i = 1; i <= MAX_TRIES; i++)` loop of `VoiceClient::DoIPDiscovery`, entered
with loop variable `i` and `left = MAX_TRIES + 1 - i` iterations still to run.  The call of
`UDPSocket::Receive` in iteration `i` returns `responses (i - 1)`.  The C string at offset 8 is
read up to its NUL (or to the end of the datagram; the code would read on past it). -/
def DoIPDiscovery_loop (responses : Nat → Bytes) : Nat → Nat → VoiceClient → VoiceClient
  | _, 0, c => c
  | i, left + 1, c =>
    let response := responses (i - 1)
    let c := { c with udpReceived := c.udpReceived + 1 }
    if response.length ≥ 74 && response.getD 0 0 == 0x00 && response.getD 1 0 == 0x02 then
      let ip := (response.drop 8).takeWhile (fun b => b != 0)
      let port := ((response.getD 72 0 <<< 8) ||| response.getD 73 0) % 2 ^ 16
      c.SendSelectProtocol ip port
    else
      DoIPDiscovery_loop responses (i + 1) left c

/-- Member function `VoiceClient::DoIPDiscovery`; `responses` lists what the successive calls
of `UDPSocket::Receive` return. -/
def DoIPDiscovery (c : VoiceClient) (responses : Nat → Bytes) : VoiceClient :=
  let payload := discoveryRequest c.m_ssrc
  let c := { c with udpSent := c.udpSent ++ [payload] }
  DoIPDiscovery_loop responses 1 MAX_TRIES c

/-- Member function `VoiceClient::HandleHello`. -/
def HandleHello (c : VoiceClient) (heartbeat_interval : Int) : VoiceClient :=
  let c := { c with m_heartbeat_msec := heartbeat_interval }
  let c := { c with m_heartbeat_thread := true }
  c.SendIdentify

/-- Member function `VoiceClient::HandleReady`.  A field that is `none` throws when it is
read, which leaves the members written so far and ends the handler. -/
def HandleReady (c : VoiceClient) (ip : String) (port ssrc : Option Nat)
    (modes : Option (List String)) (responses : Nat → Bytes) : VoiceClient :=
  let c := { c with m_server_ip := ip }
  match port with
  | none => c
  | some port =>
    let c := { c with m_server_port := port }
    match ssrc with
    | none => c
    | some ssrc =>
      let c := { c with m_ssrc := ssrc }
      match modes with
      | none => c
      | some _ =>
        let c := { c with m_udp := c.m_udp.Connect c.m_server_ip c.m_server_port }
        let c := { c with m_keepalive_thread := true }
        c.DoIPDiscovery responses

/-- Member function `VoiceClient::HandleSessionDescription`. -/
def HandleSessionDescription (A : AEAD) (c : VoiceClient) (_mode : String) (key : Bytes) :
    VoiceClient :=
  if key.length != 32 then c
  else
    let c := { c with m_secret_key := memcpy c.m_secret_key 0 key }
    let c := { c with m_udp := c.m_udp.SetSSRC c.m_ssrc }
    let c := { c with m_udp := c.m_udp.SetSecretKey c.m_secret_key }
    let c := c.SendSpeaking 1
    let silence : Bytes := [0xF8, 0xFF, 0xFE]
    let r := c.m_udp.SendEncrypted A silence 0
    let c := { c with m_udp := r.1, udpSent := c.udpSent ++ [r.2] }
    let c := { c with m_udp := c.m_udp.Run }
    let c := match c.m_audio with
      | some e => { c with m_audio := some e.StartCapture }
      | none => c
    c.SetState VoiceState.Connected

/-- Member function `VoiceClient::HandleSpeaking`. -/
def HandleSpeaking (c : VoiceClient) (user_id ssrc speaking : Nat) : VoiceClient :=
  let info : SpeakingInfo := { user_id := user_id, ssrc := ssrc, speaking := speaking }
  let c := match c.m_user_volumes info.user_id with
    | some vol =>
      if (c.m_ssrc_map info.user_id).isNone then
        match c.m_audio with
        | some e => { c with m_audio := some (e.SetVolumeSSRC info.ssrc vol) }
        | none => c
      else c
    | none => c
  let c := { c with m_ssrc_map :=
    fun u => if u = info.user_id then some info.ssrc else c.m_ssrc_map u }
  let c := match c.m_audio with
    | some e => { c with m_audio := some (e.AddSSRC info.ssrc) }
    | none => c
  if c.m_speaking_callback then { c with speakingEvents := c.speakingEvents ++ [info] } else c

/-- Member function `VoiceClient::OnWebSocketMessage`; `responses` lists what the calls of
`UDPSocket::Receive` made while the message is handled return. -/
def OnWebSocketMessage (A : AEAD) (c : VoiceClient) (msg : GatewayMessage)
    (responses : Nat → Bytes) : VoiceClient :=
  match msg with
  | GatewayMessage.Hello heartbeat_interval => c.HandleHello heartbeat_interval
  | GatewayMessage.Ready ip port ssrc modes => c.HandleReady ip port ssrc modes responses
  | GatewayMessage.SessionDescription mode key => HandleSessionDescription A c mode key
  | GatewayMessage.Speaking user_id ssrc speaking => c.HandleSpeaking user_id ssrc speaking
  | GatewayMessage.HeartbeatAck => c
  | GatewayMessage.other _ => c
  | GatewayMessage.malformed => c

/-- Member function `VoiceClient::SendOpusPacket`; `ts` is what
`AudioEngine::GetRTPTimestamp` returns. -/
def SendOpusPacket (A : AEAD) (c : VoiceClient) (data : Bytes) (ts : Nat) : VoiceClient :=
  if !c.IsConnected || c.m_audio.isNone then c
  else
    let r := c.m_udp.SendEncrypted A data ts
    { c with m_udp := r.1, udpSent := c.udpSent ++ [r.2] }

end VoiceClient

/-- An event the WebSocket delivers to the client through the callbacks that
`VoiceClient::SetWebSocket` installs. -/
inductive WsEvent
  | open_
  | close (code : Nat) (reason : String)
  | message (msg : GatewayMessage) (responses : Nat → Bytes)

/-- The client after the WebSocket has delivered one event. -/
def VoiceClient.deliver (A : AEAD) (c : VoiceClient) : WsEvent → VoiceClient
  | WsEvent.open_ => c.OnWebSocketOpen
  | WsEvent.close code reason => c.OnWebSocketClose code reason
  | WsEvent.message msg responses => VoiceClient.OnWebSocketMessage A c msg responses

/-- The client after the WebSocket has delivered the events of a list, in order. -/
def VoiceClient.deliverAll (A : AEAD) (c : VoiceClient) (es : List WsEvent) : VoiceClient :=
  es.foldl (VoiceClient.deliver A) c

/-- A step of the program that owns the client: a call of `Start`, a call of `Stop`, or an
event of the WebSocket. -/
inductive ClientStep
  | start
  | stop
  | event (e : WsEvent)

/-- The client after one step. -/
def VoiceClient.step (A : AEAD) (c : VoiceClient) : ClientStep → VoiceClient
  | ClientStep.start => c.Start
  | ClientStep.stop => c.Stop
  | ClientStep.event e => c.deliver A e

/-- The client after the steps of a list, in order. -/
def VoiceClient.run (A : AEAD) (c : VoiceClient) (steps : List ClientStep) : VoiceClient :=
  steps.foldl (VoiceClient.step A) c

/-! ## The voice gateway client: frame lemmas -/

/-- The discovery loop writes only the two traces `udpReceived` and `wsCalls`. -/
theorem DoIPDiscovery_loop_frame (responses : Nat → Bytes) (left i : Nat) (c : VoiceClient) :
    ∃ n calls, VoiceClient.DoIPDiscovery_loop responses i left c
      = { c with udpReceived := n, wsCalls := calls } := by
  induction left generalizing i c with
  | zero => exact ⟨c.udpReceived, c.wsCalls, rfl⟩
  | succ left ih =>
    rw [VoiceClient.DoIPDiscovery_loop]
    split
    · simp only [VoiceClient.SendSelectProtocol, VoiceClient.SendJson]
      split
      · exact ⟨_, _, rfl⟩
      · exact ⟨_, _, rfl⟩
    · obtain ⟨n, calls, h⟩ := ih (i + 1) { c with udpReceived := c.udpReceived + 1 }
      exact ⟨n, calls, h⟩

/-- `DoIPDiscovery` writes only the three traces. -/
theorem DoIPDiscovery_frame (c : VoiceClient) (responses : Nat → Bytes) :
    ∃ n calls, c.DoIPDiscovery responses
      = { c with udpSent := c.udpSent ++ [VoiceClient.discoveryRequest c.m_ssrc],
                 udpReceived := n, wsCalls := calls } := by
  obtain ⟨n, calls, h⟩ := DoIPDiscovery_loop_frame responses VoiceClient.MAX_TRIES 1
    { c with udpSent := c.udpSent ++ [VoiceClient.discoveryRequest c.m_ssrc] }
  exact ⟨n, calls, h⟩

/-- `HandleReady` keeps the state. -/
theorem HandleReady_state (c : VoiceClient) (ip : String) (port ssrc : Option Nat)
    (modes : Option (List String)) (responses : Nat → Bytes) :
    (c.HandleReady ip port ssrc modes responses).m_state = c.m_state := by
  unfold VoiceClient.HandleReady
  cases port <;> cases ssrc <;> cases modes <;> try rfl
  simp only
  obtain ⟨n, calls, h⟩ := DoIPDiscovery_frame _ responses
  rw [h]

/-- `HandleHello` keeps the state. -/
theorem HandleHello_state (c : VoiceClient) (t : Int) :
    (c.HandleHello t).m_state = c.m_state := by
  simp only [VoiceClient.HandleHello, VoiceClient.SendIdentify, VoiceClient.SendJson]
  split <;> rfl

/-- `HandleSpeaking` keeps the state. -/
theorem HandleSpeaking_state (c : VoiceClient) (u s f : Nat) :
    (c.HandleSpeaking u s f).m_state = c.m_state := by
  simp only [VoiceClient.HandleSpeaking]
  repeat' split
  all_goals rfl

/-- After `Stop` the state is `Disconnected`. -/
theorem Stop_state (c : VoiceClient) : c.Stop.m_state = VoiceState.Disconnected := by
  unfold VoiceClient.Stop
  split
  · rename_i h
    simp only [VoiceClient.IsConnected, VoiceClient.IsConnecting, Bool.and_eq_true,
      Bool.not_eq_true', Bool.or_eq_false_iff, beq_eq_false_iff_ne, ne_eq] at h
    cases hs : c.m_state
    · rfl
    · exact absurd hs h.2.1
    · exact absurd hs h.2.2
    · exact absurd hs h.1
  · simp only [VoiceClient.SetState]
    repeat' split
    all_goals rfl

/-- A client just started is `Connecting` or `Disconnected`, never `Connected`. -/
theorem Start_state_ne_connected (c : VoiceClient) :
    c.Start.m_state ≠ VoiceState.Connected := by
  have key : ∀ d : VoiceClient, d.m_state ≠ VoiceState.Connected →
      (if (!d.m_ws) = true then d
       else if d.m_audio.isNone = true then d
       else
        let c := d.SetState VoiceState.Connecting
        let c := { c with m_ssrc_map := fun _ => none }
        let c := { c with m_heartbeat_running := true }
        let url := "wss://" ++ c.m_info.endpoint ++ "/?v=7"
        { c with wsCalls := c.wsCalls ++ [WsCall.Connect url] }).m_state
        ≠ VoiceState.Connected := by
    intro d hd
    split
    · exact hd
    · split
      · exact hd
      · simp [VoiceClient.SetState]
  unfold VoiceClient.Start
  by_cases h : (c.IsConnected || c.IsConnecting) = true
  · simp only [h, if_true]
    exact key _ (by rw [Stop_state]; decide)
  · simp only [h, if_false]
    refine key _ ?_
    intro hs
    apply h
    simp only [Bool.false_eq_true, if_false] at hs
    simp [VoiceClient.IsConnected, hs]

/-- Whether an event is a `SessionDescription` message with a 32-element key. -/
def WsEvent.installsKey : WsEvent → Bool
  | WsEvent.message (GatewayMessage.SessionDescription _ key) _ => key.length == 32
  | _ => false

/-- Whether an event is a message (not an open or close). -/
def WsEvent.isMessage : WsEvent → Bool
  | WsEvent.message _ _ => true
  | _ => false

/-- `HandleSessionDescription` with a 32-element key ends in state `Connected`. -/
theorem HandleSessionDescription_state (A : AEAD) (c : VoiceClient) (mode : String) (key : Bytes)
    (h : key.length = 32) :
    (VoiceClient.HandleSessionDescription A c mode key).m_state = VoiceState.Connected := by
  simp only [VoiceClient.HandleSessionDescription, h, bne_self_eq_false, Bool.false_eq_true,
    if_false, VoiceClient.SetState]

/-- The state after one event: an event that is not a key-installing `SessionDescription`
either keeps the state (a message) or leaves a state other than `Connected` (open, close). -/
theorem deliver_state (A : AEAD) (c : VoiceClient) (e : WsEvent)
    (h : (c.deliver A e).m_state = VoiceState.Connected) :
    e.installsKey = true ∨ (e.isMessage = true ∧ c.m_state = VoiceState.Connected) := by
  cases e with
  | open_ => simp [VoiceClient.deliver, VoiceClient.OnWebSocketOpen, VoiceClient.SetState] at h
  | close code reason =>
    simp only [VoiceClient.deliver, VoiceClient.OnWebSocketClose, VoiceClient.SetState] at h
    split at h
    · simp at h
    · rename_i hd
      simp only [bne_iff_ne, ne_eq, not_not] at hd
      rw [hd] at h
      exact absurd h (by decide)
  | message msg responses =>
    cases msg with
    | Hello t =>
      right
      simpa [VoiceClient.deliver, VoiceClient.OnWebSocketMessage, HandleHello_state,
        WsEvent.isMessage] using h
    | Ready ip port ssrc modes =>
      right
      simpa [VoiceClient.deliver, VoiceClient.OnWebSocketMessage, HandleReady_state,
        WsEvent.isMessage] using h
    | SessionDescription mode key =>
      by_cases hk : key.length = 32
      · left
        simp [WsEvent.installsKey, hk]
      · right
        simpa [VoiceClient.deliver, VoiceClient.OnWebSocketMessage,
          VoiceClient.HandleSessionDescription, hk, WsEvent.isMessage] using h
    | Speaking u s f =>
      right
      simpa [VoiceClient.deliver, VoiceClient.OnWebSocketMessage, HandleSpeaking_state,
        WsEvent.isMessage] using h
    | HeartbeatAck =>
      right
      simpa [VoiceClient.deliver, VoiceClient.OnWebSocketMessage, WsEvent.isMessage] using h
    | other op =>
      right
      simpa [VoiceClient.deliver, VoiceClient.OnWebSocketMessage, WsEvent.isMessage] using h
    | malformed =>
      right
      simpa [VoiceClient.deliver, VoiceClient.OnWebSocketMessage, WsEvent.isMessage] using h

/-- A run of events that ends in `Connected` from another state contains a key-installing
`SessionDescription` followed by messages only. -/
theorem deliverAll_connected (A : AEAD) (es : List WsEvent) (c : VoiceClient)
    (h0 : c.m_state ≠ VoiceState.Connected)
    (h : (VoiceClient.deliverAll A c es).m_state = VoiceState.Connected) :
    ∃ es1 e es2, es = es1 ++ e :: es2 ∧ e.installsKey = true ∧
      ∀ x ∈ es2, x.isMessage = true := by
  induction es using List.reverseRecOn with
  | nil => exact absurd h h0
  | append_singleton es e ih =>
    have hstep : VoiceClient.deliverAll A c (es ++ [e])
        = (VoiceClient.deliverAll A c es).deliver A e := by
      simp [VoiceClient.deliverAll, List.foldl_append]
    rw [hstep] at h
    rcases deliver_state A _ e h with hk | ⟨hm, hc⟩
    · exact ⟨es, e, [], rfl, hk, by simp⟩
    · obtain ⟨es1, e1, es2, heq, hk, hall⟩ := ih hc
      refine ⟨es1, e1, es2 ++ [e], by simp [heq], hk, ?_⟩
      intro x hx
      rcases List.mem_append.1 hx with hx | hx
      · exact hall x hx
      · simp only [List.mem_singleton] at hx
        rw [hx]; exact hm

/-! ## Example session -/

/-- A socket that returns an empty vector on every `Receive` (the `recvfrom` error value). -/
def noResponse : Nat → Bytes := fun _ => []

/-- A discovery response: type 2, length 70, SSRC 7, address `1.2.3.4`, port 50000. -/
def discoveryReply : Bytes :=
  [0, 2, 0, 70, 0, 0, 0, 7, 49, 46, 50, 46, 51, 46, 52] ++ List.replicate 57 0 ++ [0xC3, 0x50]

/-- A client with a WebSocket, an audio engine, a speaking callback and server information. -/
def exampleClient : VoiceClient :=
  ((((({} : VoiceClient).SetWebSocket).SetAudioEngine {}).SetSpeakingCallback).SetServerInfo
    { endpoint := "eu.example:443", token := "t", session_id := "s", server_id := 10,
      user_id := 5 })

/-- The events of a handshake: open, `Hello`, `Ready` (with a discovery response on the first
`Receive`), `SessionDescription` with a 32-element key. -/
def handshake : List WsEvent :=
  [WsEvent.open_,
   WsEvent.message (GatewayMessage.Hello 41250) noResponse,
   WsEvent.message (GatewayMessage.Ready "10.0.0.1" (some 50000) (some 7)
     (some ["aead_xchacha20_poly1305_rtpsize"])) (fun _ => discoveryReply),
   WsEvent.message (GatewayMessage.SessionDescription "aead_xchacha20_poly1305_rtpsize"
     (List.replicate 32 1)) noResponse]

/-! ## Claim C12: handshake ordering -/

/-- Whether an event is a `Hello` message. -/
def WsEvent.isHello : WsEvent → Bool
  | WsEvent.message (GatewayMessage.Hello _) _ => true
  | _ => false

/-- Whether an event is a `Ready` message. -/
def WsEvent.isReady : WsEvent → Bool
  | WsEvent.message (GatewayMessage.Ready _ _ _ _) _ => true
  | _ => false

/-- Whether an event is a `SessionDescription` message. -/
def WsEvent.isSessionDescription : WsEvent → Bool
  | WsEvent.message (GatewayMessage.SessionDescription _ _) _ => true
  | _ => false

/-- The events after the first one that satisfies `p`, if there is one. -/
def afterFirst (p : WsEvent → Bool) : List WsEvent → Option (List WsEvent)
  | [] => none
  | e :: es => if p e then some es else afterFirst p es

/-- The ordering condition as the specification words it: the events contain a `Hello`, after
it a `Ready`, and after that a `SessionDescription`. -/
def handshakeInOrder (es : List WsEvent) : Bool :=
  match afterFirst WsEvent.isHello es with
  | none => false
  | some es1 =>
    match afterFirst WsEvent.isReady es1 with
    | none => false
    | some es2 => es2.any WsEvent.isSessionDescription

/-- Claim C12 as stated fails: a started client that receives nothing but a
`SessionDescription` with a 32-element key is `Connected`, although no `Hello` and no `Ready`
was received and neither `Identify` nor `SelectProtocol` was sent. -/
theorem C12_counterexample :
    (VoiceClient.deliverAll toyAEAD exampleClient.Start
      [WsEvent.message (GatewayMessage.SessionDescription "aead_xchacha20_poly1305_rtpsize"
        (List.replicate 32 1)) noResponse]).m_state = VoiceState.Connected ∧
    handshakeInOrder
      [WsEvent.message (GatewayMessage.SessionDescription "aead_xchacha20_poly1305_rtpsize"
        (List.replicate 32 1)) noResponse] = false ∧
    (VoiceClient.deliverAll toyAEAD exampleClient.Start
      [WsEvent.message (GatewayMessage.SessionDescription "aead_xchacha20_poly1305_rtpsize"
        (List.replicate 32 1)) noResponse]).wsCalls
      = [WsCall.Connect "wss://eu.example:443/?v=7",
         WsCall.Send (GatewayCommand.Speaking 1 0 0)] := by
  refine ⟨by decide, by decide, by decide⟩

/-- Claim C12 (amended): for every sequence of WebSocket events delivered to a client after
`Start()`, if the state is `Connected` at the end, then the sequence contains a
`SessionDescription` message with a 32-element secret key, and every event after that message
is a message (no open and no close follows it).  `Hello` and `Ready` need not come first. -/
theorem C12_connected_only_after_session_description (A : AEAD) (c : VoiceClient)
    (es : List WsEvent)
    (h : (VoiceClient.deliverAll A c.Start es).m_state = VoiceState.Connected) :
    ∃ es1 mode key responses es2,
      es = es1 ++ WsEvent.message (GatewayMessage.SessionDescription mode key) responses :: es2 ∧
      key.length = 32 ∧ ∀ x ∈ es2, x.isMessage = true := by
  obtain ⟨es1, e, es2, heq, hk, hall⟩ :=
    deliverAll_connected A es c.Start (Start_state_ne_connected c) h
  cases e with
  | open_ => exact absurd hk (by simp [WsEvent.installsKey])
  | close code reason => exact absurd hk (by simp [WsEvent.installsKey])
  | message msg responses =>
    cases msg with
    | SessionDescription mode key =>
      refine ⟨es1, mode, key, responses, es2, heq, ?_, hall⟩
      simpa [WsEvent.installsKey] using hk
    | Hello t => exact absurd hk (by simp [WsEvent.installsKey])
    | Ready ip port ssrc modes => exact absurd hk (by simp [WsEvent.installsKey])
    | Speaking u s f => exact absurd hk (by simp [WsEvent.installsKey])
    | HeartbeatAck => exact absurd hk (by simp [WsEvent.installsKey])
    | other op => exact absurd hk (by simp [WsEvent.installsKey])
    | malformed => exact absurd hk (by simp [WsEvent.installsKey])

/-- Claim C12 (amended) at the example handshake, which ends in `Connected`. -/
theorem C12_connected_only_after_session_description_witness :
    (VoiceClient.deliverAll toyAEAD exampleClient.Start handshake).m_state
      = VoiceState.Connected ∧
    ∃ es1 mode key responses es2,
      handshake
        = es1 ++ WsEvent.message (GatewayMessage.SessionDescription mode key) responses :: es2 ∧
      key.length = 32 ∧ ∀ x ∈ es2, x.isMessage = true :=
  ⟨by decide,
   C12_connected_only_after_session_description toyAEAD exampleClient handshake (by decide)⟩

/-! ## Claim C13: secret key length check -/

/-- Claim C13: a `SessionDescription` message whose `secret_key` array does not have exactly
32 elements leaves the whole client unchanged: in particular the stored secret key, the state,
the UDP sender (key, sequence, nonce), the calls made on the WebSocket (no `Speaking` message)
and the datagrams sent (no silence packet); and the state does not become `Connected`. -/
theorem C13_secret_key_length_check (A : AEAD) (c : VoiceClient) (mode : String) (key : Bytes)
    (responses : Nat → Bytes) (h : key.length ≠ 32) :
    VoiceClient.OnWebSocketMessage A c (GatewayMessage.SessionDescription mode key) responses
      = c ∧
    (VoiceClient.OnWebSocketMessage A c (GatewayMessage.SessionDescription mode key)
      responses).m_secret_key = c.m_secret_key ∧
    (VoiceClient.OnWebSocketMessage A c (GatewayMessage.SessionDescription mode key)
      responses).m_udp = c.m_udp ∧
    (VoiceClient.OnWebSocketMessage A c (GatewayMessage.SessionDescription mode key)
      responses).wsCalls = c.wsCalls ∧
    (VoiceClient.OnWebSocketMessage A c (GatewayMessage.SessionDescription mode key)
      responses).udpSent = c.udpSent ∧
    (c.m_state ≠ VoiceState.Connected →
      (VoiceClient.OnWebSocketMessage A c (GatewayMessage.SessionDescription mode key)
        responses).m_state ≠ VoiceState.Connected) := by
  have hb : (key.length != 32) = true := by
    simpa [bne_iff_ne] using h
  have heq : VoiceClient.OnWebSocketMessage A c
      (GatewayMessage.SessionDescription mode key) responses = c := by
    simp only [VoiceClient.OnWebSocketMessage, VoiceClient.HandleSessionDescription, hb, if_true]
  rw [heq]
  exact ⟨rfl, rfl, rfl, rfl, rfl, fun hs => hs⟩

/-- Claim C13 at a 31-element key, on a client that is `Establishing`. -/
theorem C13_secret_key_length_check_witness :
    (List.replicate 31 1 : Bytes).length ≠ 32 ∧
    (VoiceClient.OnWebSocketMessage toyAEAD exampleClient.Start.OnWebSocketOpen
      (GatewayMessage.SessionDescription "aead_xchacha20_poly1305_rtpsize"
        (List.replicate 31 1)) noResponse).m_state = VoiceState.Establishing ∧
    (VoiceClient.OnWebSocketMessage toyAEAD exampleClient.Start.OnWebSocketOpen
      (GatewayMessage.SessionDescription "aead_xchacha20_poly1305_rtpsize"
        (List.replicate 31 1)) noResponse).udpSent = [] := by
  have h := C13_secret_key_length_check toyAEAD exampleClient.Start.OnWebSocketOpen
    "aead_xchacha20_poly1305_rtpsize" (List.replicate 31 1) noResponse (by decide)
  refine ⟨by decide, ?_, ?_⟩
  · rw [h.1]; decide
  · rw [h.2.2.2.2.1]; decide

/-! ## Live session and `Stop` -/

/-- The example client after `Start`, the example handshake and a `Speaking` message of user
99 with SSRC 43690: a live session. -/
def connectedClient : VoiceClient :=
  VoiceClient.deliverAll toyAEAD exampleClient.Start
    (handshake ++ [WsEvent.message (GatewayMessage.Speaking 99 43690 1) noResponse])

/-- `Stop` returns at once in state `Disconnected`. -/
theorem Stop_of_disconnected (c : VoiceClient) (h : c.m_state = VoiceState.Disconnected) :
    c.Stop = c := by
  simp [VoiceClient.Stop, VoiceClient.IsConnected, VoiceClient.IsConnecting, h]

/-- In a state other than `Disconnected`, `Stop` runs its teardown. -/
theorem Stop_of_live (c : VoiceClient) (h : c.m_state ≠ VoiceState.Disconnected) :
    c.Stop =
      (let c := c.SetState VoiceState.Disconnected
       let c := if c.m_ws then { c with wsCalls := c.wsCalls ++ [WsCall.Close 4014] } else c
       let c := { c with m_udp := c.m_udp.Stop }
       let c := { c with m_heartbeat_running := false }
       let c := { c with m_heartbeat_thread := false }
       let c := { c with m_keepalive_thread := false }
       let c := { c with m_ssrc_map := fun _ => none }
       match c.m_audio with
       | some e => { c with m_audio := some e.StopCapture.RemoveAllSSRCs }
       | none => c) := by
  have hb : (!c.IsConnected && !c.IsConnecting) = false := by
    cases hs : c.m_state
    · exact absurd hs h
    all_goals simp [VoiceClient.IsConnected, VoiceClient.IsConnecting, hs]
  rw [VoiceClient.Stop, hb]
  rfl

/-! ## Claim C14: WebSocket close -/

/-- Claim C14 (divergence): in every state other than `Disconnected`,
`VoiceClient::OnWebSocketClose` sets the state to `Disconnected` and does nothing else: the
heartbeat/keepalive running flag, the UDP socket and the user-to-SSRC map are as before; and
a `Stop()` after it returns at once, so the teardown of `Stop` does not run either. -/
theorem C14_close_only_sets_state (c : VoiceClient) (code : Nat) (reason : String)
    (h : c.m_state ≠ VoiceState.Disconnected) :
    (c.OnWebSocketClose code reason).m_state = VoiceState.Disconnected ∧
    (c.OnWebSocketClose code reason).m_heartbeat_running = c.m_heartbeat_running ∧
    (c.OnWebSocketClose code reason).m_udp = c.m_udp ∧
    (c.OnWebSocketClose code reason).m_ssrc_map = c.m_ssrc_map ∧
    (c.OnWebSocketClose code reason).Stop = c.OnWebSocketClose code reason := by
  have hb : (c.m_state != VoiceState.Disconnected) = true := by
    simpa [bne_iff_ne] using h
  have heq : c.OnWebSocketClose code reason = c.SetState VoiceState.Disconnected := by
    simp only [VoiceClient.OnWebSocketClose, hb, if_true]
  rw [heq]
  refine ⟨rfl, rfl, rfl, rfl, ?_⟩
  exact Stop_of_disconnected _ rfl

/-- Claim C14 (divergence) at the live example session: after the close event the state is
`Disconnected`, yet the running flag is still set, the UDP socket is still open and running,
and user 99 is still mapped to SSRC 43690. -/
theorem C14_close_only_sets_state_witness :
    connectedClient.m_state = VoiceState.Connected ∧
    (connectedClient.OnWebSocketClose 1006 "").m_state = VoiceState.Disconnected ∧
    (connectedClient.OnWebSocketClose 1006 "").m_heartbeat_running = true ∧
    (connectedClient.OnWebSocketClose 1006 "").m_udp.m_running = true ∧
    (connectedClient.OnWebSocketClose 1006 "").m_udp.m_socket = true ∧
    (connectedClient.OnWebSocketClose 1006 "").m_ssrc_map 99 = some 43690 ∧
    ((connectedClient.OnWebSocketClose 1006 "").Stop).m_heartbeat_running = true := by
  have h := C14_close_only_sets_state connectedClient 1006 "" (by decide)
  refine ⟨by decide, h.1, ?_, ?_, ?_, ?_, ?_⟩
  · rw [h.2.1]; decide
  · rw [h.2.2.1]; decide
  · rw [h.2.2.1]; decide
  · rw [h.2.2.2.1]; decide
  · rw [h.2.2.2.2, h.2.1]; decide

/-! ## Claim C15: teardown -/

/-- Claim C15 as stated fails: after `Start()` and a close event, `Stop()` returns with the
heartbeat/keepalive running flag still set; and after the live example session and a close
event, `Stop()` returns with user 99 still mapped.  Both clients are reached through
`Start()`, WebSocket events and `Stop()`. -/
theorem C15_counterexample :
    (VoiceClient.run toyAEAD exampleClient
      [ClientStep.start, ClientStep.event (WsEvent.close 1006 ""),
       ClientStep.stop]).m_heartbeat_running = true ∧
    (VoiceClient.run toyAEAD exampleClient
      [ClientStep.start, ClientStep.event (WsEvent.close 1006 ""),
       ClientStep.stop]).m_state = VoiceState.Disconnected ∧
    (VoiceClient.run toyAEAD connectedClient
      [ClientStep.event (WsEvent.close 1006 ""), ClientStep.stop]).m_ssrc_map 99
      = some 43690 := by
  refine ⟨by decide, by decide, by decide⟩

/-- Claim C15 (amended): from every state other than `Disconnected`, after `Stop()` the state
is `Disconnected`, the heartbeat/keepalive running flag is cleared, the user-to-SSRC map is
empty and the UDP socket is stopped; in state `Disconnected`, `Stop()` changes nothing; and
from every state, `Stop()` ends in `Disconnected` and a second `Stop()` changes nothing. -/
theorem C15_stop_teardown (c : VoiceClient) :
    (c.m_state ≠ VoiceState.Disconnected →
      c.Stop.m_state = VoiceState.Disconnected ∧ c.Stop.m_heartbeat_running = false ∧
      (∀ u, c.Stop.m_ssrc_map u = none) ∧ c.Stop.m_udp.m_running = false ∧
      c.Stop.m_udp.m_socket = false) ∧
    (c.m_state = VoiceState.Disconnected → c.Stop = c) ∧
    c.Stop.m_state = VoiceState.Disconnected ∧
    c.Stop.Stop = c.Stop := by
  refine ⟨?_, Stop_of_disconnected c, Stop_state c, Stop_of_disconnected _ (Stop_state c)⟩
  intro h
  rw [Stop_of_live c h]
  simp only [VoiceClient.SetState, UDPSocket.Stop]
  cases c.m_audio <;> cases c.m_ws <;> simp

/-- Claim C15 (amended) at the live example session. -/
theorem C15_stop_teardown_witness :
    connectedClient.m_state ≠ VoiceState.Disconnected ∧
    connectedClient.m_heartbeat_running = true ∧
    connectedClient.m_ssrc_map 99 = some 43690 ∧
    connectedClient.Stop.m_state = VoiceState.Disconnected ∧
    connectedClient.Stop.m_heartbeat_running = false ∧
    connectedClient.Stop.m_ssrc_map 99 = none ∧
    connectedClient.Stop.Stop = connectedClient.Stop := by
  have h := C15_stop_teardown connectedClient
  have hl := h.1 (by decide)
  exact ⟨by decide, by decide, by decide, hl.1, hl.2.1, hl.2.2.1 99, h.2.2.2⟩

/-! ## The sealing state across calls and events -/

/-- The sealing state of a client: the stored secret key, and the key, sequence number and
nonce counter of its UDP sender. -/
def VoiceClient.sealState (c : VoiceClient) : Bytes × Bytes × Nat × Nat :=
  (c.m_secret_key, c.m_udp.m_secret_key, c.m_udp.m_sequence, c.m_udp.m_nonce)

/-- `Stop` keeps the sealing state. -/
theorem Stop_sealState (c : VoiceClient) : c.Stop.sealState = c.sealState := by
  by_cases h : c.m_state = VoiceState.Disconnected
  · rw [Stop_of_disconnected c h]
  · rw [Stop_of_live c h]
    simp only [VoiceClient.SetState, UDPSocket.Stop, VoiceClient.sealState]
    cases c.m_audio <;> cases c.m_ws <;> rfl

/-- `Start` keeps the sealing state. -/
theorem Start_sealState (c : VoiceClient) : c.Start.sealState = c.sealState := by
  have key : ∀ d : VoiceClient,
      (if (!d.m_ws) = true then d
       else if d.m_audio.isNone = true then d
       else
        let c := d.SetState VoiceState.Connecting
        let c := { c with m_ssrc_map := fun _ => none }
        let c := { c with m_heartbeat_running := true }
        let url := "wss://" ++ c.m_info.endpoint ++ "/?v=7"
        { c with wsCalls := c.wsCalls ++ [WsCall.Connect url] }).sealState = d.sealState := by
    intro d
    split
    · rfl
    · split <;> rfl
  unfold VoiceClient.Start
  by_cases h : (c.IsConnected || c.IsConnecting) = true
  · simp only [h, if_true]
    rw [key, Stop_sealState]
  · simp only [h, if_false]
    simp only [Bool.false_eq_true, if_false]
    rw [key]

/-- An event other than a `SessionDescription` message keeps the sealing state. -/
theorem deliver_sealState (A : AEAD) (c : VoiceClient) (e : WsEvent)
    (h : e.isSessionDescription = false) : (c.deliver A e).sealState = c.sealState := by
  cases e with
  | open_ => rfl
  | close code reason =>
    simp only [VoiceClient.deliver, VoiceClient.OnWebSocketClose]
    split <;> rfl
  | message msg responses =>
    cases msg with
    | Hello t =>
      simp only [VoiceClient.deliver, VoiceClient.OnWebSocketMessage, VoiceClient.HandleHello,
        VoiceClient.SendIdentify, VoiceClient.SendJson]
      split <;> rfl
    | Ready ip port ssrc modes =>
      simp only [VoiceClient.deliver, VoiceClient.OnWebSocketMessage, VoiceClient.HandleReady]
      cases port <;> cases ssrc <;> cases modes <;> try rfl
      simp only
      obtain ⟨n, calls, hf⟩ := DoIPDiscovery_frame
        ({ c with m_server_ip := ip, m_server_port := _, m_ssrc := _,
                  m_udp := _, m_keepalive_thread := true } : VoiceClient) responses
      rw [hf]
      rfl
    | SessionDescription mode key => simp [WsEvent.isSessionDescription] at h
    | Speaking u s f =>
      simp only [VoiceClient.deliver, VoiceClient.OnWebSocketMessage, VoiceClient.HandleSpeaking]
      repeat' split
      all_goals rfl
    | HeartbeatAck => rfl
    | other op => rfl
    | malformed => rfl

/-- Whether a step is the delivery of a `SessionDescription` message. -/
def ClientStep.isSessionDescription : ClientStep → Bool
  | ClientStep.event e => e.isSessionDescription
  | _ => false

/-- A step other than the delivery of a `SessionDescription` keeps the sealing state. -/
theorem step_sealState (A : AEAD) (c : VoiceClient) (s : ClientStep)
    (h : s.isSessionDescription = false) : (c.step A s).sealState = c.sealState := by
  cases s with
  | start => exact Start_sealState c
  | stop => exact Stop_sealState c
  | event e => exact deliver_sealState A c e h

/-- Steps none of which delivers a `SessionDescription` keep the sealing state. -/
theorem run_sealState (A : AEAD) (steps : List ClientStep) (c : VoiceClient)
    (h : ∀ s ∈ steps, s.isSessionDescription = false) :
    (VoiceClient.run A c steps).sealState = c.sealState := by
  induction steps generalizing c with
  | nil => rfl
  | cons s steps ih =>
    have h1 : VoiceClient.run A c (s :: steps) = VoiceClient.run A (c.step A s) steps := rfl
    rw [h1, ih _ (fun x hx => h x (List.mem_cons_of_mem _ hx)),
      step_sealState A c s (h s (List.mem_cons_self _ _))]

/-- `std::copy` of 32 elements onto an array of 32 elements gives the copied elements. -/
theorem memcpy_full (dst src : Bytes) (h : dst.length = src.length) : memcpy dst 0 src = src := by
  simp [memcpy, h]

/-- What `HandleSessionDescription` does with a 32-element key on a client whose key array has
32 elements: the key is stored in the client and in the UDP sender, the sender's counters
advance by one, and one datagram, the sealed silence frame, is sent. -/
theorem HandleSessionDescription_seal (A : AEAD) (c : VoiceClient) (mode : String) (key : Bytes)
    (hk : key.length = 32) (hc : c.m_secret_key.length = 32) :
    (VoiceClient.HandleSessionDescription A c mode key).sealState
      = (key, key, (c.m_udp.m_sequence + 1) % 2 ^ 16, (c.m_udp.m_nonce + 1) % 2 ^ 32) ∧
    (VoiceClient.HandleSessionDescription A c mode key).udpSent
      = c.udpSent ++ [sealedPacket A key 120 false ((c.m_udp.m_sequence + 1) % 2 ^ 16) 0
          c.m_ssrc ((c.m_udp.m_nonce + 1) % 2 ^ 32) [0xF8, 0xFF, 0xFE]] := by
  have hm : memcpy c.m_secret_key 0 key = key := memcpy_full _ _ (by rw [hc, hk])
  simp only [VoiceClient.HandleSessionDescription, hk, bne_self_eq_false, Bool.false_eq_true,
    if_false, VoiceClient.SetState, VoiceClient.SendSpeaking, VoiceClient.SendJson,
    VoiceClient.sealState, UDPSocket.SendEncrypted_eq, hm, UDPSocket.SetSSRC,
    UDPSocket.SetSecretKey, UDPSocket.Run]
  constructor
  · repeat' split
    all_goals rfl
  · repeat' split
    all_goals rfl

/-- Delivering events is running them as steps. -/
theorem deliverAll_eq_run (A : AEAD) (es : List WsEvent) (c : VoiceClient) :
    VoiceClient.deliverAll A c es = VoiceClient.run A c (es.map ClientStep.event) := by
  induction es generalizing c with
  | nil => rfl
  | cons e es ih =>
    have h1 : VoiceClient.deliverAll A c (e :: es)
        = VoiceClient.deliverAll A (c.deliver A e) es := rfl
    rw [h1, ih]
    rfl

/-- Events none of which is a `SessionDescription` keep the sealing state. -/
theorem deliverAll_sealState (A : AEAD) (es : List WsEvent) (c : VoiceClient)
    (h : ∀ e ∈ es, e.isSessionDescription = false) :
    (VoiceClient.deliverAll A c es).sealState = c.sealState := by
  rw [deliverAll_eq_run]
  apply run_sealState
  intro s hs
  obtain ⟨e, he, rfl⟩ := List.mem_map.1 hs
  exact h e he

/-! ## Claim C16: the secret key at teardown -/

/-- Claim C16 as stated fails: after the live example session, whose `SessionDescription`
installed the key of 32 bytes `01`, `Stop()` leaves that key in the client and in its UDP
sender. -/
theorem C16_counterexample :
    connectedClient.m_state = VoiceState.Connected ∧
    connectedClient.Stop.m_state = VoiceState.Disconnected ∧
    connectedClient.Stop.m_secret_key = List.replicate 32 1 ∧
    connectedClient.Stop.m_udp.m_secret_key = List.replicate 32 1 := by
  refine ⟨by decide, by decide, by decide, by decide⟩

/-- Claim C16 (amended): when a `SessionDescription` with a 32-element key has installed the
key, the client and its UDP sender store that key, and they still store it after `Stop()`,
also when any calls of `Start` and `Stop` and any WebSocket events other than a new
`SessionDescription` come in between: no call zeroizes the key. -/
theorem C16_key_survives_teardown (A : AEAD) (c : VoiceClient) (mode : String) (key : Bytes)
    (responses : Nat → Bytes) (steps : List ClientStep)
    (hk : key.length = 32) (hc : c.m_secret_key.length = 32)
    (hs : ∀ s ∈ steps, s.isSessionDescription = false) :
    (VoiceClient.OnWebSocketMessage A c (GatewayMessage.SessionDescription mode key)
      responses).m_secret_key = key ∧
    (VoiceClient.OnWebSocketMessage A c (GatewayMessage.SessionDescription mode key)
      responses).m_udp.m_secret_key = key ∧
    (VoiceClient.run A (VoiceClient.OnWebSocketMessage A c
      (GatewayMessage.SessionDescription mode key) responses) steps).Stop.m_secret_key = key ∧
    (VoiceClient.run A (VoiceClient.OnWebSocketMessage A c
      (GatewayMessage.SessionDescription mode key) responses) steps).Stop.m_udp.m_secret_key
      = key := by
  have h1 := (HandleSessionDescription_seal A c mode key hk hc).1
  have h2 := run_sealState A steps (VoiceClient.HandleSessionDescription A c mode key) hs
  have h3 := Stop_sealState
    (VoiceClient.run A (VoiceClient.HandleSessionDescription A c mode key) steps)
  rw [h2, h1] at h3
  simp only [VoiceClient.sealState, Prod.mk.injEq] at h1 h3
  simp only [VoiceClient.OnWebSocketMessage]
  exact ⟨h1.1, h1.2.1, h3.1, h3.2.1⟩

/-- Claim C16 (amended) at the example client: it is started, receives the key of 32 bytes
`01`, then a close event, and is stopped. -/
theorem C16_key_survives_teardown_witness :
    (VoiceClient.run toyAEAD (VoiceClient.OnWebSocketMessage toyAEAD exampleClient.Start
        (GatewayMessage.SessionDescription "aead_xchacha20_poly1305_rtpsize"
          (List.replicate 32 1)) noResponse)
      [ClientStep.event (WsEvent.close 1006 "")]).Stop.m_secret_key = List.replicate 32 1 ∧
    (VoiceClient.run toyAEAD (VoiceClient.OnWebSocketMessage toyAEAD exampleClient.Start
        (GatewayMessage.SessionDescription "aead_xchacha20_poly1305_rtpsize"
          (List.replicate 32 1)) noResponse)
      [ClientStep.event (WsEvent.close 1006 "")]).Stop.m_udp.m_secret_key
      = List.replicate 32 1 :=
  (C16_key_survives_teardown toyAEAD exampleClient.Start "aead_xchacha20_poly1305_rtpsize"
    (List.replicate 32 1) noResponse [ClientStep.event (WsEvent.close 1006 "")]
    (by decide) (by decide) (by decide)).2.2

/-! ## Claim C17: restart -/

/-- `Start` on a client that is `Disconnected` and has a WebSocket and an audio engine. -/
theorem Start_of_ready (d : VoiceClient) (e : AudioEngine)
    (hs : d.m_state = VoiceState.Disconnected) (hws : d.m_ws = true) (ha : d.m_audio = some e) :
    d.Start = { d with m_state := VoiceState.Connecting, m_ssrc_map := fun _ => none,
                       m_heartbeat_running := true,
                       wsCalls := d.wsCalls ++
                         [WsCall.Connect ("wss://" ++ d.m_info.endpoint ++ "/?v=7")] } := by
  simp [VoiceClient.Start, VoiceClient.IsConnected, VoiceClient.IsConnecting, hs, hws, ha,
    VoiceClient.SetState]

/-- The fields of a live client with an audio engine after `Stop`. -/
theorem Stop_fields (c : VoiceClient) (e : AudioEngine)
    (hs : c.m_state ≠ VoiceState.Disconnected) (ha : c.m_audio = some e) :
    c.Stop.m_state = VoiceState.Disconnected ∧ c.Stop.m_ws = c.m_ws ∧
    c.Stop.m_audio = some e.StopCapture.RemoveAllSSRCs ∧
    c.Stop.m_user_volumes = c.m_user_volumes ∧ c.Stop.m_info = c.m_info := by
  rw [Stop_of_live c hs]
  simp only [VoiceClient.SetState, ha]
  cases c.m_ws <;> simp

/-- The example session run a second time on the same client: `Stop`, `Start`, and the
handshake events again. -/
def secondSession : VoiceClient :=
  VoiceClient.run toyAEAD connectedClient
    ([ClientStep.stop, ClientStep.start] ++ handshake.map ClientStep.event)

/-- Claim C17 as stated fails: the silence frame of the first example session carries
sequence 1 and nonce counter 1, and after `Stop(); Start()` and a second handshake the
silence frame of the new session carries sequence 2 and nonce counter 2. -/
theorem C17_counterexample :
    connectedClient.udpSent.getLast?.map wireSeq = some 1 ∧
    connectedClient.udpSent.getLast?.map wireNonce = some 1 ∧
    secondSession.m_state = VoiceState.Connected ∧
    secondSession.udpSent.length = connectedClient.udpSent.length + 2 ∧
    secondSession.udpSent.getLast?.map wireSeq = some 2 ∧
    secondSession.udpSent.getLast?.map wireNonce = some 2 := by
  refine ⟨by decide, by decide, by decide, by decide, by decide, by decide⟩

/-- Claim C17 (amended): let a client with a WebSocket and an audio engine be in a live
session (any state but `Disconnected`).  After `Stop(); Start()` the state is `Connecting`,
the user-to-SSRC map is empty and the audio engine holds no SSRC source; the per-SSRC volume
and mute settings of the engine and the staged user volumes are kept; and the send counters
are not reset: the first packet sealed in the new session, the silence frame sent on the next
`SessionDescription` with a 32-element key, carries the old sequence number plus one
(modulo 2^16) and the old nonce counter plus one (modulo 2^32). -/
theorem C17_restart_keeps_counters (A : AEAD) (c : VoiceClient) (e : AudioEngine)
    (es : List WsEvent) (mode : String) (key : Bytes) (responses : Nat → Bytes)
    (hws : c.m_ws = true) (ha : c.m_audio = some e)
    (hs : c.m_state ≠ VoiceState.Disconnected)
    (hc : c.m_secret_key.length = 32) (hk : key.length = 32)
    (hes : ∀ x ∈ es, x.isSessionDescription = false) :
    c.Stop.Start.m_state = VoiceState.Connecting ∧
    (∀ u, c.Stop.Start.m_ssrc_map u = none) ∧
    (∃ e2, c.Stop.Start.m_audio = some e2 ∧ (∀ s, e2.m_sources s = none) ∧
      e2.m_volume_ssrc = e.m_volume_ssrc ∧ e2.m_muted_ssrcs = e.m_muted_ssrcs) ∧
    c.Stop.Start.m_user_volumes = c.m_user_volumes ∧
    c.Stop.Start.m_udp.m_sequence = c.m_udp.m_sequence ∧
    c.Stop.Start.m_udp.m_nonce = c.m_udp.m_nonce ∧
    (VoiceClient.deliverAll A c.Stop.Start
      (es ++ [WsEvent.message (GatewayMessage.SessionDescription mode key) responses])
      ).udpSent.getLast?.map wireSeq = some ((c.m_udp.m_sequence + 1) % 2 ^ 16) ∧
    (VoiceClient.deliverAll A c.Stop.Start
      (es ++ [WsEvent.message (GatewayMessage.SessionDescription mode key) responses])
      ).udpSent.getLast?.map wireNonce = some ((c.m_udp.m_nonce + 1) % 2 ^ 32) := by
  obtain ⟨h1, h2, h3, h4, _⟩ := Stop_fields c e hs ha
  have hstart := Start_of_ready c.Stop _ h1 (h2.trans hws) h3
  have hseal : c.Stop.Start.sealState = c.sealState := by
    rw [Start_sealState, Stop_sealState]
  have hrun := deliverAll_sealState A es c.Stop.Start hes
  rw [hseal] at hrun
  simp only [VoiceClient.sealState, Prod.mk.injEq] at hseal hrun
  have hlast : VoiceClient.deliverAll A c.Stop.Start
      (es ++ [WsEvent.message (GatewayMessage.SessionDescription mode key) responses])
      = VoiceClient.HandleSessionDescription A (VoiceClient.deliverAll A c.Stop.Start es)
          mode key := by
    simp [VoiceClient.deliverAll, List.foldl_append, VoiceClient.deliver,
      VoiceClient.OnWebSocketMessage]
  have hsent := (HandleSessionDescription_seal A (VoiceClient.deliverAll A c.Stop.Start es)
    mode key hk (by rw [hrun.1]; exact hc)).2
  refine ⟨?_, ?_, ⟨e.StopCapture.RemoveAllSSRCs, ?_, ?_, ?_, ?_⟩, ?_, hseal.2.2.1, hseal.2.2.2,
    ?_, ?_⟩
  · rw [hstart]
  · intro u; rw [hstart]
  · rw [hstart]; exact h3
  · intro s; rfl
  · simp only [AudioEngine.StopCapture, AudioEngine.RemoveAllSSRCs]; split <;> rfl
  · simp only [AudioEngine.StopCapture, AudioEngine.RemoveAllSSRCs]; split <;> rfl
  · rw [hstart]; exact h4
  · rw [hlast, hsent, hrun.2.2.1]
    simp [wireSeq_sealedPacket]
  · rw [hlast, hsent, hrun.2.2.2]
    simp [wireNonce_sealedPacket]

/-- Claim C17 (amended) at the live example session, whose counters stand at 1: the silence
frame of the session after `Stop(); Start()` carries sequence 2 and nonce counter 2. -/
theorem C17_restart_keeps_counters_witness :
    connectedClient.m_udp.m_sequence = 1 ∧ connectedClient.m_udp.m_nonce = 1 ∧
    connectedClient.m_ssrc_map 99 = some 43690 ∧
    connectedClient.Stop.Start.m_ssrc_map 99 = none ∧
    (VoiceClient.deliverAll toyAEAD connectedClient.Stop.Start
      ([WsEvent.open_] ++ [WsEvent.message (GatewayMessage.SessionDescription "m"
        (List.replicate 32 2)) noResponse])).udpSent.getLast?.map wireSeq = some 2 := by
  have h := C17_restart_keeps_counters toyAEAD connectedClient
    (connectedClient.m_audio.getD {}) [WsEvent.open_] "m"
    (List.replicate 32 2) noResponse (by decide) rfl (by decide) (by decide)
    (by decide) (by decide)
  refine ⟨by decide, by decide, by decide, h.2.1 99, ?_⟩
  rw [h.2.2.2.2.2.2.1]
  decide

/-! ## Claim C18: the `Speaking` message -/

/-- The example client after `Speaking` of user 99 with SSRC 43690, then
`SetUserVolume(99, 0.5f)`, then `Speaking` of user 99 with the new SSRC 48059. -/
def remappedClient : VoiceClient :=
  VoiceClient.OnWebSocketMessage toyAEAD
    ((VoiceClient.OnWebSocketMessage toyAEAD exampleClient
        (GatewayMessage.Speaking 99 43690 1) noResponse).SetUserVolume 99 0x3F000000)
    (GatewayMessage.Speaking 99 48059 1) noResponse

/-- Claim C18 as stated fails: the volume `0.5f` was staged for user 99 before the second
`Speaking` message, which maps the user to SSRC 48059, yet afterwards the audio engine's
volume for SSRC 48059 is the default `1.0`: the staged volume is applied only when the user
had no SSRC mapping. -/
theorem C18_counterexample :
    remappedClient.GetUserVolume 99 = 0x3F000000 ∧
    remappedClient.GetSSRCOfUser 99 = some 48059 ∧
    remappedClient.m_audio.map (fun e => e.GetVolumeSSRC 48059) = some unitVolume ∧
    remappedClient.m_audio.map (fun e => e.GetVolumeSSRC 43690) = some 0x3F000000 := by
  refine ⟨by decide, by decide, by decide, by decide⟩

/-- `AddSSRC` keeps the per-SSRC volumes. -/
theorem AddSSRC_volume (e : AudioEngine) (s : Nat) :
    (e.AddSSRC s).m_volume_ssrc = e.m_volume_ssrc := by
  unfold AudioEngine.AddSSRC
  repeat' split
  all_goals rfl

/-- The volume read back after `SetVolumeSSRC` and `AddSSRC`. -/
theorem GetVolumeSSRC_set_add (e : AudioEngine) (s : Nat) (v : Volume) :
    ((e.SetVolumeSSRC s v).AddSSRC s).GetVolumeSSRC s = v := by
  simp [AudioEngine.GetVolumeSSRC, AddSSRC_volume, AudioEngine.SetVolumeSSRC]

/-- `SetUserVolume` for a user without SSRC mapping only stages the volume. -/
theorem SetUserVolume_unmapped (c : VoiceClient) (u : Nat) (v : Volume)
    (h : c.m_ssrc_map u = none) :
    c.SetUserVolume u v
      = { c with m_user_volumes := fun x => if x = u then some v else c.m_user_volumes x } := by
  simp [VoiceClient.SetUserVolume, h]

/-- The engine after `HandleSpeaking` when a volume is staged and the user is not mapped. -/
theorem HandleSpeaking_staged (c : VoiceClient) (e : AudioEngine) (u s f : Nat) (v : Volume)
    (ha : c.m_audio = some e) (hv : c.m_user_volumes u = some v) (hm : c.m_ssrc_map u = none) :
    (c.HandleSpeaking u s f).m_audio = some ((e.SetVolumeSSRC s v).AddSSRC s) := by
  simp only [VoiceClient.HandleSpeaking, hv, hm, ha, Option.isNone_none, if_true]
  split <;> rfl

/-- The user-to-SSRC map after `HandleSpeaking`. -/
theorem HandleSpeaking_map (c : VoiceClient) (u s f : Nat) :
    (c.HandleSpeaking u s f).m_ssrc_map = fun x => if x = u then some s else c.m_ssrc_map x := by
  cases hv : c.m_user_volumes u <;> cases hm : c.m_ssrc_map u <;> cases ha : c.m_audio <;>
    cases hcb : c.m_speaking_callback <;>
    simp [VoiceClient.HandleSpeaking, hv, hm, ha, hcb]

/-- The speaking-callback trace after `HandleSpeaking`. -/
theorem HandleSpeaking_events (c : VoiceClient) (u s f : Nat) :
    (c.HandleSpeaking u s f).speakingEvents
      = if c.m_speaking_callback then
          c.speakingEvents ++ [{ user_id := u, ssrc := s, speaking := f }]
        else c.speakingEvents := by
  cases hv : c.m_user_volumes u <;> cases hm : c.m_ssrc_map u <;> cases ha : c.m_audio <;>
    cases hcb : c.m_speaking_callback <;>
    simp [VoiceClient.HandleSpeaking, hv, hm, ha, hcb]

/-- Claim C18 (amended): after a `Speaking` message with user `u`, SSRC `s` and flags `f` has
been handled by a client with an audio engine, `GetSSRCOfUser(u)` returns `s`; if a speaking
callback is set, it has been invoked once more, with `(u, s, f)`; and if a volume `v` was
staged for `u` and `u` had no SSRC mapping before the message, then the audio engine's
volume for `s` is `v` (in particular when `SetUserVolume(u, v)` was called just before, on a
client where `u` was not mapped). -/
theorem C18_speaking_mapping (A : AEAD) (c : VoiceClient) (e : AudioEngine) (u s f : Nat)
    (responses : Nat → Bytes) (ha : c.m_audio = some e) :
    (VoiceClient.OnWebSocketMessage A c (GatewayMessage.Speaking u s f)
      responses).GetSSRCOfUser u = some s ∧
    (c.m_speaking_callback = true →
      (VoiceClient.OnWebSocketMessage A c (GatewayMessage.Speaking u s f)
        responses).speakingEvents
        = c.speakingEvents ++ [{ user_id := u, ssrc := s, speaking := f }]) ∧
    (∀ v, c.m_user_volumes u = some v → c.m_ssrc_map u = none →
      (VoiceClient.OnWebSocketMessage A c (GatewayMessage.Speaking u s f)
        responses).m_audio.map (fun e2 => e2.GetVolumeSSRC s) = some v) ∧
    (∀ v, c.m_ssrc_map u = none →
      (VoiceClient.OnWebSocketMessage A (c.SetUserVolume u v) (GatewayMessage.Speaking u s f)
        responses).m_audio.map (fun e2 => e2.GetVolumeSSRC s) = some v) := by
  refine ⟨?_, ?_, ?_, ?_⟩
  · rw [VoiceClient.OnWebSocketMessage, VoiceClient.GetSSRCOfUser, HandleSpeaking_map]
    simp
  · intro hcb
    rw [VoiceClient.OnWebSocketMessage, HandleSpeaking_events, hcb]
    rfl
  · intro v hv hm
    simp only [VoiceClient.OnWebSocketMessage]
    rw [HandleSpeaking_staged c e u s f v ha hv hm, Option.map_some', GetVolumeSSRC_set_add]
  · intro v hm
    simp only [VoiceClient.OnWebSocketMessage]
    have hst := HandleSpeaking_staged
      ({ c with m_user_volumes := fun x => if x = u then some v else c.m_user_volumes x })
      e u s f v ha (by simp) hm
    rw [SetUserVolume_unmapped c u v hm, hst, Option.map_some', GetVolumeSSRC_set_add]

/-- Claim C18 (amended) at the example client: `SetUserVolume(99, 0.5f)` and then the first
`Speaking` message of user 99. -/
theorem C18_speaking_mapping_witness :
    (VoiceClient.OnWebSocketMessage toyAEAD (exampleClient.SetUserVolume 99 0x3F000000)
      (GatewayMessage.Speaking 99 43690 1) noResponse).GetSSRCOfUser 99 = some 43690 ∧
    (VoiceClient.OnWebSocketMessage toyAEAD (exampleClient.SetUserVolume 99 0x3F000000)
      (GatewayMessage.Speaking 99 43690 1) noResponse).speakingEvents
      = [{ user_id := 99, ssrc := 43690, speaking := 1 }] ∧
    (VoiceClient.OnWebSocketMessage toyAEAD (exampleClient.SetUserVolume 99 0x3F000000)
      (GatewayMessage.Speaking 99 43690 1) noResponse).m_audio.map
        (fun e2 => e2.GetVolumeSSRC 43690) = some 0x3F000000 := by
  have h := C18_speaking_mapping toyAEAD (exampleClient.SetUserVolume 99 0x3F000000)
    ((exampleClient.SetUserVolume 99 0x3F000000).m_audio.getD {}) 99 43690 1 noResponse rfl
  exact ⟨h.1, h.2.1 (by decide), h.2.2.1 0x3F000000 (by decide) (by decide)⟩

/-! ## Claim C19: IP discovery -/

/-- A discovery response as the specification words it: at least 74 bytes, beginning with
`00 02`. -/
def IsDiscoveryResponse (r : Bytes) : Prop :=
  74 ≤ r.length ∧ r.getD 0 0 = 0 ∧ r.getD 1 0 = 2

instance instDecidableIsDiscoveryResponse (r : Bytes) : Decidable (IsDiscoveryResponse r) := by
  unfold IsDiscoveryResponse; infer_instance

namespace StreamManager

end StreamManager

/-- Every chunk has between 1 and 1198 bytes. -/
theorem fuaChunks_bound (payload : Bytes) :
    ∀ c ∈ fuaChunks payload, 1 ≤ c.length ∧ c.length ≤ 1198 := by
  generalize hk : payload.length = k
  induction k using Nat.strong_induction_on generalizing payload with
  | _ k ih =>
    intro c hc
    by_cases h0 : 0 < payload.length
    · by_cases hl : 1198 < payload.length
      · rw [fuaChunks_long _ hl] at hc
        rcases List.mem_cons.1 hc with h | h
        · rw [h, List.length_take]; omega
        · exact ih (payload.drop 1198).length (by rw [List.length_drop]; omega) _ rfl c h
      · rw [fuaChunks_short _ h0 (by omega)] at hc
        rw [List.mem_singleton.1 hc]; omega
    · have : payload = [] := List.length_eq_zero.mp (by omega)
      rw [this, fuaChunks_nil] at hc
      exact absurd hc (List.not_mem_nil _)

/-- Every chunk but the last has exactly 1198 bytes. -/
theorem fuaChunks_dropLast (payload : Bytes) :
    ∀ c ∈ (fuaChunks payload).dropLast, c.length = 1198 := by
  generalize hk : payload.length = k
  induction k using Nat.strong_induction_on generalizing payload with
  | _ k ih =>
    intro c hc
    by_cases h0 : 0 < payload.length
    · by_cases hl : 1198 < payload.length
      · rw [fuaChunks_long _ hl] at hc
        have hne : fuaChunks (payload.drop 1198) ≠ [] :=
          fuaChunks_ne_nil _ (by rw [List.length_drop]; omega)
        obtain ⟨d, ds, hds⟩ := List.exists_cons_of_ne_nil hne
        rw [hds, List.dropLast_cons₂] at hc
        rcases List.mem_cons.1 hc with h | h
        · rw [h, List.length_take]; omega
        · rw [← hds] at h
          exact ih (payload.drop 1198).length (by rw [List.length_drop]; omega) _ rfl c h
      · rw [fuaChunks_short _ h0 (by omega)] at hc
        simp at hc
    · have : payload = [] := List.length_eq_zero.mp (by omega)
      rw [this, fuaChunks_nil] at hc
      simp at hc

/-- The lengths of FU-A payloads: two bytes more than the fragments. -/
theorem fuPackets_map_length (ind ty : Nat) (b : Bool) (frags : List Bytes) :
    (fuPackets ind ty b frags).map List.length = frags.map (fun f => f.length + 2) := by
  induction frags generalizing b with
  | nil => rfl
  | cons f rest ih =>
    simp only [fuPackets, List.map_cons, ih, List.length_append, List.length_cons,
      List.length_nil]
    congr 1
    omega

/-- The payloads chosen for a non-empty NAL unit have between 1 and 1200 bytes. -/
theorem nalPayloads_bound (nal : Bytes) (h : nal ≠ []) :
    ∀ p ∈ nalPayloads nal, 1 ≤ p.length ∧ p.length ≤ 1200 := by
  have h0 : 0 < nal.length := List.length_pos.mpr h
  intro p hp
  unfold nalPayloads at hp
  rw [if_neg (by omega)] at hp
  split at hp
  · rw [List.mem_singleton.1 hp]; omega
  · have hl : p.length ∈ (fuPackets ((nal.getD 0 0 &&& 0x60) ||| 28) (nal.getD 0 0 &&& 0x1F)
        true (fuaChunks (nal.drop 1))).map List.length := List.mem_map_of_mem _ hp
    rw [fuPackets_map_length] at hl
    obtain ⟨c, hc, hce⟩ := List.mem_map.1 hl
    have := fuaChunks_bound _ c hc
    omega

/-- The FU-A payloads of a NAL unit longer than 1200 bytes: every one carries, after its two
FU bytes, between 1 and 1198 bytes, and every one but the last exactly 1198. -/
theorem nalPayloads_fua (nal : Bytes) (h : 1200 < nal.length) :
    (nalPayloads nal).map (List.drop 2) = fuaChunks (nal.drop 1) ∧
    (∀ p ∈ nalPayloads nal, 1 ≤ (p.drop 2).length ∧ (p.drop 2).length ≤ 1198) ∧
    (∀ p ∈ (nalPayloads nal).dropLast, (p.drop 2).length = 1198) := by
  have hmap : (nalPayloads nal).map (List.drop 2) = fuaChunks (nal.drop 1) := by
    unfold nalPayloads
    rw [if_neg (by omega), if_neg (by omega), fuPackets_drop_two]
  refine ⟨hmap, ?_, ?_⟩
  · intro p hp
    have : p.drop 2 ∈ (nalPayloads nal).map (List.drop 2) := List.mem_map_of_mem _ hp
    rw [hmap] at this
    exact fuaChunks_bound _ _ this
  · intro p hp
    have : p.drop 2 ∈ ((nalPayloads nal).dropLast).map (List.drop 2) :=
      List.mem_map_of_mem _ hp
    rw [List.map_dropLast, hmap] at this
    exact fuaChunks_dropLast _ _ this

/-- Claim C27: whatever buffer `SendFrame` is given, the payloads it hands to `SendRTPPacket`
are the payloads chosen for the non-empty NAL units it parsed, in order, and every one of
them has between 1 and 1200 bytes.  A NAL unit of at most 1200 bytes is one payload; for a
longer one every payload is an FU-A packet that carries, after its two FU bytes, at most 1198
bytes of the unit after its header byte, and every one but the last carries exactly 1198. -/
theorem C27_mtu_bound (A : AEAD) (s : VideoRTPSender) (h264Data : Bytes) (ts : Nat) :
    ∃ nals : List Bytes,
      (∀ n ∈ nals, n ≠ []) ∧
      VideoRTPSender.SendFrame A s h264Data ts
        = VideoRTPSender.sealAll A ts s (withMarker (nals.flatMap nalPayloads) true) ∧
      (∀ p ∈ nals.flatMap nalPayloads, 1 ≤ p.length ∧ p.length ≤ VideoRTPSender.MAX_RTP_PAYLOAD) ∧
      (∀ nal ∈ nals, nal.length ≤ 1200 → nalPayloads nal = [nal]) ∧
      (∀ nal ∈ nals, 1200 < nal.length →
        (nalPayloads nal).map (List.drop 2) = fuaChunks (nal.drop 1) ∧
        (∀ p ∈ nalPayloads nal, 1 ≤ (p.drop 2).length ∧ (p.drop 2).length ≤ 1198) ∧
        (∀ p ∈ (nalPayloads nal).dropLast, (p.drop 2).length = 1198)) := by
  have hprops : ∀ nals : List Bytes, (∀ n ∈ nals, n ≠ []) →
      (∀ p ∈ nals.flatMap nalPayloads, 1 ≤ p.length ∧ p.length ≤ VideoRTPSender.MAX_RTP_PAYLOAD) ∧
      (∀ nal ∈ nals, nal.length ≤ 1200 → nalPayloads nal = [nal]) ∧
      (∀ nal ∈ nals, 1200 < nal.length →
        (nalPayloads nal).map (List.drop 2) = fuaChunks (nal.drop 1) ∧
        (∀ p ∈ nalPayloads nal, 1 ≤ (p.drop 2).length ∧ (p.drop 2).length ≤ 1198) ∧
        (∀ p ∈ (nalPayloads nal).dropLast, (p.drop 2).length = 1198)) := by
    intro nals hne
    refine ⟨?_, ?_, ?_⟩
    · intro p hp
      obtain ⟨nal, hnal, hpn⟩ := List.mem_flatMap.1 hp
      exact nalPayloads_bound nal (hne nal hnal) p hpn
    · intro nal hnal hl
      have h0 : 0 < nal.length := List.length_pos.mpr (hne nal hnal)
      unfold nalPayloads
      rw [if_neg (by omega), if_pos hl]
    · intro nal _ hl
      exact nalPayloads_fua nal hl
  by_cases hg : (!s.m_udp || decide (h264Data.length = 0)) = true
  · refine ⟨[], by simp, ?_, hprops [] (by simp)⟩
    simp only [VideoRTPSender.SendFrame, hg, if_true]
    rfl
  · have hne := parseNALUnits_nonempty h264Data 0 [] (by simp)
    refine ⟨VideoRTPSender.parseNALUnits h264Data 0 [], hne, ?_, hprops _ hne⟩
    simp only [VideoRTPSender.SendFrame, hg, if_false]
    rw [VideoRTPSender.SendFrame_loop_eq A _ ts hne s 0, List.drop_zero]
    simp

/-! ## Claim C23: FU-A fragments and the RTP timestamp -/

/-- A receiver initialised for video SSRC 7 under the key of 32 bytes `01`. -/
def exampleReceiver : VideoRTPReceiver :=
  VideoRTPReceiver.Init VideoRTPReceiver.fresh 7 (List.replicate 32 1)

/-- An FU-A start fragment of a NAL unit of type 5 carrying `01 02`, sealed under timestamp
1000 without marker. -/
def startFragment1000 : Bytes :=
  sealedPacket toyAEAD (List.replicate 32 1) 101 false 1 1000 7 1 [0x7C, 0x85, 1, 2]

/-- An FU-A end fragment of type 5 carrying `03 04`, sealed under timestamp 2000 with the
marker bit. -/
def endFragment2000 : Bytes :=
  sealedPacket toyAEAD (List.replicate 32 1) 101 true 2 2000 7 2 [0x7C, 0x45, 3, 4]

/-- Claim C23 as stated fails: a start fragment under timestamp 1000 is followed by an end
fragment under timestamp 2000; the receiver joins them and delivers, under timestamp 2000, a
NAL unit made of the data of both. -/
theorem C23_counterexample :
    (VideoRTPReceiver.FeedAll toyAEAD exampleReceiver
      [startFragment1000, endFragment2000]).delivered
      = [([0, 0, 0, 1, 0x65, 1, 2, 3, 4], 2000)] := by
  decide

/-- `FlushFrame` leaves the FU-A buffer and its in-progress flag as they are. -/
theorem FlushFrame_fua (r : VideoRTPReceiver) (ts : Nat) :
    (VideoRTPReceiver.FlushFrame r ts).m_fuaBuffer = r.m_fuaBuffer ∧
    (VideoRTPReceiver.FlushFrame r ts).m_fuaInProgress = r.m_fuaInProgress := by
  unfold VideoRTPReceiver.FlushFrame
  split
  · exact ⟨rfl, rfl⟩
  · split <;> exact ⟨rfl, rfl⟩

/-- The accumulator after the timestamp check of `Feed`: emptied when the timestamp changed,
kept otherwise. -/
def accumulatorAfterCheck (r : VideoRTPReceiver) (ts : Nat) : Bytes :=
  if r.m_hasTimestamp ∧ ts ≠ r.m_currentTimestamp then [] else r.m_frameBuffer

/-- The receiver that `accept` hands to `ProcessPayload`: FU-A state untouched, accumulator
as in `accumulatorAfterCheck`. -/
theorem accept_prepare (r : VideoRTPReceiver) (ts : Nat) :
    ({ (if r.m_hasTimestamp ∧ ts ≠ r.m_currentTimestamp then
          VideoRTPReceiver.FlushFrame r r.m_currentTimestamp else r) with
        m_currentTimestamp := ts, m_hasTimestamp := true } : VideoRTPReceiver).m_fuaBuffer
      = r.m_fuaBuffer ∧
    ({ (if r.m_hasTimestamp ∧ ts ≠ r.m_currentTimestamp then
          VideoRTPReceiver.FlushFrame r r.m_currentTimestamp else r) with
        m_currentTimestamp := ts, m_hasTimestamp := true } : VideoRTPReceiver).m_fuaInProgress
      = r.m_fuaInProgress ∧
    ({ (if r.m_hasTimestamp ∧ ts ≠ r.m_currentTimestamp then
          VideoRTPReceiver.FlushFrame r r.m_currentTimestamp else r) with
        m_currentTimestamp := ts, m_hasTimestamp := true } : VideoRTPReceiver).m_frameBuffer
      = accumulatorAfterCheck r ts := by
  unfold accumulatorAfterCheck
  split
  · refine ⟨(FlushFrame_fua r _).1, (FlushFrame_fua r _).2, ?_⟩
    unfold VideoRTPReceiver.FlushFrame
    split
    · rename_i h
      simpa using h
    · rfl
  · exact ⟨rfl, rfl, rfl⟩

/-- Claim C23 (amended): the receiver joins FU-A fragments without looking at RTP timestamps.
For every receiver state and every decryptable packet for the video SSRC, sealed without
marker under any timestamp `ts` (equal to the current one or not), that carries an FU-A
fragment without start bit: if a reassembly is in progress, the fragment data is appended to
the buffered data of the earlier start fragment, and with the end bit set the unit so joined
goes behind a start code into the access-unit accumulator (which the timestamp change, if
any, has emptied before); if no reassembly is in progress the fragment is discarded.  A
timestamp change or a flush leaves the FU-A buffer and its in-progress flag as they are. -/
theorem C23_fua_join_ignores_timestamp (A : AEAD) (r : VideoRTPReceiver)
    (pt seq ts n ind hdr : Nat) (f : Bytes)
    (hpt : pt < 128) (hn : n < 2 ^ 32) (hts : ts < 2 ^ 32) (hssrc : r.m_videoSSRC < 2 ^ 32)
    (hind : ind &&& 0x1F = 28) (hstart : ((hdr &&& 0x80) != 0) = false) :
    (r.m_fuaInProgress = true → ((hdr &&& 0x40) != 0) = false →
      (VideoRTPReceiver.Feed A r (sealedPacket A r.m_secretKey pt false seq ts r.m_videoSSRC n
        ([ind, hdr] ++ f))).m_fuaBuffer = r.m_fuaBuffer ++ f ∧
      (VideoRTPReceiver.Feed A r (sealedPacket A r.m_secretKey pt false seq ts r.m_videoSSRC n
        ([ind, hdr] ++ f))).m_fuaInProgress = true) ∧
    (r.m_fuaInProgress = true → ((hdr &&& 0x40) != 0) = true →
      (VideoRTPReceiver.Feed A r (sealedPacket A r.m_secretKey pt false seq ts r.m_videoSSRC n
        ([ind, hdr] ++ f))).m_frameBuffer
        = accumulatorAfterCheck r ts ++ [0x00, 0x00, 0x00, 0x01] ++ (r.m_fuaBuffer ++ f)) ∧
    (r.m_fuaInProgress = false →
      (VideoRTPReceiver.Feed A r (sealedPacket A r.m_secretKey pt false seq ts r.m_videoSSRC n
        ([ind, hdr] ++ f))).m_frameBuffer = accumulatorAfterCheck r ts ∧
      (VideoRTPReceiver.Feed A r (sealedPacket A r.m_secretKey pt false seq ts r.m_videoSSRC n
        ([ind, hdr] ++ f))).m_fuaBuffer = r.m_fuaBuffer ∧
      (VideoRTPReceiver.Feed A r (sealedPacket A r.m_secretKey pt false seq ts r.m_videoSSRC n
        ([ind, hdr] ++ f))).m_fuaInProgress = false) ∧
    (∀ t, (VideoRTPReceiver.FlushFrame r t).m_fuaBuffer = r.m_fuaBuffer ∧
      (VideoRTPReceiver.FlushFrame r t).m_fuaInProgress = r.m_fuaInProgress) := by
  have hfeed := VideoRTPReceiver.Feed_sealedPacket A r pt false seq ts n ([ind, hdr] ++ f)
    hpt hn hts hssrc
  obtain ⟨hb, hp, hfb⟩ := accept_prepare r ts
  have hacc : VideoRTPReceiver.accept r ([ind, hdr] ++ f) (seq % 2 ^ 16) ts false
      = VideoRTPReceiver.ProcessPayload
          { (if r.m_hasTimestamp ∧ ts ≠ r.m_currentTimestamp then
              VideoRTPReceiver.FlushFrame r r.m_currentTimestamp else r) with
            m_currentTimestamp := ts, m_hasTimestamp := true }
          ([ind, hdr] ++ f) (seq % 2 ^ 16) ts := by
    simp [VideoRTPReceiver.accept]
  rw [hfeed, hacc]
  refine ⟨?_, ?_, ?_, fun t => FlushFrame_fua r t⟩
  · intro hprog hend
    obtain ⟨h1, h2, _⟩ := ProcessPayload_fu _ ind hdr f (seq % 2 ^ 16) ts hind false false
      hstart hend
    rw [h1, h2, hp, hb, hprog]
    simp
  · intro hprog hend
    obtain ⟨_, _, h3⟩ := ProcessPayload_fu _ ind hdr f (seq % 2 ^ 16) ts hind false true
      hstart hend
    rw [h3, hp, hb, hfb, hprog]
    simp
  · intro hprog
    cases he : ((hdr &&& 0x40) != 0)
    · obtain ⟨h1, h2, h3⟩ := ProcessPayload_fu _ ind hdr f (seq % 2 ^ 16) ts hind false false
        hstart he
      rw [h1, h2, h3, hp, hb, hfb, hprog]
      simp
    · obtain ⟨h1, h2, h3⟩ := ProcessPayload_fu _ ind hdr f (seq % 2 ^ 16) ts hind false true
        hstart he
      rw [h1, h2, h3, hp, hb, hfb, hprog]
      simp

/-- Claim C23 (amended) at the example: after the start fragment under timestamp 1000, a
continuation fragment under timestamp 2000 is appended to the start fragment's data. -/
theorem C23_fua_join_ignores_timestamp_witness :
    (VideoRTPReceiver.Feed toyAEAD exampleReceiver startFragment1000).m_fuaInProgress = true ∧
    (VideoRTPReceiver.Feed toyAEAD exampleReceiver startFragment1000).m_currentTimestamp
      = 1000 ∧
    (VideoRTPReceiver.Feed toyAEAD
      (VideoRTPReceiver.Feed toyAEAD exampleReceiver startFragment1000)
      (sealedPacket toyAEAD
        (VideoRTPReceiver.Feed toyAEAD exampleReceiver startFragment1000).m_secretKey 101 false
        2 2000 (VideoRTPReceiver.Feed toyAEAD exampleReceiver startFragment1000).m_videoSSRC 2
        ([0x7C, 0x05] ++ [3, 4]))).m_fuaBuffer
      = (VideoRTPReceiver.Feed toyAEAD exampleReceiver startFragment1000).m_fuaBuffer
          ++ [3, 4] := by
  have h := C23_fua_join_ignores_timestamp toyAEAD
    (VideoRTPReceiver.Feed toyAEAD exampleReceiver startFragment1000) 101 2 2000 2 0x7C 0x05
    [3, 4] (by decide) (by decide) (by decide) (by decide) (by decide) (by decide)
  exact ⟨by decide, by decide, (h.1 (by decide) (by decide)).1⟩

/-! ## Claim C26: flush on timestamp change -/

/-- The accumulator, FU-A buffer and in-progress flag after `ProcessPayload` depend only on
their values before and on the payload. -/
theorem ProcessPayload_congr (r r2 : VideoRTPReceiver) (p : Bytes) (a b a2 b2 : Nat)
    (h1 : r.m_frameBuffer = r2.m_frameBuffer) (h2 : r.m_fuaBuffer = r2.m_fuaBuffer)
    (h3 : r.m_fuaInProgress = r2.m_fuaInProgress) :
    (VideoRTPReceiver.ProcessPayload r p a b).m_frameBuffer
      = (VideoRTPReceiver.ProcessPayload r2 p a2 b2).m_frameBuffer := by
  unfold VideoRTPReceiver.ProcessPayload
  simp only [h1, h2, h3]
  split_ifs <;> simp_all

/-- What a payload appends to an empty accumulator when no FU-A reassembly is in progress
depends on the payload only. -/
theorem ProcessPayload_idle (r : VideoRTPReceiver) (p : Bytes) (a b : Nat)
    (h1 : r.m_frameBuffer = []) (h3 : r.m_fuaInProgress = false) :
    (VideoRTPReceiver.ProcessPayload r p a b).m_frameBuffer
      = (VideoRTPReceiver.ProcessPayload VideoRTPReceiver.fresh p 0 0).m_frameBuffer := by
  unfold VideoRTPReceiver.ProcessPayload
  simp only [h1, h3, VideoRTPReceiver.fresh]
  split_ifs <;> simp_all

/-- A single NAL unit `41 09`, sealed under timestamp 1000 without marker. -/
def singleNal1000 : Bytes :=
  sealedPacket toyAEAD (List.replicate 32 1) 101 false 0 1000 7 0 [0x41, 9]

/-- An FU-A end fragment of type 5 carrying `03 04`, sealed under timestamp 2000 without
marker. -/
def endFragment2000NoMarker : Bytes :=
  sealedPacket toyAEAD (List.replicate 32 1) 101 false 2 2000 7 2 [0x7C, 0x45, 3, 4]

/-- Claim C26 as stated fails: the accumulator holds a NAL unit under timestamp 1000 and an
FU-A reassembly is in progress (data `65 01 02`) when an end fragment with data `03 04`
arrives under timestamp 2000.  The old accumulator is delivered once under timestamp 1000,
but afterwards the accumulator holds `65 01 02 03 04`: bytes of the earlier packet as well. -/
theorem C26_counterexample :
    (VideoRTPReceiver.FeedAll toyAEAD exampleReceiver
      [singleNal1000, startFragment1000]).m_frameBuffer = [0, 0, 0, 1, 0x41, 9] ∧
    (VideoRTPReceiver.FeedAll toyAEAD exampleReceiver
      [singleNal1000, startFragment1000]).m_currentTimestamp = 1000 ∧
    (VideoRTPReceiver.FeedAll toyAEAD exampleReceiver
      [singleNal1000, startFragment1000, endFragment2000NoMarker]).delivered
      = [([0, 0, 0, 1, 0x41, 9], 1000)] ∧
    (VideoRTPReceiver.FeedAll toyAEAD exampleReceiver
      [singleNal1000, startFragment1000, endFragment2000NoMarker]).m_frameBuffer
      = [0, 0, 0, 1, 0x65, 1, 2, 3, 4] := by
  refine ⟨by decide, by decide, by decide, by decide⟩

/-- What `ProcessPayload` appends for a payload to an emptied accumulator, given the FU-A
state of the receiver. -/
def VideoRTPReceiver.contribution (r : VideoRTPReceiver) (payload : Bytes) : Bytes :=
  (VideoRTPReceiver.ProcessPayload { r with m_frameBuffer := [] } payload 0 0).m_frameBuffer

/-- Claim C26 (amended): let the accumulator be non-empty under timestamp `t`, with a frame
callback installed, and let a decryptable packet for the video SSRC arrive with a timestamp
`ts` different from `t`.  Then the callback is invoked with exactly the accumulated bytes and
`t` before the new payload is processed, and the current timestamp becomes `ts`.  Afterwards
the accumulator holds what `ProcessPayload` appends for the new payload (`contribution`),
unless the packet has the marker bit: then that content, if any, is delivered at once under
`ts` and the accumulator is empty.  When no FU-A reassembly is in progress the contribution is
determined by the new payload alone. -/
theorem C26_flush_on_timestamp_change (A : AEAD) (r : VideoRTPReceiver)
    (pt seq ts n : Nat) (payload : Bytes) (marker : Bool)
    (hpt : pt < 128) (hn : n < 2 ^ 32) (hts : ts < 2 ^ 32) (hssrc : r.m_videoSSRC < 2 ^ 32)
    (hcb : r.m_frameCallback = true) (hhas : r.m_hasTimestamp = true)
    (hne : r.m_frameBuffer ≠ []) (hch : ts ≠ r.m_currentTimestamp) :
    (VideoRTPReceiver.Feed A r (sealedPacket A r.m_secretKey pt marker seq ts r.m_videoSSRC n
      payload)).delivered
      = r.delivered ++ [(r.m_frameBuffer, r.m_currentTimestamp)]
          ++ (if marker = true ∧ r.contribution payload ≠ [] then
                [(r.contribution payload, ts)] else []) ∧
    (VideoRTPReceiver.Feed A r (sealedPacket A r.m_secretKey pt marker seq ts r.m_videoSSRC n
      payload)).m_frameBuffer = (if marker = true then [] else r.contribution payload) ∧
    (VideoRTPReceiver.Feed A r (sealedPacket A r.m_secretKey pt marker seq ts r.m_videoSSRC n
      payload)).m_currentTimestamp = ts ∧
    (r.m_fuaInProgress = false →
      r.contribution payload
        = (VideoRTPReceiver.ProcessPayload VideoRTPReceiver.fresh payload 0 0).m_frameBuffer) := by
  have hfeed := VideoRTPReceiver.Feed_sealedPacket A r pt marker seq ts n payload
    hpt hn hts hssrc
  generalize seq % 2 ^ 16 = sq at hfeed
  have hempty : r.m_frameBuffer.isEmpty = false := by
    cases h : r.m_frameBuffer with
    | nil => exact absurd h hne
    | cons a t => rfl
  have hflush : VideoRTPReceiver.FlushFrame r r.m_currentTimestamp
      = { r with delivered := r.delivered ++ [(r.m_frameBuffer, r.m_currentTimestamp)],
                 m_frameBuffer := [], m_hasTimestamp := false } := by
    simp [VideoRTPReceiver.FlushFrame, hempty, hcb]
  have hacc : VideoRTPReceiver.accept r payload sq ts marker
      = (if marker then
          VideoRTPReceiver.FlushFrame
            (VideoRTPReceiver.ProcessPayload
              { r with delivered := r.delivered ++ [(r.m_frameBuffer, r.m_currentTimestamp)],
                       m_frameBuffer := [], m_currentTimestamp := ts, m_hasTimestamp := true }
              payload sq ts) ts
        else
          VideoRTPReceiver.ProcessPayload
            { r with delivered := r.delivered ++ [(r.m_frameBuffer, r.m_currentTimestamp)],
                     m_frameBuffer := [], m_currentTimestamp := ts, m_hasTimestamp := true }
            payload sq ts) := by
    simp [VideoRTPReceiver.accept, hhas, hch, hflush]
  generalize hr1 : ({ r with
      delivered := r.delivered ++ [(r.m_frameBuffer, r.m_currentTimestamp)],
      m_frameBuffer := [], m_currentTimestamp := ts, m_hasTimestamp := true }
      : VideoRTPReceiver) = r1 at hacc
  have hr1d : r1.delivered = r.delivered ++ [(r.m_frameBuffer, r.m_currentTimestamp)] := by
    rw [← hr1]
  have hr1t : r1.m_currentTimestamp = ts := by rw [← hr1]
  have hr1c : r1.m_frameCallback = true := by rw [← hr1]; exact hcb
  have hcontrib : (VideoRTPReceiver.ProcessPayload r1 payload sq ts).m_frameBuffer
      = r.contribution payload := by
    unfold VideoRTPReceiver.contribution
    apply ProcessPayload_congr
    · rw [← hr1]
    · rw [← hr1]
    · rw [← hr1]
  obtain ⟨_, _, hpt2, _, hpcb, hpd⟩ := ProcessPayload_frame r1 payload sq ts
  have hidle : r.m_fuaInProgress = false →
      r.contribution payload
        = (VideoRTPReceiver.ProcessPayload VideoRTPReceiver.fresh payload 0 0).m_frameBuffer :=
    fun h => ProcessPayload_idle _ payload 0 0 rfl h
  rw [hfeed, hacc]
  cases marker
  · simp only [Bool.false_eq_true, if_false, false_and]
    refine ⟨?_, hcontrib, hpt2.trans hr1t, hidle⟩
    rw [hpd, hr1d, List.append_nil]
  · simp only [if_true, true_and]
    by_cases hc : r.contribution payload = []
    · have he : (VideoRTPReceiver.ProcessPayload r1 payload sq ts).m_frameBuffer.isEmpty
          = true := by rw [hcontrib, hc]; rfl
      have hf : VideoRTPReceiver.FlushFrame (VideoRTPReceiver.ProcessPayload r1 payload sq ts) ts
          = VideoRTPReceiver.ProcessPayload r1 payload sq ts := by
        simp [VideoRTPReceiver.FlushFrame, he]
      rw [hf, if_neg (not_not.mpr hc), List.append_nil]
      exact ⟨hpd.trans hr1d, hcontrib.trans hc, hpt2.trans hr1t, hidle⟩
    · have hne2 : (VideoRTPReceiver.ProcessPayload r1 payload sq ts).m_frameBuffer ≠ [] := by
        rw [hcontrib]; exact hc
      have he : (VideoRTPReceiver.ProcessPayload r1 payload sq ts).m_frameBuffer.isEmpty
          = false := by
        cases h : (VideoRTPReceiver.ProcessPayload r1 payload sq ts).m_frameBuffer with
        | nil => exact absurd h hne2
        | cons a t => rfl
      refine ⟨?_, ?_, ?_, hidle⟩
      · rw [FlushFrame_delivered _ ts hne2 (hpcb.trans hr1c), hpd, hr1d, hcontrib, if_pos hc]
      · simp [VideoRTPReceiver.FlushFrame, he]
      · have : (VideoRTPReceiver.FlushFrame (VideoRTPReceiver.ProcessPayload r1 payload sq ts)
            ts).m_currentTimestamp
            = (VideoRTPReceiver.ProcessPayload r1 payload sq ts).m_currentTimestamp := by
          unfold VideoRTPReceiver.FlushFrame
          split
          · rfl
          · split <;> rfl
        rw [this]; exact hpt2.trans hr1t

/-- Claim C26 (amended) at the example receiver holding the NAL unit `41 09` under timestamp
1000, when a single NAL unit `41 07` arrives under timestamp 2000 without marker. -/
theorem C26_flush_on_timestamp_change_witness :
    (VideoRTPReceiver.Feed toyAEAD (VideoRTPReceiver.Feed toyAEAD exampleReceiver singleNal1000)
      (sealedPacket toyAEAD
        (VideoRTPReceiver.Feed toyAEAD exampleReceiver singleNal1000).m_secretKey 101 false 3
        2000 (VideoRTPReceiver.Feed toyAEAD exampleReceiver singleNal1000).m_videoSSRC 3
        [0x41, 7])).m_currentTimestamp = 2000 ∧
    (VideoRTPReceiver.Feed toyAEAD exampleReceiver singleNal1000).contribution [0x41, 7]
      = [0, 0, 0, 1, 0x41, 7] := by
  have h := C26_flush_on_timestamp_change toyAEAD
    (VideoRTPReceiver.Feed toyAEAD exampleReceiver singleNal1000) 101 3 2000 3 [0x41, 7] false
    (by decide) (by decide) (by decide) (by decide) (by decide) (by decide) (by decide)
    (by decide)
  exact ⟨h.2.2.1, by decide⟩

/-! ## The audio engine: decode, playback and capture

`AudioEngine::FeedMeOpus`, `OnPlaybackRequested`, `UpdateCaptureVolume`, `CheckVADVoiceGate`
and `OnCapturedPCM` (voice/src/audio_engine.cpp).  The Opus codec and the sample processing
of the capture path (gain in `double`, mono mix, RNNoise) are not modelled: what they produce
is a parameter of the function that uses it.  The playback mix is kept symbolic: the output
buffer receives, slot by slot, the `float` values of the terms listed here. -/

namespace AudioEngine

/-- Member function `AudioEngine::FeedMeOpus`.  `decoded` is what `opus_decode` returns for
this packet and `pcm` the samples it writes.  The receive level meter
(`UpdateReceiveVolume`) is left out. -/
def FeedMeOpus (e : AudioEngine) (ssrc : Nat) (data : Bytes) (decoded : Int) (pcm : List Int) :
    AudioEngine :=
  let e := { e with fedPackets := e.fedPackets ++ [(ssrc, data)] }
  if !e.m_playback_enabled then e
  else if !e.m_playback_ptr then e
  else if !e.playbackStarted then e
  else if e.m_muted_ssrcs ssrc then e
  else
    match e.m_sources ssrc with
    | some src =>
      if decoded > 0 then
        { e with m_sources := fun k =>
            if k = ssrc then some { src with buffer := src.buffer ++ pcm.take (decoded.toNat * 2) }
            else e.m_sources k }
      else e
    | none => e

/-- The `for (uint32_t i = 0; i < frames * 2; i += 2)` loop of
`AudioEngine::UpdateCaptureVolume`, entered with loop variable `i` and `left` iterations
still to run. -/
def UpdateCaptureVolume_loop (pcm : List Int) : Nat → Nat → AudioEngine → AudioEngine
  | _, 0, e => e
  | i, left + 1, e =>
    let amp : Int := (pcm.getD i 0).natAbs
    let current := e.m_capture_peak_meter
    let e := if amp > current then { e with m_capture_peak_meter := amp } else e
    UpdateCaptureVolume_loop pcm (i + 2) left e

/-- Member function `AudioEngine::UpdateCaptureVolume`; `frames * 2` is computed in
`uint32_t`. -/
def UpdateCaptureVolume (e : AudioEngine) (pcm : List Int) (frames : Nat) : AudioEngine :=
  UpdateCaptureVolume_loop pcm 0 (((frames * 2) % 2 ^ 32) / 2) e

/-- Member function `AudioEngine::CheckVADVoiceGate`.  The quotient of an `int` by `32768.0`
is exact in `double`. -/
def CheckVADVoiceGate (e : AudioEngine) : Bool :=
  decide ((e.m_capture_peak_meter : ℚ) / 32768 > e.m_capture_gate)

/-- Member function `AudioEngine::OnCapturedPCM`.  `processed` is the frame after the gain,
mono-mix and noise-suppression stages.  The result tells whether the frame reached the voice
gate and, if so, whether it passed (it is then encoded). -/
def OnCapturedPCM (e : AudioEngine) (_pcm : List Int) (frames : Nat) (processed : List Int) :
    AudioEngine × Option Bool :=
  if !e.m_encoder || !e.m_capture_enabled then (e, none)
  else
    let e := e.UpdateCaptureVolume processed frames
    if !e.CheckVADVoiceGate then (e, some false)
    else (e, some true)

end AudioEngine

/-! ## The voice client: received datagrams -/

/-- The static function `GetPayloadOffset` of voice_client.cpp. -/
def GetPayloadOffset (buf : Bytes) (num_bytes : Nat) : Nat :=
  let has_extension : Bool := (buf.getD 0 0 &&& 0b00010000) != 0
  let csrc_count := buf.getD 0 0 &&& 0b00001111
  let offset := 12 + csrc_count * 4
  if has_extension && decide (num_bytes > offset + 4) then
    offset + (4 + 4 * ((buf.getD (offset + 2) 0 <<< 8) ||| buf.getD (offset + 3) 0))
  else offset

/-- The length of the additional data in `VoiceClient::OnUDPData`: 12, or 16 when the
extension bit of the first byte is set. -/
def aadLen (data : Bytes) : Nat :=
  let has_extension : Bool := (data.getD 0 0 &&& 0b00010000) != 0
  let ext_size := if has_extension then 4 else 0
  12 + ext_size

/-- The value `ciphertext_len` of `VoiceClient::OnUDPData`,
`data.size() - ciphertext_start - sizeof(uint32_t)` computed in a `size_t` of `w` bits. -/
def ciphertextLen (w : Nat) (data : Bytes) : Nat :=
  (data.length + 2 * 2 ^ w - aadLen data - 4) % 2 ^ w

/-- Member function `VoiceClient::OnUDPData`.  `decoded` and `pcm` are the outcome of
`opus_decode` should the packet reach the decoder.  The result is `none` when
`ciphertext_len` has wrapped around: `std::vector<uint8_t> decrypted(ciphertext_len)` then
throws, and neither `OnUDPData` nor the read thread that calls it catches.  (The subtraction
for `opus_offset` cannot wrap: with the extension bit set `GetPayloadOffset` returns at least
16 on a datagram of 20 bytes or more.) -/
def VoiceClient.OnUDPData (A : AEAD) (c : VoiceClient) (data : Bytes) (decoded : Int)
    (pcm : List Int) : Option VoiceClient :=
  if data.length < 16 then some c
  else
    let ssrc := ((data.getD 8 0 <<< 24) ||| (data.getD 9 0 <<< 16) ||| (data.getD 10 0 <<< 8)
      ||| data.getD 11 0) % 2 ^ 32
    let nonce := memcpy (List.replicate 24 0) 0 ((data.drop (data.length - 4)).take 4)
    let aad_len := aadLen data
    let ciphertext_start := aad_len
    if data.length < ciphertext_start + 4 then none
    else
      let ciphertext_len := data.length - ciphertext_start - 4
      match A.decrypt c.m_secret_key nonce (data.take aad_len)
          ((data.drop ciphertext_start).take ciphertext_len) with
      | none => some c
      | some decrypted =>
        let mlen := decrypted.length
        match c.m_audio with
        | some e =>
          if mlen > 0 then
            let opus_offset := GetPayloadOffset data data.length - ciphertext_start
            if opus_offset < mlen then
              let e := e.FeedMeOpus ssrc (decrypted.drop opus_offset) decoded pcm
              some { c with m_audio := some e }
            else
              let e := e.FeedMeOpus ssrc decrypted decoded pcm
              some { c with m_audio := some e }
          else some c
        | none => some c

/-! ## Claim C28: the ciphertext length on receive -/

/-- The additional-data length is 16 with the extension bit and 12 without. -/
theorem aadLen_eq (data : Bytes) :
    aadLen data = if (data.getD 0 0 &&& 0x10) ≠ 0 then 16 else 12 := by
  unfold aadLen
  by_cases h : (data.getD 0 0 &&& 0x10) = 0
  · rw [if_neg (not_not.mpr h)]
    simp only [h, bne_self_eq_false, Bool.false_eq_true, if_false]
  · rw [if_pos h]
    have hb : ((data.getD 0 0 &&& 0x10) != 0) = true := by simpa [bne_iff_ne] using h
    simp only [hb, if_true]

/-- A 16-byte datagram whose first byte has the extension bit set. -/
def shortExtended : Bytes := [0x90, 0x78, 0, 1, 0, 0, 0, 0, 0, 0, 0, 7, 1, 0, 0, 0]

/-- Claim C28 (divergence): a datagram of 16 to 19 bytes passes the size check of
`VoiceClient::OnUDPData`; when the extension bit of its first byte is set, `aad_len` is 16,
`aad_len + 4` exceeds `data.size()`, and `ciphertext_len`, computed in a `size_t` of `w` bits,
wraps around to `2^w - (20 - data.size())`, more than the datagram has; the allocation of
that many bytes throws.  In every other case with at least 16 bytes the subtraction is
exact. -/
theorem C28_ciphertext_len_underflow (A : AEAD) (c : VoiceClient) (w : Nat) (data : Bytes)
    (decoded : Int) (pcm : List Int) (hw : 32 ≤ w) (h16 : 16 ≤ data.length)
    (hlen : data.length < 2 ^ w) :
    ((data.getD 0 0 &&& 0x10) ≠ 0 → data.length < 20 →
      aadLen data = 16 ∧ ¬ (aadLen data + 4 ≤ data.length) ∧
      ciphertextLen w data = 2 ^ w - (20 - data.length) ∧
      data.length < ciphertextLen w data ∧
      VoiceClient.OnUDPData A c data decoded pcm = none) ∧
    (((data.getD 0 0 &&& 0x10) = 0 ∨ 20 ≤ data.length) →
      aadLen data + 4 ≤ data.length ∧
      ciphertextLen w data = data.length - aadLen data - 4 ∧
      VoiceClient.OnUDPData A c data decoded pcm ≠ none) := by
  have hP : 2 ^ 32 ≤ 2 ^ w := Nat.pow_le_pow_right (by decide) hw
  have haad := aadLen_eq data
  constructor
  · intro hx h20
    rw [if_pos hx] at haad
    have hcl : ciphertextLen w data = 2 ^ w - (20 - data.length) := by
      unfold ciphertextLen
      rw [haad]
      have e : data.length + 2 * 2 ^ w - 16 - 4 = 2 ^ w + (2 ^ w - (20 - data.length)) := by
        omega
      rw [e, Nat.add_mod_left, Nat.mod_eq_of_lt (by omega)]
    refine ⟨haad, by omega, hcl, by omega, ?_⟩
    unfold VoiceClient.OnUDPData
    rw [if_neg (by omega)]
    simp only [haad]
    rw [if_pos (by omega)]
  · intro hcase
    have hle : aadLen data + 4 ≤ data.length := by
      rw [haad]
      split <;> omega
    have h12 : aadLen data ≤ 16 := by
      rw [haad]; split <;> omega
    refine ⟨hle, ?_, ?_⟩
    · unfold ciphertextLen
      have e : data.length + 2 * 2 ^ w - aadLen data - 4
          = 2 ^ w + (2 ^ w + (data.length - aadLen data - 4)) := by omega
      rw [e, Nat.add_mod_left, Nat.add_mod_left, Nat.mod_eq_of_lt (by omega)]
    · unfold VoiceClient.OnUDPData
      rw [if_neg (by omega)]
      simp only
      rw [if_neg (by omega)]
      split
      · simp
      · split
        · split
          · split <;> simp
          · simp
        · simp

/-- Claim C28 (divergence) at a 16-byte datagram with first byte `0x90`, for a 64-bit
`size_t`: `ciphertext_len` is `2^64 - 4`. -/
theorem C28_ciphertext_len_underflow_witness :
    shortExtended.length = 16 ∧ aadLen shortExtended = 16 ∧
    ciphertextLen 64 shortExtended = 2 ^ 64 - (20 - shortExtended.length) ∧
    VoiceClient.OnUDPData toyAEAD connectedClient shortExtended 0 [] = none := by
  have h := (C28_ciphertext_len_underflow toyAEAD connectedClient 64 shortExtended 0 []
    (by decide) (by decide) (by decide)).1 (by decide) (by decide)
  exact ⟨by decide, h.1, h.2.2.1, h.2.2.2.2⟩

/-! ## Claim C21: tampered packets -/

/-- Sealing is injective in the payload: the opening law recovers it. -/
theorem sealedPacket_injective (A : AEAD) (key : Bytes) (pt : Nat) (m : Bool)
    (seq ts ssrc n : Nat) (p1 p2 : Bytes)
    (h : sealedPacket A key pt m seq ts ssrc n p1 = sealedPacket A key pt m seq ts ssrc n p2) :
    p1 = p2 := by
  unfold sealedPacket at h
  have h1 := List.append_cancel_right h
  have h2 := List.append_cancel_left h1
  have h3 := congrArg (A.decrypt key (nonce24 n) (rtpHeader pt m seq ts ssrc)) h2
  rw [A.decrypt_encrypt, A.decrypt_encrypt] at h3
  exact Option.some.inj h3

/-- For every AEAD with the two laws: the sealed packet of another payload of the same length
differs from the sealed packet, has its length, and opens under the same key. -/
theorem resealed_opens (A : AEAD) (r : VideoRTPReceiver) (pt : Nat) (m : Bool)
    (seq ts ssrc n : Nat) (p1 p2 : Bytes) (hpt : pt < 128) (hn : n < 2 ^ 32)
    (hne : p1 ≠ p2) (hlen : p1.length = p2.length) :
    sealedPacket A r.m_secretKey pt m seq ts ssrc n p2
      ≠ sealedPacket A r.m_secretKey pt m seq ts ssrc n p1 ∧
    (sealedPacket A r.m_secretKey pt m seq ts ssrc n p2).length
      = (sealedPacket A r.m_secretKey pt m seq ts ssrc n p1).length ∧
    (VideoRTPReceiver.DecryptPacket A r
      (sealedPacket A r.m_secretKey pt m seq ts ssrc n p2)).isSome = true := by
  refine ⟨fun h => hne (sealedPacket_injective A _ pt m seq ts ssrc n p1 p2 h.symm), ?_, ?_⟩
  · rw [sealedPacket_length, sealedPacket_length, hlen]
  · rw [VideoRTPReceiver.DecryptPacket_sealedPacket A r pt m seq ts ssrc n p2 hpt hn]
    rfl

/-- A video packet sealed under the key of 32 bytes `01`: payload `41 09`. -/
def sealedOriginal : Bytes :=
  sealedPacket toyAEAD (List.replicate 32 1) 101 true 1 1000 7 1 [0x41, 9]

/-- A packet of the same length as `sealedOriginal` that differs from it in one ciphertext
byte: the sealed packet of the payload `41 08`. -/
def sealedOther : Bytes :=
  sealedPacket toyAEAD (List.replicate 32 1) 101 true 1 1000 7 1 [0x41, 8]

/-- Claim C21 as stated fails: `sealedOther` has the length of the sealed packet
`sealedOriginal` and differs from it in byte 13, yet it opens under the same key and its
payload is delivered.  (By `resealed_opens` this is so for every AEAD with the two laws.) -/
theorem C21_counterexample :
    sealedOther.length = sealedOriginal.length ∧
    sealedOther.getD 13 0 ≠ sealedOriginal.getD 13 0 ∧
    (VideoRTPReceiver.DecryptPacket toyAEAD exampleReceiver sealedOther).map Opened.payload
      = some [0x41, 8] ∧
    (VideoRTPReceiver.Feed toyAEAD exampleReceiver sealedOther).delivered
      = [([0, 0, 0, 1, 0x41, 8], 1000)] := by
  refine ⟨by decide, by decide, by decide, by decide⟩

/-- A datagram of at least 16 bytes is its 12-byte header, its middle part and its last four
bytes. -/
theorem datagram_split (data : Bytes) (h : 16 ≤ data.length) :
    data = data.take 12 ++ (data.drop 12).take (data.length - 12 - 4)
      ++ data.drop (data.length - 4) := by
  have e : data.length - 4 = 12 + (data.length - 12 - 4) := by omega
  rw [e, ← List.drop_drop, List.append_assoc, List.take_append_drop, List.take_append_drop]

/-- `DecryptPacket` returns `false` when the AEAD rejects, and the payload the AEAD opens
otherwise. -/
theorem DecryptPacket_eq (A : AEAD) (r : VideoRTPReceiver) (data : Bytes)
    (h : 12 + ABYTES + 4 ≤ data.length) :
    (VideoRTPReceiver.DecryptPacket A r data).map Opened.payload
      = A.decrypt r.m_secretKey (nonce24 (u32Load data (data.length - 4))) (data.take 12)
          ((data.drop 12).take (data.length - 12 - 4)) := by
  unfold VideoRTPReceiver.DecryptPacket
  simp only
  rw [if_neg (by omega), nonceBytes_eq]
  cases A.decrypt r.m_secretKey (nonce24 (u32Load data (data.length - 4))) (data.take 12)
    ((data.drop 12).take (data.length - 12 - 4)) <;> rfl

/-- The decrypt call of `VoiceClient::OnUDPData` on a datagram that has passed the size
checks: key, nonce from the last four bytes, additional data, ciphertext range. -/
def VoiceClient.audioOpen (A : AEAD) (c : VoiceClient) (data : Bytes) : Option Bytes :=
  A.decrypt c.m_secret_key
    (memcpy (List.replicate 24 0) 0 ((data.drop (data.length - 4)).take 4))
    (data.take (aadLen data))
    ((data.drop (aadLen data)).take (data.length - aadLen data - 4))

/-- When the AEAD rejects, `OnUDPData` returns with the client unchanged. -/
theorem OnUDPData_rejected (A : AEAD) (c : VoiceClient) (data : Bytes) (decoded : Int)
    (pcm : List Int) (h20 : 20 ≤ data.length) (h : c.audioOpen A data = none) :
    VoiceClient.OnUDPData A c data decoded pcm = some c := by
  have h12 : aadLen data ≤ 16 := by
    rw [aadLen_eq]; split <;> omega
  unfold VoiceClient.audioOpen at h
  unfold VoiceClient.OnUDPData
  rw [if_neg (by omega)]
  simp only
  rw [if_neg (by omega), h]

/-- The concrete AEAD instance accepts only what its sealing function produces. -/
theorem toyAEAD_authentic (key nonce aad ct msg : Bytes)
    (h : toyAEAD.decrypt key nonce aad ct = some msg) :
    ct = toyAEAD.encrypt key nonce aad msg := by
  simp only [toyAEAD, toyDecrypt, toyEncrypt] at h ⊢
  split at h
  · rename_i hc
    have hm := Option.some.inj h
    rw [← hm, ← hc.2, List.take_append_drop]
  · exact absurd h (by simp)

/-- Claim C21 (amended): a packet that the AEAD rejects is dropped silently:
`VideoRTPReceiver::DecryptPacket` returns false and `Feed` leaves the receiver as it was, and
`VoiceClient::OnUDPData` returns with the client and its audio engine as they were.  For an
AEAD that accepts only what its sealing function produces under the same key, nonce and
additional data, a packet that opens is the sealed packet of the payload it opens to, under
its own first 12 bytes and its own trailing nonce counter; so a packet that is not of that
form for any payload, in particular a sealed packet with bytes changed into anything but
another sealed packet, is rejected and dropped. -/
theorem C21_tamper_rejection (A : AEAD)
    (hauth : ∀ key nonce aad ct msg, A.decrypt key nonce aad ct = some msg →
      ct = A.encrypt key nonce aad msg)
    (r : VideoRTPReceiver) (c : VoiceClient) (data : Bytes) (decoded : Int) (pcm : List Int) :
    (VideoRTPReceiver.DecryptPacket A r data = none → VideoRTPReceiver.Feed A r data = r) ∧
    (20 ≤ data.length → c.audioOpen A data = none →
      VoiceClient.OnUDPData A c data decoded pcm = some c) ∧
    (∀ o, VideoRTPReceiver.DecryptPacket A r data = some o →
      data = data.take 12
        ++ A.encrypt r.m_secretKey (nonce24 (u32Load data (data.length - 4))) (data.take 12)
            o.payload
        ++ data.drop (data.length - 4)) ∧
    ((∀ payload, data ≠ data.take 12
        ++ A.encrypt r.m_secretKey (nonce24 (u32Load data (data.length - 4))) (data.take 12)
            payload
        ++ data.drop (data.length - 4)) →
      VideoRTPReceiver.DecryptPacket A r data = none ∧ VideoRTPReceiver.Feed A r data = r) := by
  have hdrop : VideoRTPReceiver.DecryptPacket A r data = none →
      VideoRTPReceiver.Feed A r data = r := by
    intro h
    unfold VideoRTPReceiver.Feed
    split
    · rfl
    · rw [h]
  have hform : ∀ o, VideoRTPReceiver.DecryptPacket A r data = some o →
      data = data.take 12
        ++ A.encrypt r.m_secretKey (nonce24 (u32Load data (data.length - 4))) (data.take 12)
            o.payload
        ++ data.drop (data.length - 4) := by
    intro o ho
    have hlen : 12 + ABYTES + 4 ≤ data.length := by
      by_contra hc
      unfold VideoRTPReceiver.DecryptPacket at ho
      simp only at ho
      rw [if_pos (by omega)] at ho
      exact absurd ho (by simp)
    have hopen := DecryptPacket_eq A r data hlen
    rw [ho, Option.map_some'] at hopen
    have hct := hauth _ _ _ _ _ hopen.symm
    have hsplit := datagram_split data (by unfold ABYTES at hlen; omega)
    rw [hct] at hsplit
    exact hsplit
  refine ⟨hdrop, OnUDPData_rejected A c data decoded pcm, hform, ?_⟩
  intro hnot
  have hnone : VideoRTPReceiver.DecryptPacket A r data = none := by
    cases ho : VideoRTPReceiver.DecryptPacket A r data with
    | none => rfl
    | some o => exact absurd (hform o ho) (hnot o.payload)
  exact ⟨hnone, hdrop hnone⟩

/-- The sealed packet `sealedOriginal` with the last byte of its tag changed to 99. -/
def tamperedTag : Bytes := sealedOriginal.set (sealedOriginal.length - 5) 99

/-- Claim C21 (amended) at the concrete AEAD, which accepts only what it sealed: the packet
with a changed tag byte has the length of the sealed one, is rejected, and leaves the
receiver as it was. -/
theorem C21_tamper_rejection_witness :
    tamperedTag.length = sealedOriginal.length ∧ tamperedTag ≠ sealedOriginal ∧
    VideoRTPReceiver.DecryptPacket toyAEAD exampleReceiver tamperedTag = none ∧
    VideoRTPReceiver.Feed toyAEAD exampleReceiver tamperedTag = exampleReceiver := by
  have h := C21_tamper_rejection toyAEAD toyAEAD_authentic exampleReceiver connectedClient
    tamperedTag 0 []
  exact ⟨by decide, by decide, by decide, h.1 (by decide)⟩

/-! ## Claims C24 and C25: muted and unknown sources -/

/-- Claim C25 as stated fails: on an engine with playback enabled, the device running and
SSRC 7 neither muted nor known, `FeedMeOpus(7, ...)` leaves the source table without an entry
for 7, whereas `AddSSRC(7)` creates one. -/
theorem C25_counterexample :
    ((({} : AudioEngine).FeedMeOpus 7 [0xF8, 0xFF, 0xFE] 1 [1000, -1000]).m_sources 7).isSome
      = false ∧
    ((({} : AudioEngine).AddSSRC 7).m_sources 7).isSome = true ∧
    (({} : AudioEngine).FeedMeOpus 7 [0xF8, 0xFF, 0xFE] 1 [1000, -1000]).fedPackets
      = [(7, [0xF8, 0xFF, 0xFE])] := by
  refine ⟨by decide, by decide, by decide⟩

/-- Claim C25 (amended): per-SSRC state is not created by decoding.  For every SSRC without
an entry in the source table, `FeedMeOpus` leaves the source table as it was (the packet is
dropped), whatever the playback state; an entry is created only by `AddSSRC`, which the
client calls on a `Speaking` event: after `AddSSRC` (the decoder having been created) the
SSRC is present with an empty FIFO, and `FeedMeOpus` then appends the decoded samples. -/
theorem C25_state_only_from_add (e : AudioEngine) (ssrc : Nat) (data : Bytes) (decoded : Int)
    (pcm : List Int) (h : e.m_sources ssrc = none) :
    (e.FeedMeOpus ssrc data decoded pcm).m_sources = e.m_sources ∧
    (e.FeedMeOpus ssrc data decoded pcm).m_sources ssrc = none ∧
    (e.decoderCreateOk = true → (e.AddSSRC ssrc).m_sources ssrc = some {}) ∧
    (e.decoderCreateOk = true → e.m_playback_enabled = true → e.m_playback_ptr = true →
      e.playbackStarted = true → e.m_muted_ssrcs ssrc = false → 0 < decoded →
      ((e.AddSSRC ssrc).FeedMeOpus ssrc data decoded pcm).m_sources ssrc
        = some { buffer := pcm.take (decoded.toNat * 2) }) := by
  have h1 : (e.FeedMeOpus ssrc data decoded pcm).m_sources = e.m_sources := by
    unfold AudioEngine.FeedMeOpus
    simp only [h]
    repeat' split
    all_goals rfl
  have hadd : e.decoderCreateOk = true → (e.AddSSRC ssrc).m_sources ssrc = some {} := by
    intro hok
    simp [AudioEngine.AddSSRC, h, hok]
  refine ⟨h1, by rw [h1]; exact h, hadd, ?_⟩
  intro hok hen hptr hst hmu hdec
  have hfields : (e.AddSSRC ssrc).m_playback_enabled = true ∧
      (e.AddSSRC ssrc).m_playback_ptr = true ∧ (e.AddSSRC ssrc).playbackStarted = true ∧
      (e.AddSSRC ssrc).m_muted_ssrcs ssrc = false := by
    simp [AudioEngine.AddSSRC, h, hok, hen, hptr, hst, hmu]
  obtain ⟨f1, f2, f3, f4⟩ := hfields
  have hsrc := hadd hok
  unfold AudioEngine.FeedMeOpus
  simp only [f1, f2, f3, f4, hsrc, hdec]
  simp

/-- Claim C25 (amended) at the default engine and SSRC 7. -/
theorem C25_state_only_from_add_witness :
    ((({} : AudioEngine).FeedMeOpus 7 [0xF8, 0xFF, 0xFE] 1 [1000, -1000]).m_sources 7) = none ∧
    ((({} : AudioEngine).AddSSRC 7).m_sources 7) = some {} :=
  ⟨(C25_state_only_from_add {} 7 [0xF8, 0xFF, 0xFE] 1 [1000, -1000] rfl).2.1,
   (C25_state_only_from_add {} 7 [0xF8, 0xFF, 0xFE] 1 [1000, -1000] rfl).2.2.1 rfl⟩

/-! ## Claim C30: the capture peak meter -/

/-- The peak as the specification words it: the maximum of the old value and the absolute
values of the left-channel samples `pcm[0], pcm[2], ...` of the frame. -/
def peakOf (old : Int) (pcm : List Int) (frames : Nat) : Int :=
  ((List.range frames).map (fun j => (((pcm.getD (2 * j) 0).natAbs : Nat) : Int))).foldl max old

/-- The same maximum over the samples `pcm[i], pcm[i + 2], ...`, `left` of them. -/
def peakFrom (old : Int) (pcm : List Int) (i left : Nat) : Int :=
  ((List.range left).map (fun j => (((pcm.getD (i + 2 * j) 0).natAbs : Nat) : Int))).foldl max
    old

/-- A left fold of `max` is at least its start value. -/
theorem le_foldl_max (l : List Int) (a : Int) : a ≤ l.foldl max a := by
  induction l generalizing a with
  | nil => exact le_refl a
  | cons x xs ih => exact le_trans (le_max_left a x) (ih (max a x))

/-- The loop of `UpdateCaptureVolume` writes the peak meter only, and leaves in it the
maximum of its old value and the absolute values of the samples it visits. -/
theorem UpdateCaptureVolume_loop_eq (pcm : List Int) (left i : Nat) (e : AudioEngine) :
    AudioEngine.UpdateCaptureVolume_loop pcm i left e
      = { e with m_capture_peak_meter := peakFrom e.m_capture_peak_meter pcm i left } := by
  induction left generalizing i e with
  | zero => rfl
  | succ left ih =>
    have hstep : peakFrom e.m_capture_peak_meter pcm i (left + 1)
        = peakFrom (max e.m_capture_peak_meter (((pcm.getD i 0).natAbs : Nat) : Int)) pcm
            (i + 2) left := by
      unfold peakFrom
      rw [List.range_succ_eq_map, List.map_cons, List.foldl_cons, List.map_map]
      have hfun : ((fun j => (((pcm.getD (i + 2 * j) 0).natAbs : Nat) : Int)) ∘ Nat.succ)
          = fun j => (((pcm.getD (i + 2 + 2 * j) 0).natAbs : Nat) : Int) := by
        funext j
        simp only [Function.comp]
        congr 3
        omega
      rw [hfun]
      rfl
    rw [AudioEngine.UpdateCaptureVolume_loop, ih, hstep]
    by_cases h : (((pcm.getD i 0).natAbs : Nat) : Int) > e.m_capture_peak_meter
    · simp only [h, if_true]
      rw [max_eq_right (le_of_lt h)]
    · simp only [h, if_false]
      rw [max_eq_left (not_lt.mp h)]

/-- `UpdateCaptureVolume` with fewer than 2^31 frames. -/
theorem UpdateCaptureVolume_eq (e : AudioEngine) (pcm : List Int) (frames : Nat)
    (h : frames < 2 ^ 31) :
    e.UpdateCaptureVolume pcm frames
      = { e with m_capture_peak_meter := peakOf e.m_capture_peak_meter pcm frames } := by
  unfold AudioEngine.UpdateCaptureVolume
  have hl : frames * 2 % 2 ^ 32 / 2 = frames := by omega
  have hp : peakFrom e.m_capture_peak_meter pcm 0 frames
      = peakOf e.m_capture_peak_meter pcm frames := by
    unfold peakFrom peakOf
    simp only [Nat.zero_add]
  rw [hl, UpdateCaptureVolume_loop_eq, hp]

/-- `UpdateCaptureVolume` never lowers the peak meter and writes nothing else. -/
theorem UpdateCaptureVolume_frame (e : AudioEngine) (pcm : List Int) (frames : Nat) :
    e.m_capture_peak_meter ≤ (e.UpdateCaptureVolume pcm frames).m_capture_peak_meter ∧
    (e.UpdateCaptureVolume pcm frames).m_capture_gate = e.m_capture_gate ∧
    (e.UpdateCaptureVolume pcm frames).m_encoder = e.m_encoder ∧
    (e.UpdateCaptureVolume pcm frames).m_capture_enabled = e.m_capture_enabled := by
  unfold AudioEngine.UpdateCaptureVolume
  rw [UpdateCaptureVolume_loop_eq]
  exact ⟨le_foldl_max _ _, rfl, rfl, rfl⟩

/-- The voice gate is monotone in the peak meter, for a fixed threshold. -/
theorem CheckVADVoiceGate_mono (e e2 : AudioEngine) (hg : e2.m_capture_gate = e.m_capture_gate)
    (hm : e.m_capture_peak_meter ≤ e2.m_capture_peak_meter)
    (h : e.CheckVADVoiceGate = true) : e2.CheckVADVoiceGate = true := by
  simp only [AudioEngine.CheckVADVoiceGate, decide_eq_true_eq, gt_iff_lt] at h ⊢
  rw [hg]
  have hq : (e.m_capture_peak_meter : ℚ) ≤ (e2.m_capture_peak_meter : ℚ) := by
    exact_mod_cast hm
  have : (e.m_capture_peak_meter : ℚ) / 32768 ≤ (e2.m_capture_peak_meter : ℚ) / 32768 :=
    div_le_div_of_nonneg_right hq (by norm_num)
  exact lt_of_lt_of_le h this

/-- The results of `OnCapturedPCM` for successive frames `(pcm, frames, processed)`. -/
def AudioEngine.captureRun (e : AudioEngine) : List (List Int × Nat × List Int) →
    List (Option Bool)
  | [] => []
  | f :: fs =>
    (e.OnCapturedPCM f.1 f.2.1 f.2.2).2 :: captureRun (e.OnCapturedPCM f.1 f.2.1 f.2.2).1 fs

/-- Once the gate is open (encoder present, capture enabled), every captured frame passes. -/
theorem captureRun_open (fs : List (List Int × Nat × List Int)) (e : AudioEngine)
    (henc : e.m_encoder = true) (hen : e.m_capture_enabled = true)
    (hgate : e.CheckVADVoiceGate = true) :
    ∀ x ∈ e.captureRun fs, x = some true := by
  induction fs generalizing e with
  | nil => intro x hx; exact absurd hx (List.not_mem_nil _)
  | cons f fs ih =>
    obtain ⟨hm, hg, h1, h2⟩ := UpdateCaptureVolume_frame e f.2.2 f.2.1
    have hpass := CheckVADVoiceGate_mono e (e.UpdateCaptureVolume f.2.2 f.2.1) hg hm hgate
    have hstep : e.OnCapturedPCM f.1 f.2.1 f.2.2
        = (e.UpdateCaptureVolume f.2.2 f.2.1, some true) := by
      simp [AudioEngine.OnCapturedPCM, henc, hen, hpass]
    intro x hx
    rw [AudioEngine.captureRun, hstep] at hx
    rcases List.mem_cons.1 hx with h | h
    · exact h
    · exact ih _ (h1.trans henc) (h2.trans hen) hpass x h

/-- Claim C30: `UpdateCaptureVolume` never lowers the capture peak meter: with fewer than
2^31 frames it becomes the maximum of its old value and the absolute left-channel samples of
the frame.  Nothing else writes the meter, so for a fixed gate threshold, once a captured
frame has passed `CheckVADVoiceGate` in `OnCapturedPCM`, every later captured frame passes it
as well, whatever its samples. -/
theorem C30_peak_meter_never_decreases (e : AudioEngine) (pcm : List Int) (frames : Nat)
    (processed : List Int) (later : List (List Int × Nat × List Int)) :
    e.m_capture_peak_meter ≤ (e.UpdateCaptureVolume pcm frames).m_capture_peak_meter ∧
    (frames < 2 ^ 31 →
      (e.UpdateCaptureVolume pcm frames).m_capture_peak_meter
        = peakOf e.m_capture_peak_meter pcm frames) ∧
    ((e.OnCapturedPCM pcm frames processed).2 = some true →
      ∀ x ∈ (e.OnCapturedPCM pcm frames processed).1.captureRun later, x = some true) := by
  refine ⟨(UpdateCaptureVolume_frame e pcm frames).1, ?_, ?_⟩
  · intro h
    rw [UpdateCaptureVolume_eq e pcm frames h]
  · intro hpass
    obtain ⟨_, _, h1, h2⟩ := UpdateCaptureVolume_frame e processed frames
    by_cases hguard : (!e.m_encoder || !e.m_capture_enabled) = true
    · simp [AudioEngine.OnCapturedPCM, hguard] at hpass
    · have henc : e.m_encoder = true := by
        cases h : e.m_encoder <;> simp_all
      have hen : e.m_capture_enabled = true := by
        cases h : e.m_capture_enabled <;> simp_all
      by_cases hgate : (e.UpdateCaptureVolume processed frames).CheckVADVoiceGate = true
      · have hstep : e.OnCapturedPCM pcm frames processed
            = (e.UpdateCaptureVolume processed frames, some true) := by
          simp [AudioEngine.OnCapturedPCM, henc, hen, hgate]
        rw [hstep]
        exact captureRun_open later _ (h1.trans henc) (h2.trans hen) hgate
      · simp [AudioEngine.OnCapturedPCM, henc, hen, hgate] at hpass

/-- An engine whose gate threshold is 1/100. -/
def gatedEngine : AudioEngine := { m_capture_gate := 1 / 100 }

/-- Claim C30 at the example: a frame with left-channel peak 1000 passes the gate
(1000 / 32768 > 1 / 100), and the silent frame after it passes too. -/
theorem C30_peak_meter_never_decreases_witness :
    (gatedEngine.OnCapturedPCM [1000, 1000, -500, -500] 2 [1000, 1000, -500, -500]).2
      = some true ∧
    (gatedEngine.OnCapturedPCM [0, 0, 0, 0] 2 [0, 0, 0, 0]).2 = some false ∧
    ∀ x ∈ (gatedEngine.OnCapturedPCM [1000, 1000, -500, -500] 2
        [1000, 1000, -500, -500]).1.captureRun [([0, 0, 0, 0], 2, [0, 0, 0, 0])],
      x = some true := by
  have hpass : (gatedEngine.OnCapturedPCM [1000, 1000, -500, -500] 2
      [1000, 1000, -500, -500]).2 = some true := by
    simp [AudioEngine.OnCapturedPCM, AudioEngine.UpdateCaptureVolume,
      AudioEngine.UpdateCaptureVolume_loop, AudioEngine.CheckVADVoiceGate, gatedEngine]
    norm_num
  have hquiet : (gatedEngine.OnCapturedPCM [0, 0, 0, 0] 2 [0, 0, 0, 0]).2 = some false := by
    simp [AudioEngine.OnCapturedPCM, AudioEngine.UpdateCaptureVolume,
      AudioEngine.UpdateCaptureVolume_loop, AudioEngine.CheckVADVoiceGate, gatedEngine]
  exact ⟨hpass, hquiet,
    (C30_peak_meter_never_decreases gatedEngine [1000, 1000, -500, -500] 2
      [1000, 1000, -500, -500] [([0, 0, 0, 0], 2, [0, 0, 0, 0])]).2.2 hpass⟩

/-! ## The H.264 decoder: NV12 to BGRA

The pixel loop of the NV12 branch of `H264Decoder::Decode` (src/core/stream/H264Decoder.cpp).
The Media Foundation calls that produce the output buffer, its dimensions and its stride are
not modelled: the buffer `outData`, the dimensions and the `MF_MT_DEFAULT_STRIDE` attribute
(absent: `none`) are parameters.  A read outside the buffer gives 0.  Indices are computed in
32 bits. -/

namespace H264Decoder

/-- The body of the pixel loop: the four bytes written for one pixel from its luma and chroma
samples.  `>>` on a negative `int` is the arithmetic shift. -/
def nv12Pixel (Y U V : Nat) : Bytes :=
  let C : Int := (Y : Int) - 16
  let D : Int := (U : Int) - 128
  let E : Int := (V : Int) - 128
  let R : Int := (298 * C + 409 * E + 128) >>> (8 : Nat)
  let G : Int := (298 * C - 100 * D - 208 * E + 128) >>> (8 : Nat)
  let B : Int := (298 * C + 516 * D + 128) >>> (8 : Nat)
  let R := if R < 0 then 0 else R
  let R := if R > 255 then 255 else R
  let G := if G < 0 then 0 else G
  let G := if G > 255 then 255 else G
  let B := if B < 0 then 0 else B
  let B := if B > 255 then 255 else B
  [(B % 256).toNat, (G % 256).toNat, (R % 256).toNat, 255]

/-- The stride the loop uses: the default-stride attribute if the output type has one, the
width otherwise, and the width again if that gave 0. -/
def strideOf (outWidth : Nat) (defaultStride : Option Nat) : Nat :=
  let stride := outWidth
  let stride := match defaultStride with
    | some d => d
    | none => stride
  if stride = 0 then outWidth else stride

/-- The luma read index `y * stride + x`. -/
def yIdx (y stride x : Nat) : Nat := (y * stride + x) % 2 ^ 32

/-- The chroma read index `(y / 2) * stride + (x & ~1)`, relative to the chroma plane. -/
def uvIdx (y stride x : Nat) : Nat := ((y / 2) * stride + (x &&& 0xFFFFFFFE)) % 2 ^ 32

/-- The pixel that the loop writes at `(x, y)`. -/
def pixelAt (outData : Bytes) (frameSize stride : Nat) (y x : Nat) : Bytes :=
  let Y := outData.getD (yIdx y stride x) 0
  let U := outData.getD (frameSize + uvIdx y stride x) 0
  let V := outData.getD (frameSize + (uvIdx y stride x + 1)) 0
  nv12Pixel Y U V

/-- The NV12 branch of `H264Decoder::Decode`: the contents of `outPixels` after the two
loops, which write the pixels in row-major order, four bytes each. -/
def convertNV12 (outData : Bytes) (outWidth outHeight : Nat) (defaultStride : Option Nat) :
    Bytes :=
  let frameSize := outWidth * outHeight
  let stride := strideOf outWidth defaultStride
  (List.range outHeight).flatMap (fun y =>
    (List.range outWidth).flatMap (fun x => pixelAt outData frameSize stride y x))

end H264Decoder

/-! ## Claim C22: NV12 to BGRA -/

/-- The clamp of the specification. -/
def clamp255 (z : Int) : Nat := (max 0 (min z 255)).toNat

/-- The arithmetic shift by 8 is the floor division by 256. -/
theorem shiftRight_eight (z : Int) : z >>> (8 : Nat) = Int.fdiv z 256 := by
  rw [Int.shiftRight_eq_div_pow, Int.fdiv_eq_ediv z (by decide)]
  rfl

/-- The two `if`s of the loop body and the cast to `uint8_t` are the clamp. -/
theorem clamp_ifs (z : Int) :
    (((if (if z < 0 then 0 else z) > 255 then 255 else (if z < 0 then 0 else z)) % 256)).toNat
      = clamp255 z := by
  unfold clamp255
  by_cases h0 : z < 0
  · simp only [h0, if_true]
    rw [if_neg (by decide), max_eq_left (by omega)]
    rfl
  · by_cases h1 : z > 255
    · simp only [h0, if_false, h1, if_true]
      rw [min_eq_right (by omega), max_eq_right (by decide)]
      rfl
    · simp only [h0, if_false, h1]
      rw [min_eq_left (by omega), max_eq_right (by omega), Int.emod_eq_of_lt (by omega) (by omega)]

/-- The clamp lies in 0..255. -/
theorem clamp255_lt (z : Int) : clamp255 z < 256 := by
  unfold clamp255
  omega

/-- The pixel of the loop body in the words of the specification. -/
theorem nv12Pixel_eq (Y U V : Nat) :
    H264Decoder.nv12Pixel Y U V
      = [clamp255 (Int.fdiv (298 * ((Y : Int) - 16) + 516 * ((U : Int) - 128) + 128) 256),
         clamp255 (Int.fdiv (298 * ((Y : Int) - 16) - 100 * ((U : Int) - 128)
           - 208 * ((V : Int) - 128) + 128) 256),
         clamp255 (Int.fdiv (298 * ((Y : Int) - 16) + 409 * ((V : Int) - 128) + 128) 256),
         255] := by
  unfold H264Decoder.nv12Pixel
  simp only [clamp_ifs, shiftRight_eight]

/-- Blocks of equal length laid end to end: the total length. -/
theorem flatMap_block_length {α : Type} (f : Nat → List α) (k : Nat)
    (hlen : ∀ j, (f j).length = k) (m : Nat) : ((List.range m).flatMap f).length = m * k := by
  induction m with
  | zero => simp
  | succ m ih =>
    rw [List.range_succ, List.flatMap_append, List.length_append, ih]
    simp [hlen, Nat.succ_mul]

/-- Blocks of equal length laid end to end: the `i`-th block sits at offset `i * k`. -/
theorem flatMap_block {α : Type} (f : Nat → List α) (k n i : Nat)
    (hlen : ∀ j, (f j).length = k) (hi : i < n) :
    (((List.range n).flatMap f).drop (i * k)).take k = f i := by
  have htotal := flatMap_block_length f k hlen
  induction n with
  | zero => exact absurd hi (Nat.not_lt_zero _)
  | succ n ih =>
    rw [List.range_succ, List.flatMap_append]
    have hlast : [n].flatMap f = f n := by simp
    rw [hlast]
    by_cases hin : i < n
    · have hle : i * k + k ≤ ((List.range n).flatMap f).length := by
        rw [htotal n]
        calc i * k + k = (i + 1) * k := by rw [Nat.succ_mul]
          _ ≤ n * k := Nat.mul_le_mul_right k hin
      rw [List.drop_append_of_le_length (by omega), List.take_append_of_le_length
        (by rw [List.length_drop]; omega)]
      exact ih hin
    · have hieq : i = n := by omega
      subst hieq
      rw [List.drop_append_of_le_length (by rw [htotal i]),
        List.drop_eq_nil_of_le (by rw [htotal i]), List.nil_append,
        List.take_of_length_le (by rw [hlen])]

/-- The bytes that the conversion writes for the pixel `(x, y)`: at offset
`(y * outWidth + x) * 4` of `outPixels`. -/
theorem convertNV12_pixel (outData : Bytes) (outWidth outHeight : Nat)
    (defaultStride : Option Nat) (x y : Nat) (hx : x < outWidth) (hy : y < outHeight) :
    ((H264Decoder.convertNV12 outData outWidth outHeight defaultStride).drop
        ((y * outWidth + x) * 4)).take 4
      = H264Decoder.pixelAt outData (outWidth * outHeight)
          (H264Decoder.strideOf outWidth defaultStride) y x := by
  unfold H264Decoder.convertNV12
  simp only
  generalize H264Decoder.strideOf outWidth defaultStride = stride
  generalize outWidth * outHeight = frameSize
  have hpix : ∀ yy xx, (H264Decoder.pixelAt outData frameSize stride yy xx).length = 4 := by
    intro yy xx
    rw [H264Decoder.pixelAt, nv12Pixel_eq]
    rfl
  have hrowlen : ∀ yy, ((List.range outWidth).flatMap (fun xx =>
      H264Decoder.pixelAt outData frameSize stride yy xx)).length = outWidth * 4 :=
    fun yy => flatMap_block_length _ 4 (hpix yy) outWidth
  have hrow := flatMap_block (fun yy => (List.range outWidth).flatMap (fun xx =>
      H264Decoder.pixelAt outData frameSize stride yy xx)) (outWidth * 4) outHeight y hrowlen hy
  have hpx := flatMap_block (fun xx => H264Decoder.pixelAt outData frameSize stride y xx) 4
    outWidth x (hpix y) hx
  simp only at hrow hpx
  rw [← hpx, ← hrow, List.drop_take, List.take_take, List.drop_drop]
  have e1 : min 4 (outWidth * 4 - x * 4) = 4 := by omega
  have e2 : y * (outWidth * 4) + x * 4 = (y * outWidth + x) * 4 := by
    rw [Nat.add_mul, Nat.mul_assoc]
  rw [e1, e2]

/-- The stride of the loop, spelled out: the default-stride attribute when the output type
has one and it is not 0, the width otherwise. -/
theorem strideOf_eq (outWidth : Nat) (defaultStride : Option Nat) :
    H264Decoder.strideOf outWidth defaultStride
      = if defaultStride.getD outWidth = 0 then outWidth else defaultStride.getD outWidth := by
  cases defaultStride <;> rfl

/-- A 2 x 2 NV12 frame: luma `81 81 16 235`, one chroma pair `U = 90`, `V = 240`. -/
def exampleFrame : Bytes := [81, 81, 16, 235, 90, 240]

/-- Claim C22: for all sample values `Y`, `U`, `V` (bytes in particular), the loop body gives
`(B, G, R, 255)` with `C = Y - 16`, `D = U - 128`, `E = V - 128`,
`R = clamp(floor((298C + 409E + 128) / 256))`,
`G = clamp(floor((298C - 100D - 208E + 128) / 256))`,
`B = clamp(floor((298C + 516D + 128) / 256))`; every channel lies in 0..255; `Y = 16`,
`U = V = 128` gives black and `Y = 235`, `U = V = 128` gives white.  And this is the pixel that
`H264Decoder::Decode` writes: for every buffer, width, height and stride attribute and every
pixel `(x, y)` of the frame, the four bytes at offset `(y * width + x) * 4` of the output are
`(B, G, R, 255)` computed by these formulas from the samples the loop reads for that pixel,
`Y` at `y * stride + x` and `U`, `V` at `(y / 2) * stride + (x & ~1)` and the byte after it,
counted from the offset `width * height` (indices in 32 bits). -/
theorem C22_nv12_to_bgra (Y U V : Nat) :
    H264Decoder.nv12Pixel Y U V
      = [clamp255 (Int.fdiv (298 * ((Y : Int) - 16) + 516 * ((U : Int) - 128) + 128) 256),
         clamp255 (Int.fdiv (298 * ((Y : Int) - 16) - 100 * ((U : Int) - 128)
           - 208 * ((V : Int) - 128) + 128) 256),
         clamp255 (Int.fdiv (298 * ((Y : Int) - 16) + 409 * ((V : Int) - 128) + 128) 256),
         255] ∧
    (∀ b ∈ H264Decoder.nv12Pixel Y U V, b < 256) ∧
    H264Decoder.nv12Pixel 16 128 128 = [0, 0, 0, 255] ∧
    H264Decoder.nv12Pixel 235 128 128 = [255, 255, 255, 255] ∧
    (∀ (outData : Bytes) (outWidth outHeight : Nat) (defaultStride : Option Nat)
      (stride x y ys us vs : Nat),
      x < outWidth → y < outHeight →
      stride = (if defaultStride.getD outWidth = 0 then outWidth
        else defaultStride.getD outWidth) →
      ys = outData.getD ((y * stride + x) % 2 ^ 32) 0 →
      us = outData.getD
        (outWidth * outHeight + ((y / 2) * stride + (x &&& 0xFFFFFFFE)) % 2 ^ 32) 0 →
      vs = outData.getD
        (outWidth * outHeight + (((y / 2) * stride + (x &&& 0xFFFFFFFE)) % 2 ^ 32 + 1)) 0 →
      ((H264Decoder.convertNV12 outData outWidth outHeight defaultStride).drop
          ((y * outWidth + x) * 4)).take 4
        = [clamp255 (Int.fdiv (298 * ((ys : Int) - 16) + 516 * ((us : Int) - 128) + 128) 256),
           clamp255 (Int.fdiv (298 * ((ys : Int) - 16) - 100 * ((us : Int) - 128)
             - 208 * ((vs : Int) - 128) + 128) 256),
           clamp255 (Int.fdiv (298 * ((ys : Int) - 16) + 409 * ((vs : Int) - 128) + 128) 256),
           255]) := by
  refine ⟨nv12Pixel_eq Y U V, ?_, by decide, by decide, ?_⟩
  · intro b hb
    rw [nv12Pixel_eq] at hb
    simp only [List.mem_cons, List.mem_singleton, List.not_mem_nil, or_false] at hb
    rcases hb with h | h | h | h
    · rw [h]; exact clamp255_lt _
    · rw [h]; exact clamp255_lt _
    · rw [h]; exact clamp255_lt _
    · rw [h]; decide
  · intro outData outWidth outHeight defaultStride stride x y ys us vs hx hy hs hys hus hvs
    rw [convertNV12_pixel outData outWidth outHeight defaultStride x y hx hy, strideOf_eq,
      ← hs]
    unfold H264Decoder.pixelAt H264Decoder.yIdx H264Decoder.uvIdx
    simp only
    rw [← hys, ← hus, ← hvs, nv12Pixel_eq]

/-- Claim C22 at the example frame: the whole converted frame, and its pixel `(1, 1)`, which
the loop computes from `Y = 235` (luma index 3) and `U = 90`, `V = 240` (chroma indices 0
and 1 behind offset 4): it is `(178, 179, 255, 255)`. -/
theorem C22_nv12_to_bgra_witness :
    H264Decoder.convertNV12 exampleFrame 2 2 none
      = [0, 0, 255, 255, 0, 0, 255, 255, 0, 0, 179, 255, 178, 179, 255, 255] ∧
    ((H264Decoder.convertNV12 exampleFrame 2 2 none).drop ((1 * 2 + 1) * 4)).take 4
      = [clamp255 (Int.fdiv (298 * (((235 : Nat) : Int) - 16)
            + 516 * (((90 : Nat) : Int) - 128) + 128) 256),
         clamp255 (Int.fdiv (298 * (((235 : Nat) : Int) - 16)
            - 100 * (((90 : Nat) : Int) - 128) - 208 * (((240 : Nat) : Int) - 128) + 128) 256),
         clamp255 (Int.fdiv (298 * (((235 : Nat) : Int) - 16)
            + 409 * (((240 : Nat) : Int) - 128) + 128) 256),
         255] ∧
    [clamp255 (Int.fdiv (298 * (((235 : Nat) : Int) - 16)
          + 516 * (((90 : Nat) : Int) - 128) + 128) 256),
       clamp255 (Int.fdiv (298 * (((235 : Nat) : Int) - 16)
          - 100 * (((90 : Nat) : Int) - 128) - 208 * (((240 : Nat) : Int) - 128) + 128) 256),
       clamp255 (Int.fdiv (298 * (((235 : Nat) : Int) - 16)
          + 409 * (((240 : Nat) : Int) - 128) + 128) 256),
       255] = [178, 179, 255, 255] ∧
    H264Decoder.nv12Pixel 81 90 240 = [0, 0, 255, 255] :=
  ⟨by decide,
   (C22_nv12_to_bgra 0 0 0).2.2.2.2 exampleFrame 2 2 none 2 1 1 235 90 240 (by decide)
     (by decide) (by decide) (by decide) (by decide) (by decide),
   by decide, by decide⟩

/-! ## Claim C29: plane indexing -/

/-- `x & ~1` is even and at most `x`. -/
theorem and_mask_even (x : Nat) : (x &&& 0xFFFFFFFE) % 2 = 0 ∧ x &&& 0xFFFFFFFE ≤ x := by
  refine ⟨?_, Nat.and_le_left⟩
  have h := Nat.testBit_and x 0xFFFFFFFE 0
  have h2 : Nat.testBit 0xFFFFFFFE 0 = false := by decide
  rw [h2, Bool.and_false, Nat.testBit_zero] at h
  have h3 := of_decide_eq_false h
  omega

/-- Claim C29 (divergence): the code places the chroma plane at offset `width * height` but
addresses rows by `stride`.  When the stride equals the width and both dimensions are even,
every luma index is below `width * height` and every chroma index pair lies in a plane of
`width * height / 2` bytes.  When the stride exceeds the width (and the frame has at least
two rows), the luma index of the last pixel is `width * height` or more: the read leaves the
luma plane as the code lays it out. -/
theorem C29_plane_indexing (w h stride : Nat) (hno : h * stride < 2 ^ 32) (hsw : w ≤ stride) :
    (stride = w → w % 2 = 0 → h % 2 = 0 → ∀ x y, x < w → y < h →
      H264Decoder.yIdx y stride x < w * h ∧
      H264Decoder.uvIdx y stride x + 1 < w * h / 2) ∧
    (w < stride → 1 ≤ w → 2 ≤ h →
      w * h ≤ H264Decoder.yIdx (h - 1) stride (w - 1)) := by
  constructor
  · intro hs hw2 hh2 x y hx hy
    subst hs
    obtain ⟨hev, hle⟩ := and_mask_even x
    have hrow : y * stride + x < stride * h := by
      calc y * stride + x < y * stride + stride := by omega
        _ = (y + 1) * stride := by rw [Nat.succ_mul]
        _ ≤ h * stride := Nat.mul_le_mul_right stride hy
        _ = stride * h := Nat.mul_comm _ _
    have hhalf : stride * h / 2 = (h / 2) * stride := by
      obtain ⟨k, hk⟩ : ∃ k, h = 2 * k := ⟨h / 2, by omega⟩
      subst hk
      rw [Nat.mul_div_cancel_left k (by decide), Nat.mul_comm stride (2 * k),
        Nat.mul_assoc, Nat.mul_div_cancel_left _ (by decide)]
    have hy2 : y / 2 + 1 ≤ h / 2 := by omega
    have hchroma : (y / 2) * stride + (x &&& 0xFFFFFFFE) + 1 < (h / 2) * stride := by
      calc (y / 2) * stride + (x &&& 0xFFFFFFFE) + 1
          < (y / 2) * stride + stride := by omega
        _ = (y / 2 + 1) * stride := by rw [Nat.succ_mul]
        _ ≤ (h / 2) * stride := Nat.mul_le_mul_right stride hy2
    have hbound : (h / 2) * stride ≤ h * stride := Nat.mul_le_mul_right stride (by omega)
    have hcomm : stride * h = h * stride := Nat.mul_comm _ _
    unfold H264Decoder.yIdx H264Decoder.uvIdx
    rw [Nat.mod_eq_of_lt (by omega), Nat.mod_eq_of_lt (by omega), hhalf]
    exact ⟨hrow, hchroma⟩
  · intro hs hw1 hh2
    have h1 : (h - 1) * stride + (w - 1) < h * stride := by
      calc (h - 1) * stride + (w - 1) < (h - 1) * stride + stride := by omega
        _ = (h - 1 + 1) * stride := by rw [Nat.succ_mul]
        _ = h * stride := by rw [Nat.sub_add_cancel (by omega)]
    have h2 : w * h ≤ (h - 1) * stride + (w - 1) := by
      have e : (h - 1) * (w + 1) ≤ (h - 1) * stride := Nat.mul_le_mul_left _ hs
      have e2 : (h - 1) * (w + 1) = (h - 1) * w + (h - 1) := by rw [Nat.mul_succ]
      have e3 : w * h = (h - 1) * w + w := by
        have : h = (h - 1) + 1 := by omega
        conv_lhs => rw [this, Nat.mul_succ, Nat.mul_comm]
      omega
    unfold H264Decoder.yIdx
    rw [Nat.mod_eq_of_lt (by omega)]
    exact h2

/-- Claim C29 (divergence) at width 2, height 2, stride 4: the luma index of pixel `(1, 1)`
is 5, beyond the 4 bytes of the luma plane as the code lays it out. -/
theorem C29_plane_indexing_witness :
    H264Decoder.yIdx 1 4 1 = 5 ∧ 2 * 2 ≤ H264Decoder.yIdx (2 - 1) 4 (2 - 1) :=
  ⟨by decide, (C29_plane_indexing 2 2 4 (by decide) (by decide)).2 (by decide) (by decide)
    (by decide)⟩
